import Mathlib

/-!
# Entity references and the entity manager of SqMod

A shallow embedding of `Reference< T >` and `EntMan< T >` from
`source/Entity.hpp`.  The static slot table `s_Instances` and the `Reference`
objects that point into it are an explicit `World`: a list of slots and a heap of
reference cells addressed by non-zero naturals (`0` is the null pointer).
Undefined behaviour of the C++ code (null or dangling dereference, indexing a
`std::array` out of range) is a `Fault`; loops over pointer chains take fuel.
-/

namespace SqMod

/-! ## Configuration macros -/

/-- Modelled from the spec: the `SQMOD_UNKNOWN` constant of the configuration header, which is
not among the sources; the "unknown" sentinel, the value `-1` the slot constructors store in
`ID`. -/
def SQMOD_UNKNOWN : Int := -1

/-- Modelled from the spec: the `VALID_ENTITY` macro of the configuration header, which is not
among the sources; "negative/sentinel means inactive". -/
def VALID_ENTITY (e : Int) : Bool := decide (0 ≤ e)

/-- Modelled from the spec: the `VALID_ENTITYEX` macro of the configuration header, which is not
among the sources; "`id` in `[0, Limit)`". -/
def VALID_ENTITYEX (e m : Int) : Bool := decide (0 ≤ e) && decide (e < m)

/-- Modelled from the spec: the `INVALID_ENTITYEX` macro of the configuration header, which is
not among the sources; the negation of `VALID_ENTITYEX`. -/
def INVALID_ENTITYEX (e m : Int) : Bool := decide (e < 0) || decide (m ≤ e)

/-! ## Data model -/

/-- A pointer to a `Reference< T >`; `0` is the null pointer. -/
abbrev Ptr := Nat

/-- The data members of `Reference< T >`. `SqObj` values are opaque handles, `0` the null
object. -/
structure Reference where
  m_ID : Int
  m_Tag : String
  m_Data : Nat
  m_Prev : Ptr
  m_Next : Ptr
  m_Persistent : Bool
  deriving DecidableEq, Repr

/-- The members every `Ent< T >::Instance` has. `Payload` stands for the type specific members
written by `Ent< T >::Store`, `Destroyed` for the listeners connected to the signal members,
which `Ent< T >::Clear` disconnects. The defaults are those of the `Instance` constructors. -/
structure Instance where
  ID : Int := -1
  Root : Ptr := 0
  Owned : Bool := false
  Fresh : Bool := true
  Tag : String := ""
  Data : Nat := 0
  Payload : List Int := []
  Destroyed : List Nat := []
  deriving DecidableEq, Repr

/-- The ways in which the C++ code leaves defined behaviour, and running out of fuel. -/
inductive Fault where
  | nullDeref
  | dangling
  | outOfBounds
  | outOfFuel
  deriving DecidableEq, Repr

deriving instance DecidableEq for Except

/-- The static slot table `Reference< T >::s_Instances` (a `std::array` of `Limit` slots) and
the memory holding the `Reference< T >` objects: the object at address `p + 1` is
`heap[p]`, and `none` is a destroyed object. -/
structure World where
  s_Instances : List Instance
  heap : List (Option Reference)
  deriving DecidableEq, Repr

/-- The constant `Reference< T >::Max = Ent< T >::Limit`, the size of `s_Instances`. -/
def World.Max (w : World) : Int := (w.s_Instances.length : Int)

/-- Read through a pointer. -/
def World.deref (w : World) (p : Ptr) : Except Fault Reference :=
  match p with
  | 0 => .error .nullDeref
  | a + 1 =>
    match w.heap[a]? with
    | some (some r) => .ok r
    | _ => .error .dangling

/-- Overwrite the object at a non-null address. -/
def World.store (w : World) (p : Ptr) (r : Reference) : World :=
  match p with
  | 0 => w
  | a + 1 => { w with heap := w.heap.set a (some r) }

/-- Release the memory of the object at a non-null address. -/
def World.free (w : World) (p : Ptr) : World :=
  match p with
  | 0 => w
  | a + 1 => { w with heap := w.heap.set a none }

/-- Place a new object at a fresh address. -/
def World.alloc (w : World) (r : Reference) : Ptr × World :=
  (w.heap.length + 1, { w with heap := w.heap ++ [some r] })

/-- Write to members of the object a pointer points to. -/
def World.modify (w : World) (p : Ptr) (f : Reference → Reference) : Except Fault World :=
  match w.deref p with
  | .ok r => .ok (w.store p (f r))
  | .error e => .error e

/-- Read `s_Instances[i]`. -/
def World.inst (w : World) (i : Int) : Except Fault Instance :=
  if 0 ≤ i then
    match w.s_Instances[i.toNat]? with
    | some x => .ok x
    | none => .error .outOfBounds
  else .error .outOfBounds

/-- Overwrite `s_Instances[i]`. -/
def World.setInst (w : World) (i : Int) (x : Instance) : World :=
  if 0 ≤ i then { w with s_Instances := w.s_Instances.set i.toNat x } else w

/-- Write to members of `s_Instances[i]`. -/
def World.modifyInst (w : World) (i : Int) (f : Instance → Instance) : Except Fault World :=
  match w.inst i with
  | .ok x => .ok (w.setInst i (f x))
  | .error e => .error e

/-- The initial world of a kind with `limit` slots: every slot default constructed, no
`Reference` object. -/
def World.init (limit : Nat) : World :=
  { s_Instances := List.replicate limit {}, heap := [] }

/-! ## `Reference< T >` -/

/-- `Reference::Verify`. -/
def Verify (w : World) (id : Int) : Bool :=
  VALID_ENTITYEX id w.Max &&
    (match w.s_Instances[id.toNat]? with
     | some x => VALID_ENTITY x.ID
     | none => false)

/-- `Reference::InsertIntoChain`. -/
def InsertIntoChain (self : Ptr) (w : World) : Except Fault World := do
  let this ← w.deref self
  if VALID_ENTITY this.m_ID then
    let inst ← w.inst this.m_ID
    let w ←
      if inst.Root ≠ 0 then do
        let w ← w.modify self (fun r => { r with m_Next := inst.Root })
        let this ← w.deref self
        let nx ← w.deref this.m_Next
        let w ← w.modify self (fun r => { r with m_Prev := nx.m_Prev })
        let this ← w.deref self
        w.modify this.m_Next (fun r => { r with m_Prev := self })
      else pure w
    w.modifyInst this.m_ID (fun x => { x with Root := self })
  else pure w

/-- `Reference::RemoveFromChain`. -/
def RemoveFromChain (self : Ptr) (w : World) : Except Fault World := do
  let this ← w.deref self
  if VALID_ENTITY this.m_ID then
    let w ←
      if this.m_Next ≠ 0 then
        w.modify this.m_Next (fun r => { r with m_Prev := this.m_Prev })
      else pure w
    let this ← w.deref self
    let w ←
      if this.m_Prev ≠ 0 then
        w.modify this.m_Prev (fun r => { r with m_Next := this.m_Next })
      else pure w
    let this ← w.deref self
    let inst ← w.inst this.m_ID
    let w ←
      if inst.Root = self then
        w.modifyInst this.m_ID (fun x =>
          { x with Root := if this.m_Next ≠ 0 then this.m_Next
                           else if this.m_Prev ≠ 0 then this.m_Prev else 0 })
      else pure w
    w.modify self (fun r => { r with m_Next := 0, m_Prev := 0 })
  else pure w

/-- The member initialisers of `Reference::Reference(SQInt32 id)`, with the id already chosen. -/
def newReference (id : Int) : Reference :=
  { m_ID := id, m_Tag := "", m_Data := 0, m_Prev := 0, m_Next := 0, m_Persistent := false }

/-- `Reference::Reference(SQInt32 id)`: the new object is placed at a fresh address, which is
returned with the new world. -/
def Construct (id : Int) (w : World) : Except Fault (Ptr × World) := do
  let (self, w) := w.alloc (newReference (if Verify w id then id else SQMOD_UNKNOWN))
  let w ← InsertIntoChain self w
  pure (self, w)

/-- `Reference::Reference()`. -/
def ConstructDefault (w : World) : Except Fault (Ptr × World) :=
  Construct SQMOD_UNKNOWN w

/-- `Reference::Reference(const Reference &)`. -/
def ConstructCopy (r : Ptr) (w : World) : Except Fault (Ptr × World) := do
  let o ← w.deref r
  let (self, w) := w.alloc
    { m_ID := o.m_ID, m_Tag := o.m_Tag, m_Data := o.m_Data
      m_Prev := 0, m_Next := 0, m_Persistent := o.m_Persistent }
  let w ← InsertIntoChain self w
  pure (self, w)

/-- `Reference::~Reference`, after which the object no longer exists. -/
def Destruct (self : Ptr) (w : World) : Except Fault World := do
  let w ← RemoveFromChain self w
  pure (w.free self)

/-- `Reference::operator = (const Reference &)`. -/
def Assign (self r : Ptr) (w : World) : Except Fault World := do
  let _ ← w.deref self
  if self ≠ r then
    let w ← RemoveFromChain self w
    let o ← w.deref r
    let w ← w.modify self (fun x =>
      { x with m_ID := o.m_ID, m_Tag := o.m_Tag, m_Data := o.m_Data
               m_Persistent := o.m_Persistent })
    InsertIntoChain self w
  else pure w

/-- `Reference::GetID`. -/
def GetID (self : Ptr) (w : World) : Except Fault Int := do
  let this ← w.deref self
  pure this.m_ID

/-- `Reference::SetID`. -/
def SetID (self : Ptr) (id : Int) (w : World) : Except Fault World := do
  let this ← w.deref self
  if id ≠ this.m_ID then
    let w ← RemoveFromChain self w
    let w ← w.modify self (fun r => { r with m_ID := id })
    InsertIntoChain self w
  else pure w

/-- `Reference::GetPersistent`. -/
def GetPersistent (self : Ptr) (w : World) : Except Fault Bool := do
  let this ← w.deref self
  pure this.m_Persistent

/-- `Reference::SetPersistent`. -/
def SetPersistent (self : Ptr) (toggle : Bool) (w : World) : Except Fault World :=
  w.modify self (fun r => { r with m_Persistent := toggle })

/-- `Reference::IsActive`. -/
def IsActive (self : Ptr) (w : World) : Except Fault Bool := do
  let this ← w.deref self
  pure (VALID_ENTITYEX this.m_ID w.Max)

/-- The loop `for (ref = m_Prev; ref; ref = ref->m_Prev) ++refs;` of `CountRefs`, on a
`SQUint32` counter. -/
def countBackward : Nat → World → Ptr → Nat → Except Fault Nat
  | _, _, 0, refs => .ok refs
  | 0, _, _ + 1, _ => .error .outOfFuel
  | fuel + 1, w, p + 1, refs =>
    match w.deref (p + 1) with
    | .ok r => countBackward fuel w r.m_Prev ((refs + 1) % 2 ^ 32)
    | .error e => .error e

/-- The loop `for (ref = m_Next; ref; ref = ref->m_Next) ++refs;` of `CountRefs`, on a
`SQUint32` counter. -/
def countForward : Nat → World → Ptr → Nat → Except Fault Nat
  | _, _, 0, refs => .ok refs
  | 0, _, _ + 1, _ => .error .outOfFuel
  | fuel + 1, w, p + 1, refs =>
    match w.deref (p + 1) with
    | .ok r => countForward fuel w r.m_Next ((refs + 1) % 2 ^ 32)
    | .error e => .error e

/-- `Reference::CountRefs`. -/
def CountRefs (fuel : Nat) (self : Ptr) (w : World) : Except Fault Nat := do
  let this ← w.deref self
  if VALID_ENTITYEX this.m_ID w.Max then
    let refs ← countBackward fuel w this.m_Prev 1
    countForward fuel w this.m_Next refs
  else pure 0

/-! ## `EntMan< T >` -/

/-- `Ent< T >::Store`: writes the creation arguments to the type specific members. -/
def Store (inst : Instance) (args : List Int) : Instance :=
  { inst with Payload := args }

/-- `Ent< T >::Clear`: disconnects every listener from the signal members of the slot. -/
def Clear (inst : Instance) : Instance :=
  { inst with Destroyed := [] }

/-- The loop "Deactivate backward references" of `EntMan::Deactivate`, entered with `ref`.
The declaration `RefType * ref = 0, bkp = 0;` is read as declaring two pointers, which is how
`bkp` is used. -/
def deactivateBackward : Nat → Ptr → World → Except Fault World
  | _, 0, w => .ok w
  | 0, _ + 1, _ => .error .outOfFuel
  | fuel + 1, p + 1, w =>
    match w.deref (p + 1) with
    | .error e => .error e
    | .ok r =>
      if r.m_Persistent then
        match w.modify (p + 1) (fun x => { x with m_ID := SQMOD_UNKNOWN }) with
        | .error e => .error e
        | .ok w1 => deactivateBackward fuel r.m_Prev w1
      else
        match RemoveFromChain (p + 1) w with
        | .error e => .error e
        | .ok w1 => deactivateBackward fuel r.m_Prev w1

/-- The loop "Deactivate forward references" of `EntMan::Deactivate`, entered with `ref`. -/
def deactivateForward : Nat → Ptr → World → Except Fault World
  | _, 0, w => .ok w
  | 0, _ + 1, _ => .error .outOfFuel
  | fuel + 1, p + 1, w =>
    match w.deref (p + 1) with
    | .error e => .error e
    | .ok r =>
      if r.m_Persistent then
        match w.modify (p + 1) (fun x => { x with m_ID := SQMOD_UNKNOWN }) with
        | .error e => .error e
        | .ok w1 => deactivateForward fuel r.m_Next w1
      else
        match RemoveFromChain (p + 1) w with
        | .error e => .error e
        | .ok w1 => deactivateForward fuel r.m_Next w1

/-- `EntMan::Deactivate`. The payload argument is not used by the function. -/
def Deactivate (fuel : Nat) (id : Int) (w : World) : Except Fault (Bool × World) :=
  if Verify w id then do
    let inst ← w.inst id
    let root ← w.deref inst.Root
    let w ← deactivateBackward fuel root.m_Prev w
    let inst ← w.inst id
    let root ← w.deref inst.Root
    let w ← deactivateForward fuel root.m_Next w
    let w ← w.modifyInst id (fun x => { x with ID := SQMOD_UNKNOWN })
    let w ← w.modifyInst id Clear
    pure (true, w)
  else pure (false, w)

/-- The loop "Resurect backward references" of `EntMan::Activate`, entered with `ref`. -/
def resurrectBackward (id : Int) : Nat → Ptr → World → Except Fault World
  | _, 0, w => .ok w
  | 0, _ + 1, _ => .error .outOfFuel
  | fuel + 1, p + 1, w =>
    match w.deref (p + 1) with
    | .error e => .error e
    | .ok r =>
      if r.m_Persistent then
        match w.modify (p + 1) (fun x => { x with m_ID := id }) with
        | .error e => .error e
        | .ok w1 => resurrectBackward id fuel r.m_Prev w1
      else resurrectBackward id fuel r.m_Prev w

/-- The loop "Resurect forward references" of `EntMan::Activate`, entered with `ref`. -/
def resurrectForward (id : Int) : Nat → Ptr → World → Except Fault World
  | _, 0, w => .ok w
  | 0, _ + 1, _ => .error .outOfFuel
  | fuel + 1, p + 1, w =>
    match w.deref (p + 1) with
    | .error e => .error e
    | .ok r =>
      if r.m_Persistent then
        match w.modify (p + 1) (fun x => { x with m_ID := id }) with
        | .error e => .error e
        | .ok w1 => resurrectForward id fuel r.m_Next w1
      else resurrectForward id fuel r.m_Next w

/-- `EntMan::Activate`. -/
def Activate (fuel : Nat) (id : Int) (owned : Bool) (args : List Int) (w : World) :
    Except Fault (Bool × World) :=
  if INVALID_ENTITYEX id w.Max then pure (false, w)
  else if !Verify w id then do
    let inst ← w.inst id
    let w ←
      if inst.Root ≠ 0 then do
        let root ← w.deref inst.Root
        let w ← resurrectBackward id fuel root.m_Prev w
        let inst ← w.inst id
        let root ← w.deref inst.Root
        resurrectForward id fuel root.m_Next w
      else pure w
    let w ← w.modifyInst id (fun x => { x with ID := id })
    let w ← w.modifyInst id (fun x => { x with Owned := owned })
    let inst ← w.inst id
    let w ←
      if inst.Fresh then
        w.modifyInst id (fun x => { x with Tag := "", Data := 0 })
      else pure w
    let w ← w.modifyInst id (fun x => Store x args)
    pure (true, w)
  else pure (false, w)

/-! ## Scenarios -/

/-- A call of the entity manager. -/
inductive Call where
  | activate (id : Int) (owned : Bool) (args : List Int)
  | deactivate (id : Int)
  deriving DecidableEq, Repr

/-- Make a sequence of `Activate`/`Deactivate` calls, one after the other. -/
def runCalls (fuel : Nat) : List Call → World → Except Fault World
  | [], w => .ok w
  | .activate id owned args :: cs, w =>
    match Activate fuel id owned args w with
    | .ok (_, w1) => runCalls fuel cs w1
    | .error e => .error e
  | .deactivate id :: cs, w =>
    match Deactivate fuel id w with
    | .ok (_, w1) => runCalls fuel cs w1
    | .error e => .error e


/-- Slot `0` of a kind with two slots is activated, the references `a` and then `b` are
constructed on it (`b` becomes the root of the chain), and the slot is deactivated and
activated again. The result is what `Deactivate` returned, `a.GetID()` and `b.GetID()` after
it, and both again after the second `Activate`. -/
def nonPersistentScenario : Except Fault (Bool × Int × Int × Int × Int) := do
  let (_, w) ← Activate 8 0 true [] (World.init 2)
  let (a, w) ← Construct 0 w
  let (b, w) ← Construct 0 w
  let (done, w) ← Deactivate 8 0 w
  let ida ← GetID a w
  let idb ← GetID b w
  let (_, w) ← Activate 8 0 true [] w
  let ida' ← GetID a w
  let idb' ← GetID b w
  pure (done, ida, idb, ida', idb')

/-- Slot `0` of a kind with two slots is activated, one reference is constructed on it and made
persistent, and the slot is deactivated. The result is what `Deactivate` returned, the `Root` of
the slot and the id of the reference. -/
def persistentRootScenario : Except Fault (Bool × Ptr × Ptr × Int) := do
  let (_, w) ← Activate 8 0 true [] (World.init 2)
  let (r, w) ← Construct 0 w
  let w ← SetPersistent r true w
  let (done, w) ← Deactivate 8 0 w
  let slot ← w.inst 0
  let idr ← GetID r w
  pure (done, r, slot.Root, idr)

/-- An unbound reference of a kind with two slots, both inactive, is given the id `id` with
`SetID`. The result is `Verify(id)` and the id of the reference afterwards. -/
def setIDScenario (id : Int) : Except Fault (Bool × Int) := do
  let (r, w) ← ConstructDefault (World.init 2)
  let w ← SetID r id w
  let idr ← GetID r w
  pure (Verify w id, idr)

/-! ## The two outcomes of `Activate` and `Deactivate` -/

/-- The statements of `EntMan::Activate` that resurrect the persistent references. -/
def activateWalk (fuel : Nat) (id : Int) (w : World) : Except Fault World := do
  let inst ← w.inst id
  if inst.Root ≠ 0 then do
    let root ← w.deref inst.Root
    let w ← resurrectBackward id fuel root.m_Prev w
    let inst ← w.inst id
    let root ← w.deref inst.Root
    resurrectForward id fuel root.m_Next w
  else pure w

/-- The statements of `EntMan::Activate` that enable the slot. -/
def activateSlot (id : Int) (owned : Bool) (args : List Int) (w : World) :
    Except Fault World := do
  let w ← w.modifyInst id (fun x => { x with ID := id })
  let w ← w.modifyInst id (fun x => { x with Owned := owned })
  let inst ← w.inst id
  let w ←
    if inst.Fresh then
      w.modifyInst id (fun x => { x with Tag := "", Data := 0 })
    else pure w
  w.modifyInst id (fun x => Store x args)

/-- The statements of `EntMan::Activate` on the path that returns `true`. -/
def activateBody (fuel : Nat) (id : Int) (owned : Bool) (args : List Int) (w : World) :
    Except Fault World := do
  let w ← activateWalk fuel id w
  activateSlot id owned args w

/-- The statements of `EntMan::Deactivate` on the path that returns `true`. -/
def deactivateBody (fuel : Nat) (id : Int) (w : World) : Except Fault World := do
  let inst ← w.inst id
  let root ← w.deref inst.Root
  let w ← deactivateBackward fuel root.m_Prev w
  let inst ← w.inst id
  let root ← w.deref inst.Root
  let w ← deactivateForward fuel root.m_Next w
  let w ← w.modifyInst id (fun x => { x with ID := SQMOD_UNKNOWN })
  w.modifyInst id Clear

/-! ## Example worlds -/

/-- A world with two slots, slot `0` active and the target of one reference. -/
def worldOneRef : World :=
  { s_Instances := [{ ID := 0, Root := 1 }, {}]
    heap := [some { m_ID := 0, m_Tag := "", m_Data := 0, m_Prev := 0, m_Next := 0,
                    m_Persistent := false }] }

/-- A world with two slots: slot `0` is inactive and keeps a chain of three references from an
earlier life, the root in the middle, the first persistent and disabled. -/
def worldLeftover : World :=
  { s_Instances := [{ ID := -1, Root := 2 }, {}]
    heap := [some { m_ID := -1, m_Tag := "", m_Data := 0, m_Prev := 0, m_Next := 2,
                    m_Persistent := true },
             some { m_ID := 0, m_Tag := "", m_Data := 0, m_Prev := 1, m_Next := 3,
                    m_Persistent := false },
             some { m_ID := -1, m_Tag := "", m_Data := 0, m_Prev := 2, m_Next := 0,
                    m_Persistent := true }] }

/-- A world with two slots, slot `0` active, and one unbound reference. -/
def worldLive : World :=
  { s_Instances := [{ ID := 0 }, {}], heap := [some (newReference SQMOD_UNKNOWN)] }

/-- A world with two slots: slot `0` is active and its chain has four references bound to it,
the root second, the first and the last persistent. -/
def worldChain : World :=
  { s_Instances := [{ ID := 0, Root := 2 }, {}]
    heap := [some { m_ID := 0, m_Tag := "", m_Data := 0, m_Prev := 0, m_Next := 2,
                    m_Persistent := true },
             some { m_ID := 0, m_Tag := "", m_Data := 0, m_Prev := 1, m_Next := 3,
                    m_Persistent := false },
             some { m_ID := 0, m_Tag := "", m_Data := 0, m_Prev := 2, m_Next := 4,
                    m_Persistent := false },
             some { m_ID := 0, m_Tag := "", m_Data := 0, m_Prev := 3, m_Next := 0,
                    m_Persistent := true }] }

/-! ## Reference chains -/

/-- The objects at the addresses `L` exist and are linked to one another in this order, the
first with `m_Prev = p` and the last with `m_Next = n`. -/
def isSeg (w : World) : Ptr → List Ptr → Ptr → Bool
  | _, [], _ => true
  | p, a :: L, n =>
    match w.deref a with
    | .ok r => r.m_Prev == p && r.m_Next == L.headD n && isSeg w a L n
    | .error _ => false

/-- The object at address `a` exists and its id is `id` or negative. -/
def targets (w : World) (id : Int) (a : Ptr) : Bool :=
  match w.deref a with
  | .ok r => r.m_ID == id || decide (r.m_ID < 0)
  | .error _ => false

/-- The reference chain of slot `id` is well formed: the `Root` of the slot is `root`, and
`B ++ root :: A` is a doubly linked list, from the node without predecessor to the node
without successor, of distinct references each of which is bound to `id` or disabled. -/
def isChainOf (w : World) (id : Int) (B : List Ptr) (root : Ptr) (A : List Ptr) : Bool :=
  (match w.inst id with
   | .ok x => x.Root == root
   | .error _ => false) &&
  isSeg w 0 (B ++ root :: A) 0 &&
  decide (B ++ root :: A).Nodup &&
  (B ++ root :: A).all (targets w id)

/-- What a resurrection walk of `Activate` over the nodes `Y` does to the object `r` at
address `q`. -/
def resurrected (id : Int) (Y : List Ptr) (q : Ptr) (r : Reference) : Reference :=
  if q ∈ Y ∧ r.m_Persistent = true then { r with m_ID := id } else r

/-- Construct `n` references with `Reference(id)`, one after the other; the result lists them
from the last constructed to the first. -/
def constructN (id : Int) : Nat → World → Except Fault (List Ptr × World)
  | 0, w => .ok ([], w)
  | n + 1, w => do
    let (ps, w) ← constructN id n w
    let (p, w) ← Construct id w
    pure (p :: ps, w)

/-- Slot `id` is active and its chain is the doubly linked list `L` of distinct references
bound to `id`, the root of the chain first. -/
structure BoundChain (w : World) (id : Int) (L : List Ptr) : Prop where
  slot : ∃ x, w.inst id = .ok x ∧ 0 ≤ x.ID ∧ x.Root = L.headD 0
  seg : isSeg w 0 L 0 = true
  nodup : L.Nodup
  bound : ∀ a ∈ L, ∃ r, w.deref a = .ok r ∧ r.m_ID = id

/-- What a deactivation walk of `Deactivate` over the nodes `Y` does to ids and persistence
flags: it takes the world `w` to a world `w'` in which the persistent references among `Y` are
disabled and every other reference has the id it had. -/
def DisabledOn (Y : List Ptr) (w w' : World) : Prop :=
  ∀ q r, w.deref q = .ok r →
    ∃ r', w'.deref q = .ok r' ∧ r'.m_Persistent = r.m_Persistent ∧
      r'.m_ID = if q ∈ Y ∧ r.m_Persistent = true then SQMOD_UNKNOWN else r.m_ID

/-- The `ID` members of the slots, in the order of the slot table. -/
def World.ids (w : World) : List Int := w.s_Instances.map Instance.ID

/-- Whether slot `i` was most recently activated and not yet deactivated by the calls `cs`,
when `b` says whether it was active before them. -/
def activeAfter : List Call → Int → Bool → Bool
  | [], _, b => b
  | .activate j _ _ :: cs, i, b => activeAfter cs i (b || decide (j = i))
  | .deactivate j :: cs, i, b => activeAfter cs i (b && !decide (j = i))

/-! ## Event types and the event tables of the entity kinds -/

/-- Modelled from the spec: the event type constants (their enumeration is not among the sources).
Each constant named by the tables of the entity kinds is one constructor; `EVT_UNKNOWN` also
stands for every value of the `SQInt32` that is none of the others: no table has a case for it. -/
inductive EventID where
  | EVT_UNKNOWN | EVT_BLIPCREATED | EVT_BLIPDESTROYED | EVT_BLIPCUSTOM | EVT_CHECKPOINTCREATED
  | EVT_CHECKPOINTDESTROYED | EVT_CHECKPOINTCUSTOM | EVT_CHECKPOINTENTERED | EVT_CHECKPOINTEXITED
  | EVT_KEYBINDCREATED | EVT_KEYBINDDESTROYED | EVT_KEYBINDCUSTOM | EVT_KEYBINDKEYPRESS
  | EVT_KEYBINDKEYRELEASE | EVT_OBJECTCREATED | EVT_OBJECTDESTROYED | EVT_OBJECTCUSTOM
  | EVT_OBJECTSHOT | EVT_OBJECTBUMP | EVT_PICKUPCREATED | EVT_PICKUPDESTROYED | EVT_PICKUPCUSTOM
  | EVT_PICKUPRESPAWN | EVT_PICKUPCLAIMED | EVT_PICKUPCOLLECTED | EVT_PLAYERCREATED
  | EVT_PLAYERDESTROYED | EVT_PLAYERCUSTOM | EVT_PLAYERAWAY | EVT_PLAYERGAMEKEYS
  | EVT_PLAYERRENAME | EVT_PLAYERREQUESTCLASS | EVT_PLAYERREQUESTSPAWN | EVT_PLAYERSPAWN
  | EVT_PLAYERSTARTTYPING | EVT_PLAYERSTOPTYPING | EVT_PLAYERCHAT | EVT_PLAYERCOMMAND
  | EVT_PLAYERMESSAGE | EVT_PLAYERHEALTH | EVT_PLAYERARMOUR | EVT_PLAYERWEAPON | EVT_PLAYERMOVE
  | EVT_PLAYERWASTED | EVT_PLAYERKILLED | EVT_PLAYERTEAMKILL | EVT_PLAYERSPECTATE
  | EVT_PLAYERCRASHREPORT | EVT_PLAYERBURNING | EVT_PLAYERCROUCHING | EVT_PLAYERSTATE
  | EVT_PLAYERACTION | EVT_STATENONE | EVT_STATENORMAL | EVT_STATESHOOTING | EVT_STATEDRIVER
  | EVT_STATEPASSENGER | EVT_STATEENTERDRIVER | EVT_STATEENTERPASSENGER | EVT_STATEEXITVEHICLE
  | EVT_STATEUNSPAWNED | EVT_ACTIONNONE | EVT_ACTIONNORMAL | EVT_ACTIONAIMING
  | EVT_ACTIONSHOOTING | EVT_ACTIONJUMPING | EVT_ACTIONLIEDOWN | EVT_ACTIONGETTINGUP
  | EVT_ACTIONJUMPVEHICLE | EVT_ACTIONDRIVING | EVT_ACTIONDYING | EVT_ACTIONWASTED
  | EVT_ACTIONEMBARKING | EVT_ACTIONDISEMBARKING | EVT_VEHICLEEMBARKING | EVT_VEHICLEEMBARKED
  | EVT_VEHICLEDISEMBARK | EVT_SPHEREENTERED | EVT_SPHEREEXITED | EVT_SPHERECREATED
  | EVT_SPHEREDESTROYED | EVT_SPHERECUSTOM | EVT_SPRITECREATED | EVT_SPRITEDESTROYED
  | EVT_SPRITECUSTOM | EVT_TEXTDRAWCREATED | EVT_TEXTDRAWDESTROYED | EVT_TEXTDRAWCUSTOM
  | EVT_VEHICLECREATED | EVT_VEHICLEDESTROYED | EVT_VEHICLECUSTOM | EVT_VEHICLERESPAWN
  | EVT_VEHICLEEXPLODE | EVT_VEHICLEHEALTH | EVT_VEHICLEMOVE
  deriving DecidableEq, Repr

/-- Source `Ent< CBlip >::InEvent(type)` (Entity.hpp 143-154). -/
def Ent_CBlip.InEvent (type : EventID) : Bool :=
  match type with
  | .EVT_BLIPCREATED | .EVT_BLIPDESTROYED | .EVT_BLIPCUSTOM => true
  | _ => false

/-- Source `Ent< CBlip >::InEvent(type, inversed)` (Entity.hpp 156-167). -/
def Ent_CBlip.InEvent2 (type : EventID) (_inversed : Bool) : Bool :=
  match type with
  | .EVT_BLIPCREATED | .EVT_BLIPDESTROYED | .EVT_BLIPCUSTOM => true
  | _ => false

/-- Source `Ent< CCheckpoint >::InEvent(type)` (Entity.hpp 258-271). -/
def Ent_CCheckpoint.InEvent (type : EventID) : Bool :=
  match type with
  | .EVT_CHECKPOINTCREATED | .EVT_CHECKPOINTDESTROYED | .EVT_CHECKPOINTCUSTOM
  | .EVT_CHECKPOINTENTERED | .EVT_CHECKPOINTEXITED => true
  | _ => false

/-- Source `Ent< CCheckpoint >::InEvent(type, inversed)` (Entity.hpp 274-288). -/
def Ent_CCheckpoint.InEvent2 (type : EventID) (inversed : Bool) : Bool :=
  match type with
  | .EVT_CHECKPOINTCREATED | .EVT_CHECKPOINTDESTROYED | .EVT_CHECKPOINTCUSTOM => true
  | .EVT_CHECKPOINTENTERED | .EVT_CHECKPOINTEXITED => !inversed
  | _ => false

/-- Source `Ent< CKeybind >::InEvent(type)` (Entity.hpp 391-404). -/
def Ent_CKeybind.InEvent (type : EventID) : Bool :=
  match type with
  | .EVT_KEYBINDCREATED | .EVT_KEYBINDDESTROYED | .EVT_KEYBINDCUSTOM | .EVT_KEYBINDKEYPRESS
  | .EVT_KEYBINDKEYRELEASE => true
  | _ => false

/-- Source `Ent< CKeybind >::InEvent(type, inversed)` (Entity.hpp 407-421). -/
def Ent_CKeybind.InEvent2 (type : EventID) (inversed : Bool) : Bool :=
  match type with
  | .EVT_KEYBINDCREATED | .EVT_KEYBINDDESTROYED | .EVT_KEYBINDCUSTOM => true
  | .EVT_KEYBINDKEYPRESS | .EVT_KEYBINDKEYRELEASE => !inversed
  | _ => false

/-- Source `Ent< CObject >::InEvent(type)` (Entity.hpp 512-525). -/
def Ent_CObject.InEvent (type : EventID) : Bool :=
  match type with
  | .EVT_OBJECTCREATED | .EVT_OBJECTDESTROYED | .EVT_OBJECTCUSTOM | .EVT_OBJECTSHOT
  | .EVT_OBJECTBUMP => true
  | _ => false

/-- Source `Ent< CObject >::InEvent(type, inversed)` (Entity.hpp 528-542). -/
def Ent_CObject.InEvent2 (type : EventID) (inversed : Bool) : Bool :=
  match type with
  | .EVT_OBJECTCREATED | .EVT_OBJECTDESTROYED | .EVT_OBJECTCUSTOM => true
  | .EVT_OBJECTSHOT | .EVT_OBJECTBUMP => !inversed
  | _ => false

/-- Source `Ent< CPickup >::InEvent(type)` (Entity.hpp 635-649). -/
def Ent_CPickup.InEvent (type : EventID) : Bool :=
  match type with
  | .EVT_PICKUPCREATED | .EVT_PICKUPDESTROYED | .EVT_PICKUPCUSTOM | .EVT_PICKUPRESPAWN
  | .EVT_PICKUPCLAIMED | .EVT_PICKUPCOLLECTED => true
  | _ => false

/-- Source `Ent< CPickup >::InEvent(type, inversed)` (Entity.hpp 652-667). -/
def Ent_CPickup.InEvent2 (type : EventID) (inversed : Bool) : Bool :=
  match type with
  | .EVT_PICKUPCREATED | .EVT_PICKUPDESTROYED | .EVT_PICKUPCUSTOM | .EVT_PICKUPRESPAWN => true
  | .EVT_PICKUPCLAIMED | .EVT_PICKUPCOLLECTED => !inversed
  | _ => false

/-- Source `Ent< CPlayer >::InEvent(type)` (Entity.hpp 872-942). -/
def Ent_CPlayer.InEvent (type : EventID) : Bool :=
  match type with
  | .EVT_PLAYERCREATED | .EVT_PLAYERDESTROYED | .EVT_PLAYERCUSTOM | .EVT_PLAYERAWAY
  | .EVT_PLAYERGAMEKEYS | .EVT_PLAYERRENAME | .EVT_PLAYERREQUESTCLASS | .EVT_PLAYERREQUESTSPAWN
  | .EVT_PLAYERSPAWN | .EVT_PLAYERSTARTTYPING | .EVT_PLAYERSTOPTYPING | .EVT_PLAYERCHAT
  | .EVT_PLAYERCOMMAND | .EVT_PLAYERMESSAGE | .EVT_PLAYERHEALTH | .EVT_PLAYERARMOUR
  | .EVT_PLAYERWEAPON | .EVT_PLAYERMOVE | .EVT_PLAYERWASTED | .EVT_PLAYERKILLED
  | .EVT_PLAYERTEAMKILL | .EVT_PLAYERSPECTATE | .EVT_PLAYERCRASHREPORT | .EVT_PLAYERBURNING
  | .EVT_PLAYERCROUCHING | .EVT_PLAYERSTATE | .EVT_PLAYERACTION | .EVT_STATENONE
  | .EVT_STATENORMAL | .EVT_STATESHOOTING | .EVT_STATEDRIVER | .EVT_STATEPASSENGER
  | .EVT_STATEENTERDRIVER | .EVT_STATEENTERPASSENGER | .EVT_STATEEXITVEHICLE
  | .EVT_STATEUNSPAWNED | .EVT_ACTIONNONE | .EVT_ACTIONNORMAL | .EVT_ACTIONAIMING
  | .EVT_ACTIONSHOOTING | .EVT_ACTIONJUMPING | .EVT_ACTIONLIEDOWN | .EVT_ACTIONGETTINGUP
  | .EVT_ACTIONJUMPVEHICLE | .EVT_ACTIONDRIVING | .EVT_ACTIONDYING | .EVT_ACTIONWASTED
  | .EVT_ACTIONEMBARKING | .EVT_ACTIONDISEMBARKING | .EVT_KEYBINDKEYPRESS
  | .EVT_KEYBINDKEYRELEASE | .EVT_VEHICLEEMBARKING | .EVT_VEHICLEEMBARKED
  | .EVT_VEHICLEDISEMBARK | .EVT_PICKUPCLAIMED | .EVT_PICKUPCOLLECTED | .EVT_OBJECTSHOT
  | .EVT_OBJECTBUMP | .EVT_CHECKPOINTENTERED | .EVT_CHECKPOINTEXITED | .EVT_SPHEREENTERED
  | .EVT_SPHEREEXITED => true
  | _ => false

/-- Source `Ent< CPlayer >::InEvent(type, inversed)` (Entity.hpp 945-1016). -/
def Ent_CPlayer.InEvent2 (type : EventID) (inversed : Bool) : Bool :=
  match type with
  | .EVT_PLAYERCREATED | .EVT_PLAYERDESTROYED | .EVT_PLAYERCUSTOM | .EVT_PLAYERAWAY
  | .EVT_PLAYERGAMEKEYS | .EVT_PLAYERRENAME | .EVT_PLAYERREQUESTCLASS | .EVT_PLAYERREQUESTSPAWN
  | .EVT_PLAYERSPAWN | .EVT_PLAYERSTARTTYPING | .EVT_PLAYERSTOPTYPING | .EVT_PLAYERCHAT
  | .EVT_PLAYERCOMMAND | .EVT_PLAYERMESSAGE | .EVT_PLAYERHEALTH | .EVT_PLAYERARMOUR
  | .EVT_PLAYERWEAPON | .EVT_PLAYERMOVE | .EVT_PLAYERWASTED | .EVT_PLAYERKILLED
  | .EVT_PLAYERTEAMKILL | .EVT_PLAYERSPECTATE | .EVT_PLAYERCRASHREPORT | .EVT_PLAYERBURNING
  | .EVT_PLAYERCROUCHING | .EVT_PLAYERSTATE | .EVT_PLAYERACTION | .EVT_STATENONE
  | .EVT_STATENORMAL | .EVT_STATESHOOTING | .EVT_STATEDRIVER | .EVT_STATEPASSENGER
  | .EVT_STATEENTERDRIVER | .EVT_STATEENTERPASSENGER | .EVT_STATEEXITVEHICLE
  | .EVT_STATEUNSPAWNED | .EVT_ACTIONNONE | .EVT_ACTIONNORMAL | .EVT_ACTIONAIMING
  | .EVT_ACTIONSHOOTING | .EVT_ACTIONJUMPING | .EVT_ACTIONLIEDOWN | .EVT_ACTIONGETTINGUP
  | .EVT_ACTIONJUMPVEHICLE | .EVT_ACTIONDRIVING | .EVT_ACTIONDYING | .EVT_ACTIONWASTED
  | .EVT_ACTIONEMBARKING | .EVT_ACTIONDISEMBARKING => true
  | .EVT_KEYBINDKEYPRESS | .EVT_KEYBINDKEYRELEASE | .EVT_VEHICLEEMBARKING
  | .EVT_VEHICLEEMBARKED | .EVT_VEHICLEDISEMBARK | .EVT_PICKUPCLAIMED | .EVT_PICKUPCOLLECTED
  | .EVT_OBJECTSHOT | .EVT_OBJECTBUMP | .EVT_CHECKPOINTENTERED | .EVT_CHECKPOINTEXITED
  | .EVT_SPHEREENTERED | .EVT_SPHEREEXITED => inversed
  | _ => false

/-- Source `Ent< CSphere >::InEvent(type)` (Entity.hpp 1107-1120). -/
def Ent_CSphere.InEvent (type : EventID) : Bool :=
  match type with
  | .EVT_SPHERECREATED | .EVT_SPHEREDESTROYED | .EVT_SPHERECUSTOM | .EVT_SPHEREENTERED
  | .EVT_SPHEREEXITED => true
  | _ => false

/-- Source `Ent< CSphere >::InEvent(type, inversed)` (Entity.hpp 1123-1137). -/
def Ent_CSphere.InEvent2 (type : EventID) (inversed : Bool) : Bool :=
  match type with
  | .EVT_SPHERECREATED | .EVT_SPHEREDESTROYED | .EVT_SPHERECUSTOM => true
  | .EVT_SPHEREENTERED | .EVT_SPHEREEXITED => !inversed
  | _ => false

/-- Source `Ent< CSprite >::InEvent(type)` (Entity.hpp 1227-1238). -/
def Ent_CSprite.InEvent (type : EventID) : Bool :=
  match type with
  | .EVT_SPRITECREATED | .EVT_SPRITEDESTROYED | .EVT_SPRITECUSTOM => true
  | _ => false

/-- Source `Ent< CSprite >::InEvent(type, inversed)` (Entity.hpp 1241-1252). -/
def Ent_CSprite.InEvent2 (type : EventID) (_inversed : Bool) : Bool :=
  match type with
  | .EVT_SPRITECREATED | .EVT_SPRITEDESTROYED | .EVT_SPRITECUSTOM => true
  | _ => false

/-- Source `Ent< CTextdraw >::InEvent(type)` (Entity.hpp 1342-1353). -/
def Ent_CTextdraw.InEvent (type : EventID) : Bool :=
  match type with
  | .EVT_TEXTDRAWCREATED | .EVT_TEXTDRAWDESTROYED | .EVT_TEXTDRAWCUSTOM => true
  | _ => false

/-- Source `Ent< CTextdraw >::InEvent(type, inversed)` (Entity.hpp 1356-1367). -/
def Ent_CTextdraw.InEvent2 (type : EventID) (_inversed : Bool) : Bool :=
  match type with
  | .EVT_TEXTDRAWCREATED | .EVT_TEXTDRAWDESTROYED | .EVT_TEXTDRAWCUSTOM => true
  | _ => false

/-- Source `Ent< CVehicle >::InEvent(type)` (Entity.hpp 1468-1486). -/
def Ent_CVehicle.InEvent (type : EventID) : Bool :=
  match type with
  | .EVT_VEHICLECREATED | .EVT_VEHICLEDESTROYED | .EVT_VEHICLECUSTOM | .EVT_VEHICLERESPAWN
  | .EVT_VEHICLEEXPLODE | .EVT_VEHICLEHEALTH | .EVT_VEHICLEMOVE | .EVT_VEHICLEEMBARKING
  | .EVT_VEHICLEEMBARKED | .EVT_VEHICLEDISEMBARK => true
  | _ => false

/-- Source `Ent< CVehicle >::InEvent(type, inversed)` (Entity.hpp 1489-1508). -/
def Ent_CVehicle.InEvent2 (type : EventID) (inversed : Bool) : Bool :=
  match type with
  | .EVT_VEHICLECREATED | .EVT_VEHICLEDESTROYED | .EVT_VEHICLECUSTOM | .EVT_VEHICLERESPAWN
  | .EVT_VEHICLEEXPLODE | .EVT_VEHICLEHEALTH | .EVT_VEHICLEMOVE => true
  | .EVT_VEHICLEEMBARKING | .EVT_VEHICLEEMBARKED | .EVT_VEHICLEDISEMBARK => !inversed
  | _ => false

/-- The ten entity kinds `T` of `Ent< T >`. -/
inductive EntType where
  | CBlip
  | CCheckpoint
  | CKeybind
  | CObject
  | CPickup
  | CPlayer
  | CSphere
  | CSprite
  | CTextdraw
  | CVehicle
  deriving DecidableEq, Repr

/-- Source `Ent< T >::DestroyEvID`. -/
def EntType.DestroyEvID : EntType → EventID
  | .CBlip => .EVT_BLIPDESTROYED
  | .CCheckpoint => .EVT_CHECKPOINTDESTROYED
  | .CKeybind => .EVT_KEYBINDDESTROYED
  | .CObject => .EVT_OBJECTDESTROYED
  | .CPickup => .EVT_PICKUPDESTROYED
  | .CPlayer => .EVT_PLAYERDESTROYED
  | .CSphere => .EVT_SPHEREDESTROYED
  | .CSprite => .EVT_SPRITEDESTROYED
  | .CTextdraw => .EVT_TEXTDRAWDESTROYED
  | .CVehicle => .EVT_VEHICLEDESTROYED

/-- Source `Ent< T >::InEvent(type)`, by kind. -/
def EntType.InEvent : EntType → EventID → Bool
  | .CBlip => Ent_CBlip.InEvent
  | .CCheckpoint => Ent_CCheckpoint.InEvent
  | .CKeybind => Ent_CKeybind.InEvent
  | .CObject => Ent_CObject.InEvent
  | .CPickup => Ent_CPickup.InEvent
  | .CPlayer => Ent_CPlayer.InEvent
  | .CSphere => Ent_CSphere.InEvent
  | .CSprite => Ent_CSprite.InEvent
  | .CTextdraw => Ent_CTextdraw.InEvent
  | .CVehicle => Ent_CVehicle.InEvent

/-- Source `Ent< T >::InEvent(type, inversed)`, by kind. -/
def EntType.InEvent2 : EntType → EventID → Bool → Bool
  | .CBlip => Ent_CBlip.InEvent2
  | .CCheckpoint => Ent_CCheckpoint.InEvent2
  | .CKeybind => Ent_CKeybind.InEvent2
  | .CObject => Ent_CObject.InEvent2
  | .CPickup => Ent_CPickup.InEvent2
  | .CPlayer => Ent_CPlayer.InEvent2
  | .CSphere => Ent_CSphere.InEvent2
  | .CSprite => Ent_CSprite.InEvent2
  | .CTextdraw => Ent_CTextdraw.InEvent2
  | .CVehicle => Ent_CVehicle.InEvent2
/-- The event types that tie a kind to a pairing with another entity: key press and release,
vehicle embarking, embarked and disembark, pickup claimed and collected, object shot and bump,
checkpoint entered and exited, sphere entered and exited. -/
def pairingEvent : EventID → Bool
  | .EVT_KEYBINDKEYPRESS | .EVT_KEYBINDKEYRELEASE | .EVT_VEHICLEEMBARKING | .EVT_VEHICLEEMBARKED
  | .EVT_VEHICLEDISEMBARK | .EVT_PICKUPCLAIMED | .EVT_PICKUPCOLLECTED | .EVT_OBJECTSHOT
  | .EVT_OBJECTBUMP | .EVT_CHECKPOINTENTERED | .EVT_CHECKPOINTEXITED | .EVT_SPHEREENTERED
  | .EVT_SPHEREEXITED => true
  | _ => false

/-! ## Global tags and sequences of operations -/

/-- Source `Reference::GetGlobalTag` (Entity.hpp 1793-1805); the warning is not modelled. -/
def GetGlobalTag (self : Ptr) (w : World) : Except Fault String := do
  let this ← w.deref self
  if VALID_ENTITYEX this.m_ID w.Max then
    let inst ← w.inst this.m_ID
    pure inst.Tag
  else pure ""

/-- Source `Reference::SetGlobalTag` (Entity.hpp 1810-1820); the warning is not modelled. -/
def SetGlobalTag (self : Ptr) (tag : String) (w : World) : Except Fault World := do
  let this ← w.deref self
  if VALID_ENTITYEX this.m_ID w.Max then
    w.modifyInst this.m_ID (fun x => { x with Tag := tag })
  else pure w

/-- Activate slot `0` of a fresh table, bind a reference to it, set the global tag of the slot
to `t` through the reference, deactivate and activate the slot again, and read the global tag
through the same reference: the results of the two calls of `Activate`, of `Deactivate`, the tag
read, and the `Fresh` member of the slot before the second activation. -/
def globalTagScenario (t : String) : Except Fault (Bool × Bool × Bool × String × Bool) := do
  let (a1, w) ← Activate 4 0 false [] (World.init 2)
  let (r, w) ← Construct 0 w
  let w ← SetGlobalTag r t w
  let (d, w) ← Deactivate 4 0 w
  let inst ← w.inst 0
  let (a2, w) ← Activate 4 0 false [] w
  let tag ← GetGlobalTag r w
  pure (a1, d, a2, tag, inst.Fresh)

/-- One operation of a script or of the host on the references and slots of one entity kind:
the constructors `Reference(id)` and `Reference(const Reference &)`, the destructor,
`SetID`, the copy assignment, `SetPersistent`, `EntMan::Activate` and `EntMan::Deactivate`. -/
inductive Op where
  | construct (id : Int)
  | copy (r : Ptr)
  | destroy (self : Ptr)
  | setID (self : Ptr) (id : Int)
  | assign (self r : Ptr)
  | setPersistent (self : Ptr) (toggle : Bool)
  | activate (id : Int) (owned : Bool) (args : List Int)
  | deactivate (id : Int)
  deriving DecidableEq, Repr

/-- Run one operation; the address of a constructed object and the results of `Activate` and
`Deactivate` are dropped. -/
def runOp (fuel : Nat) : Op → World → Except Fault World
  | .construct id, w => (Construct id w).map Prod.snd
  | .copy r, w => (ConstructCopy r w).map Prod.snd
  | .destroy self, w => Destruct self w
  | .setID self id, w => SetID self id w
  | .assign self r, w => Assign self r w
  | .setPersistent self toggle, w => SetPersistent self toggle w
  | .activate id owned args, w => (Activate fuel id owned args w).map Prod.snd
  | .deactivate id, w => (Deactivate fuel id w).map Prod.snd

/-- Run the operations in order. -/
def runOps (fuel : Nat) : List Op → World → Except Fault World
  | [], w => .ok w
  | op :: ops, w => (runOp fuel op w).bind (runOps fuel ops)

/-- The references that exist: the addresses of the heap cells that hold an object. -/
def World.existing (w : World) : List Ptr :=
  (List.range w.heap.length).filterMap fun p =>
    match w.heap[p]? with
    | some (some _) => some (p + 1)
    | _ => none

/-- Slot `0` is activated and two references are bound to it, the first of them persistent;
the slot is deactivated; then the second reference (the root) and the first are destroyed. -/
def danglingRootOps : List Op :=
  [.activate 0 false [], .construct 0, .setPersistent 1 true, .construct 0, .deactivate 0,
   .destroy 2, .destroy 1]

/-! ## `GlobalFilter< T >` -/

/-- Modelled from the spec: a script function held by an event (`Function`, whose class is not
among the sources). `none` is the null function; a function is known by the value it yields for
its arguments, `none` when it yields no value, and touches neither the filter nor the slots. -/
abbrev ScriptFunction := Option (List Int → Option Bool)

/-- A call of a script function, with its arguments. -/
inductive HookCall where
  | OnInclude (ent : Int) (header : Int)
  | OnExclude (ent : Int) (header : Int)
  | OnCleared (header : Int)
  | OnRelease (id : Int)
  deriving DecidableEq, Repr

/-- The members of `GlobalEvent` that a filter reads. -/
structure GlobalEvent where
  m_Type : EventID
  m_OnInclude : ScriptFunction := none
  m_OnExclude : ScriptFunction := none
  m_OnCleared : ScriptFunction := none
  m_OnRelease : ScriptFunction := none

/-- The members of `GlobalFilter< T >`: the bit set and the parent event, which no member
function of the filter writes. `invoked` records the script functions the filter has called,
in order. -/
structure GlobalFilter where
  m_Filter : List Bool
  m_Event : GlobalEvent
  invoked : List HookCall := []

/-- Modelled from the spec: connecting a listener to a signal, by identity. -/
def Connect (listeners : List Nat) (self : Nat) : List Nat :=
  if self ∈ listeners then listeners else listeners ++ [self]

/-- Modelled from the spec: disconnecting a listener from a signal, by identity. -/
def Disconnect (listeners : List Nat) (self : Nat) : List Nat :=
  listeners.filter (fun l => l ≠ self)

/-- Reading a bit with `operator []` of the bit set: outside the set the behaviour is
undefined. -/
def testBit (bits : List Bool) (i : Int) : Except Fault Bool :=
  if 0 ≤ i then
    match bits[i.toNat]? with
    | some b => .ok b
    | none => .error .outOfBounds
  else .error .outOfBounds

/-- Writing a bit with `set` of the bit set: outside the set it throws, which a `noexcept`
function cannot let pass. -/
def setBit (bits : List Bool) (i : Int) (v : Bool) : Except Fault (List Bool) :=
  if 0 ≤ i ∧ i.toNat < bits.length then .ok (bits.set i.toNat v) else .error .outOfBounds

/-- `RefType::Get(id).Destroyed().Connect(this)` or `...Disconnect(this)`, by `act`. -/
def onDestroyed (act : List Nat → Nat → List Nat) (self : Nat) (id : Int) (w : World) :
    Except Fault World :=
  w.modifyInst id (fun x => { x with Destroyed := act x.Destroyed self })

/-- `GlobalFilter::Enabled`; the warning is not modelled. -/
def GlobalFilter.Enabled (ent : Ptr) (f : GlobalFilter) (w : World) : Except Fault Bool :=
  match w.deref ent with
  | .error e => .error e
  | .ok e => if VALID_ENTITYEX e.m_ID w.Max then testBit f.m_Filter e.m_ID else .ok false

/-- `GlobalFilter::Count`. -/
def GlobalFilter.Count (f : GlobalFilter) : Int := (f.m_Filter.count true : Int)

/-- `GlobalFilter::Any`. -/
def GlobalFilter.Any (f : GlobalFilter) : Bool := f.m_Filter.any id

/-- `GlobalFilter::None`. -/
def GlobalFilter.None (f : GlobalFilter) : Bool := !f.m_Filter.any id

/-- `GlobalFilter::All`. -/
def GlobalFilter.All (f : GlobalFilter) : Bool := f.m_Filter.all id

/-- The value of `allow` in `Include` and `Exclude` and the filter after the script function
`fn` was asked, if there is one: `allow = !ret ? false : *ret`. -/
def askHook (fn : ScriptFunction) (call : HookCall) (args : List Int) (f : GlobalFilter) :
    Bool × GlobalFilter :=
  match fn with
  | none => (true, f)
  | some g => ((g args).getD false, { f with invoked := f.invoked ++ [call] })

/-- `GlobalFilter::Include` (Global.hpp 1133-1176) of the filter `self` of kind `T`; the log
messages are not modelled. -/
def GlobalFilter.Include (T : EntType) (self : Nat) (ent : Ptr) (header : Int)
    (f : GlobalFilter) (w : World) : Except Fault (Bool × GlobalFilter × World) :=
  match w.deref ent with
  | .error e => .error e
  | .ok e =>
    if INVALID_ENTITYEX e.m_ID w.Max then .ok (false, f, w)
    else if !T.InEvent f.m_Event.m_Type then .ok (false, f, w)
    else
      match testBit f.m_Filter e.m_ID with
      | .error err => .error err
      | .ok bit =>
        if !bit then
          match askHook f.m_Event.m_OnInclude (.OnInclude e.m_ID header) [e.m_ID, header] f with
          | (true, f1) =>
            match (if T.DestroyEvID ≠ f.m_Event.m_Type
                   then onDestroyed Connect self e.m_ID w else .ok w) with
            | .error err => .error err
            | .ok w1 =>
              match setBit f1.m_Filter e.m_ID true with
              | .error err => .error err
              | .ok bits => .ok (true, { f1 with m_Filter := bits }, w1)
          | (false, f1) => .ok (false, f1, w)
        else .ok (false, f, w)

/-- `GlobalFilter::Exclude` (Global.hpp 1179-1222) of the filter `self` of kind `T`; the log
messages are not modelled. -/
def GlobalFilter.Exclude (T : EntType) (self : Nat) (ent : Ptr) (header : Int)
    (f : GlobalFilter) (w : World) : Except Fault (Bool × GlobalFilter × World) :=
  match w.deref ent with
  | .error e => .error e
  | .ok e =>
    if INVALID_ENTITYEX e.m_ID w.Max then .ok (false, f, w)
    else if !T.InEvent f.m_Event.m_Type then .ok (false, f, w)
    else
      match testBit f.m_Filter e.m_ID with
      | .error err => .error err
      | .ok bit =>
        if bit then
          match askHook f.m_Event.m_OnExclude (.OnExclude e.m_ID header) [e.m_ID, header] f with
          | (true, f1) =>
            match (if T.DestroyEvID ≠ f.m_Event.m_Type
                   then onDestroyed Disconnect self e.m_ID w else .ok w) with
            | .error err => .error err
            | .ok w1 =>
              match setBit f1.m_Filter e.m_ID false with
              | .error err => .error err
              | .ok bits => .ok (true, { f1 with m_Filter := bits }, w1)
          | (false, f1) => .ok (false, f1, w)
        else .ok (false, f, w)

/-- `GlobalFilter::Release`. -/
def GlobalFilter.Release (id : Int) (f : GlobalFilter) : Except Fault GlobalFilter :=
  let f1 : GlobalFilter :=
    match f.m_Event.m_OnRelease with
    | none => f
    | some _ => { f with invoked := f.invoked ++ [.OnRelease id] }
  match setBit f1.m_Filter id false with
  | .error err => .error err
  | .ok bits => .ok { f1 with m_Filter := bits }

/-- `GlobalFilter::Destroyed`, the listener connected to the `Destroyed` signal of a slot; the
payload is not used. -/
def GlobalFilter.Destroyed (id : Int) (_header : Int) (f : GlobalFilter) :
    Except Fault GlobalFilter :=
  f.Release id

/-- The loop of `GlobalFilter::Hook` and `GlobalFilter::Unhook`, with `n` iterations left at
the index `i`; `act` is `Connect` in `Hook` and `Disconnect` in `Unhook`. -/
def hookLoop (act : List Nat → Nat → List Nat) (self : Nat) :
    Nat → Nat → List Bool → World → Except Fault (List Bool × World)
  | 0, _, bits, w => .ok (bits, w)
  | n + 1, i, bits, w =>
    match testBit bits i with
    | .error err => .error err
    | .ok bit =>
      if bit && Verify w i then
        match onDestroyed act self i w with
        | .error err => .error err
        | .ok w1 => hookLoop act self n (i + 1) bits w1
      else if !Verify w i then
        match setBit bits i false with
        | .error err => .error err
        | .ok bits1 => hookLoop act self n (i + 1) bits1 w
      else hookLoop act self n (i + 1) bits w

/-- `GlobalFilter::Hook` (Global.hpp 1284-1307). -/
def GlobalFilter.Hook (T : EntType) (self : Nat) (f : GlobalFilter) (w : World) :
    Except Fault (GlobalFilter × World) :=
  if T.DestroyEvID = f.m_Event.m_Type then .ok (f, w)
  else
    match hookLoop Connect self f.m_Filter.length 0 f.m_Filter w with
    | .error err => .error err
    | .ok (bits, w1) => .ok ({ f with m_Filter := bits }, w1)

/-- `GlobalFilter::Unhook` (Global.hpp 1310-1333). -/
def GlobalFilter.Unhook (T : EntType) (self : Nat) (f : GlobalFilter) (w : World) :
    Except Fault (GlobalFilter × World) :=
  if T.DestroyEvID = f.m_Event.m_Type then .ok (f, w)
  else
    match hookLoop Disconnect self f.m_Filter.length 0 f.m_Filter w with
    | .error err => .error err
    | .ok (bits, w1) => .ok ({ f with m_Filter := bits }, w1)

/-- `GlobalFilter::Clear` (Global.hpp 1225-1247); the warning is not modelled. -/
def GlobalFilter.Clear (T : EntType) (self : Nat) (header : Int) (f : GlobalFilter)
    (w : World) : Except Fault (GlobalFilter × World) :=
  if !T.InEvent f.m_Event.m_Type then .ok (f, w)
  else if f.m_Filter.any id then
    let f1 : GlobalFilter :=
      match f.m_Event.m_OnCleared with
      | none => f
      | some _ => { f with invoked := f.invoked ++ [.OnCleared header] }
    match f1.Unhook T self w with
    | .error err => .error err
    | .ok (f2, w1) => .ok ({ f2 with m_Filter := f2.m_Filter.map (fun _ => false) }, w1)
  else .ok (f, w)

/-- `GlobalFilter::Flip` (Global.hpp 1250-1269); the warning is not modelled. -/
def GlobalFilter.Flip (T : EntType) (self : Nat) (_header : Int) (f : GlobalFilter)
    (w : World) : Except Fault (GlobalFilter × World) :=
  if !T.InEvent f.m_Event.m_Type then .ok (f, w)
  else
    match f.Unhook T self w with
    | .error err => .error err
    | .ok (f1, w1) =>
      ({ f1 with m_Filter := f1.m_Filter.map (fun b => !b) } : GlobalFilter).Hook T self w1

/-- The world after the statement of `Include` or `Exclude` that connects the filter to, or
disconnects it from, the `Destroyed` signal of the slot, unless the parent event is the destroy
event of the kind. -/
def hooked (T : EntType) (type : EventID) (act : List Nat → Nat → List Nat) (self : Nat)
    (id : Int) (x : Instance) (w : World) : World :=
  if T.DestroyEvID ≠ type then w.setInst id { x with Destroyed := act x.Destroyed self } else w

/-- A world with two slots, slot `0` active with one reference bound to it, at address `1`. -/
def worldOneBound : World :=
  { s_Instances := [{ ID := 0, Root := 1 }, {}], heap := [some (newReference 0)] }

/-- An empty filter over two slots whose parent event has the type `type` and no script
function. -/
def emptyFilter (type : EventID) : GlobalFilter :=
  { m_Filter := [false, false], m_Event := { m_Type := type } }

/-- An empty filter over two slots whose parent event says no to every inclusion. -/
def refusingFilter : GlobalFilter :=
  { m_Filter := [false, false]
    m_Event := { m_Type := .EVT_PLAYERSPAWN, m_OnInclude := some (fun _ => some false) } }

/-- On a fresh table of two slots: slot `0` is activated, a reference is bound to it and
included in an empty Player filter of a spawn event, and the slot is deactivated. The results
of `Include` and `Deactivate`, `Count()` after the `Include`, and `Enabled` and `Count()` after
the `Deactivate`. -/
def selfHealingScenario : Except Fault (Bool × Bool × Int × Bool × Int) := do
  let (_, w) ← Activate 4 0 false [] (World.init 2)
  let (r, w) ← Construct 0 w
  let (inc, f, w) ← GlobalFilter.Include .CPlayer 7 r 0 (emptyFilter .EVT_PLAYERSPAWN) w
  let (d, w) ← Deactivate 4 0 w
  let en ← f.Enabled r w
  pure (inc, d, f.Count, en, f.Count)

/-- A world of the Blip kind with eight slots, all active but the slots `5` and `6`, and no
reference. -/
def worldEight : World :=
  { s_Instances := (List.range 8).map fun i =>
      ({ ID := if i = 5 ∨ i = 6 then SQMOD_UNKNOWN else (i : Int) } : Instance)
    heap := [] }

/-- The bits after `Flip` of a Blip filter with the bits `2` and `5` set, on `worldEight`, for
a parent event of the type `type`. -/
def flipScenario (type : EventID) : Except Fault (List Bool) :=
  (GlobalFilter.Flip .CBlip 7 0
    { m_Filter := [false, false, true, false, false, true, false, false]
      m_Event := { m_Type := type } } worldEight).map (fun p => p.1.m_Filter)

/-- A world with two active slots: three references are bound to slot `0`, constructed in the
order of their addresses, and none to slot `1`. -/
def worldThree : World :=
  { s_Instances := [{ ID := 0, Root := 3 }, { ID := 1 }]
    heap := [some { m_ID := 0, m_Tag := "", m_Data := 0, m_Prev := 2, m_Next := 0,
                    m_Persistent := false },
             some { m_ID := 0, m_Tag := "", m_Data := 0, m_Prev := 3, m_Next := 1,
                    m_Persistent := false },
             some { m_ID := 0, m_Tag := "", m_Data := 0, m_Prev := 0, m_Next := 2,
                    m_Persistent := false }] }

/-! ## Utilities of `Base/Shared.hpp` and `Library/Chrono/Date.cpp` -/

/-- Whether a value is one of the 32 bit signed integer type. -/
def inInt32 (a : Int) : Bool := decide (-2 ^ 31 ≤ a) && decide (a < 2 ^ 31)

/-- The generic `EpsEq` (Shared.hpp 89-92) at the 32 bit signed integer type: `abs(a - b) <= 0`.
The result is `none` where `a - b` or its absolute value is not a value of the type, which is
undefined behaviour. -/
def EpsEq (a b : Int) : Option Bool :=
  if inInt32 (a - b) && inInt32 |a - b| then some (decide (|a - b| ≤ 0)) else none

/-- The generic `EpsLtEq` (Shared.hpp 140-143): `!EpsEq(a, b) || (a < b)`. -/
def EpsLtEq (a b : Int) : Option Bool :=
  (EpsEq a b).map fun e => !e || decide (a < b)

/-- The generic `EpsGtEq` (Shared.hpp 159-162): `!EpsEq(a, b) || (a > b)`. -/
def EpsGtEq (a b : Int) : Option Bool :=
  (EpsEq a b).map fun e => !e || decide (a > b)

/-- Source `NextPow2` (Shared.hpp 189-198) on a `Uint32`: the decrement and the increment are
modulo `2 ^ 32`. -/
def NextPow2 (num : Nat) : Nat :=
  let num := (num + (2 ^ 32 - 1)) % 2 ^ 32
  let num := num ||| (num >>> 1)
  let num := num ||| (num >>> 2)
  let num := num ||| (num >>> 4)
  let num := num ||| (num >>> 8)
  let num := num ||| (num >>> 16)
  (num + 1) % 2 ^ 32

/-- Source `Date::MonthLengths` (Date.cpp 14). -/
def MonthLengths : List Nat := [31, 28, 31, 30, 31, 30, 31, 31, 30, 31, 30, 31]

/-- How a call of `Date::DaysInMonth` can fail: the exception it throws, or a read outside
`MonthLengths`, which is undefined behaviour. -/
inductive DateFault where
  | monthOutOfRange
  | outOfBounds
  deriving DecidableEq, Repr

/-- Source `Date::DaysInMonth` (Date.cpp 375-391); the result is a `Uint8`. `IsLeapYear` is
declared in a header that is not among the sources and is a parameter here. -/
def DaysInMonth (IsLeapYear : Nat → Bool) (year month : Nat) : Except DateFault Nat :=
  if month > 12 then .error .monthOutOfRange
  else
    match MonthLengths[month]? with
    | none => .error .outOfBounds
    | some days =>
      if month = 2 ∧ IsLeapYear year = true then .ok ((days + 1) % 2 ^ 8) else .ok days

/-- The calendar length of the months `1` to `12` of a year that is not a leap year. -/
def calendarLength (month : Nat) : Nat :=
  if month = 2 then 28
  else if month = 4 ∨ month = 6 ∨ month = 9 ∨ month = 11 then 30
  else 31

/-! ## Scenarios on deactivated slots -/

/-- On a fresh table of two slots: slot `0` is activated, a reference is bound to it with
`Reference(0)`, and the slot is deactivated. The results: `IsActive()` of the reference, its
`GetID()`, and `Verify` of that id. -/
def isActiveScenario : Except Fault (Bool × Int × Bool) := do
  let (_, w) ← Activate 4 0 false [] (World.init 2)
  let (r, w) ← Construct 0 w
  let (_, w) ← Deactivate 4 0 w
  let active ← IsActive r w
  let id ← GetID r w
  pure (active, id, Verify w id)

/-- On a fresh table of two slots: slot `0` is activated, a reference is bound to it with
`Reference(0)`, the slot is deactivated, and the reference is then included in an empty Player
filter of a spawn event. The results: what `Include` returns, the bits of the filter, and
`Verify` of the id of the reference after the `Include`. -/
def includeInactiveScenario : Except Fault (Bool × List Bool × Bool) := do
  let (_, w) ← Activate 4 0 false [] (World.init 2)
  let (r, w) ← Construct 0 w
  let (_, w) ← Deactivate 4 0 w
  let (inc, f, w) ← GlobalFilter.Include .CPlayer 7 r 0 (emptyFilter .EVT_PLAYERSPAWN) w
  let id ← GetID r w
  pure (inc, f.m_Filter, Verify w id)

/-- Slot `0` is activated and two references are bound to it, the first of them persistent;
the slot is deactivated; then the first reference, disabled by then, is destroyed. -/
def danglingNodeOps : List Op :=
  [.activate 0 false [], .construct 0, .setPersistent 1 true, .construct 0, .deactivate 0,
   .destroy 1]

/-! ## Filters: copy assignment and sequences of calls -/

/-- `GlobalFilter::operator =` (Global.hpp 1115-1130) of the filter at the address `self`;
`other` is the address of the filter `o` that is assigned. -/
def GlobalFilter.Assign (T : EntType) (self other : Nat) (o f : GlobalFilter) (w : World) :
    Except Fault (GlobalFilter × World) :=
  if self ≠ other ∧ T.InEvent f.m_Event.m_Type = true then
    match f.Unhook T self w with
    | .error err => .error err
    | .ok (f1, w1) => ({ f1 with m_Filter := o.m_Filter } : GlobalFilter).Hook T self w1
  else .ok (f, w)

/-- One call on a filter: `Include`, `Exclude`, `Clear`, `Flip`, the copy assignment from the
filter `o` at the address `other`, or the listener `Destroyed`. -/
inductive FilterOp where
  | Include (ent : Ptr) (header : Int)
  | Exclude (ent : Ptr) (header : Int)
  | Clear (header : Int)
  | Flip (header : Int)
  | Assign (other : Nat) (o : GlobalFilter)
  | Destroyed (id : Int) (header : Int)

/-- Run one call on the filter `self` of kind `T`; the results of `Include` and `Exclude` are
dropped. -/
def runFilterOp (T : EntType) (self : Nat) :
    FilterOp → GlobalFilter → World → Except Fault (GlobalFilter × World)
  | .Include ent header, f, w => (f.Include T self ent header w).map Prod.snd
  | .Exclude ent header, f, w => (f.Exclude T self ent header w).map Prod.snd
  | .Clear header, f, w => f.Clear T self header w
  | .Flip header, f, w => f.Flip T self header w
  | .Assign other o, f, w => GlobalFilter.Assign T self other o f w
  | .Destroyed id header, f, w => (f.Destroyed id header).map fun f1 => (f1, w)

/-- Run the calls in order. -/
def runFilterOps (T : EntType) (self : Nat) :
    List FilterOp → GlobalFilter → World → Except Fault (GlobalFilter × World)
  | [], f, w => .ok (f, w)
  | op :: ops, f, w =>
    match runFilterOp T self op f w with
    | .error err => .error err
    | .ok (f1, w1) => runFilterOps T self ops f1 w1

/-- The arguments of a call are ones the filter can receive: the reference passed to `Include`
or `Exclude` exists, and the id passed to `Destroyed` is one of the `limit` slots. -/
def FilterOp.valid (w : World) (limit : Nat) : FilterOp → Bool
  | .Include ent _ | .Exclude ent _ =>
    match w.deref ent with
    | .ok _ => true
    | .error _ => false
  | .Destroyed id _ => decide (0 ≤ id) && decide (id.toNat < limit)
  | _ => true

/-- A filter over two slots with both bits set, whose parent event has a function to call when
the filter is cleared and one to call when an entity is released. -/
def fullFilter : GlobalFilter :=
  { m_Filter := [true, true]
    m_Event := { m_Type := .EVT_PLAYERSPAWN, m_OnCleared := some (fun _ => none),
                 m_OnRelease := some (fun _ => none) } }

/-! ## Throttling of a `GlobalEvent` -/

/-- Modelled from the spec: the throttle state of a `GlobalEvent`. `GlobalEvent::Trigger` and
the functions that set the throttle are declared in Global.hpp and defined in a file that is
not among the sources. `m_Stride`: fire on every Nth raise only (a stride below `2` does not
throttle); `m_Ignore`: skip the next N raises; `m_Idle`: the time of the last fire, with
`timeout`, the minimum time between fires (`0` for none); `raised`: the raises counted toward
the stride. -/
structure Throttle where
  m_Stride : Int := 0
  m_Ignore : Int := 0
  m_Idle : Nat := 0
  timeout : Nat := 0
  raised : Int := 0
  deriving DecidableEq, Repr

/-- Modelled from the spec: `GlobalEvent::Trigger`, called on a raise at the time `now`. It
applies the stride check, the ignore check and the idle check, in that order, counting the
raise toward the stride and decrementing the ignore count, and updates the idle clock when the
event fires; it returns whether the raise is forwarded to the script. -/
def Trigger (now : Nat) (e : Throttle) : Bool × Throttle :=
  let raised := if 1 < e.m_Stride then (e.raised + 1) % e.m_Stride else 0
  let stride := decide (raised = 0)
  let ignore := decide (e.m_Ignore ≤ 0)
  let e1 : Throttle :=
    { e with raised := raised, m_Ignore := if 0 < e.m_Ignore then e.m_Ignore - 1 else e.m_Ignore }
  let idle := decide (e.timeout = 0) || decide (e.m_Idle + e.timeout ≤ now)
  if stride && ignore && idle then (true, { e1 with m_Idle := now }) else (false, e1)

/-- The results of `Trigger` on successive raises, at the times given, and the throttle state
after them. -/
def raises : List Nat → Throttle → List Bool × Throttle
  | [], e => ([], e)
  | now :: times, e =>
    let (b, e1) := Trigger now e
    let (bs, e2) := raises times e1
    (b :: bs, e2)

/-- Modelled from the spec: setting the ignore count of a `GlobalEvent`. -/
def SetIgnore (n : Int) (e : Throttle) : Throttle := { e with m_Ignore := n }

/-! ## Reading and writing the world -/

section Basic

variable (w : World)

@[simp] theorem deref_zero : w.deref 0 = .error .nullDeref := rfl

theorem deref_ne_zero {w : World} {p : Ptr} {r : Reference} (h : w.deref p = .ok r) : p ≠ 0 := by
  rintro rfl
  simp at h

@[simp] theorem deref_setInst (i : Int) (x : Instance) (p : Ptr) :
    (w.setInst i x).deref p = w.deref p := by
  unfold World.setInst
  split <;> cases p <;> rfl

@[simp] theorem heap_setInst (i : Int) (x : Instance) :
    (w.setInst i x).heap = w.heap := by
  unfold World.setInst
  split <;> rfl

@[simp] theorem s_Instances_store (p : Ptr) (r : Reference) :
    (w.store p r).s_Instances = w.s_Instances := by
  cases p <;> rfl

@[simp] theorem inst_store (p : Ptr) (r : Reference) (i : Int) :
    (w.store p r).inst i = w.inst i := by
  cases p <;> rfl

@[simp] theorem Max_store (p : Ptr) (r : Reference) : (w.store p r).Max = w.Max := by
  cases p <;> rfl

@[simp] theorem Max_setInst (i : Int) (x : Instance) : (w.setInst i x).Max = w.Max := by
  unfold World.setInst World.Max
  split <;> simp

@[simp] theorem heap_length_store (p : Ptr) (r : Reference) :
    (w.store p r).heap.length = w.heap.length := by
  cases p <;> simp [World.store]

theorem deref_store_same {w : World} {p : Ptr} {r : Reference} (h : w.deref p = .ok r)
    (r' : Reference) : (w.store p r').deref p = .ok r' := by
  cases p with
  | zero => simp at h
  | succ a =>
    have hlt : a < w.heap.length := by
      by_contra hge
      have : w.heap[a]? = none := List.getElem?_eq_none (by omega)
      simp [World.deref, this] at h
    simp [World.deref, World.store, List.getElem?_set_self, hlt]

theorem deref_store_ne {p q : Ptr} (h : p ≠ q) (r' : Reference) :
    (w.store p r').deref q = w.deref q := by
  cases p with
  | zero => rfl
  | succ a =>
    cases q with
    | zero => rfl
    | succ b =>
      have hab : a ≠ b := fun e => h (by rw [e])
      simp [World.deref, World.store, List.getElem?_set_ne hab]

theorem inst_setInst_same {w : World} {i : Int} {x : Instance} (h : w.inst i = .ok x)
    (y : Instance) : (w.setInst i y).inst i = .ok y := by
  unfold World.inst at h
  split at h
  · rename_i hi
    have hlt : i.toNat < w.s_Instances.length := by
      by_contra hge
      have : w.s_Instances[i.toNat]? = none := List.getElem?_eq_none (by omega)
      simp [this] at h
    simp [World.inst, World.setInst, hi, List.getElem?_set_self, hlt]
  · simp at h

theorem inst_setInst_ne {i j : Int} (h : i ≠ j) (y : Instance) :
    (w.setInst i y).inst j = w.inst j := by
  unfold World.setInst
  split
  · rename_i hi
    unfold World.inst
    split
    · rename_i hj
      have hne : i.toNat ≠ j.toNat := by omega
      simp [List.getElem?_set_ne hne]
    · rfl
  · rfl

theorem modify_eq {w : World} {p : Ptr} {r : Reference} (h : w.deref p = .ok r)
    (f : Reference → Reference) : w.modify p f = .ok (w.store p (f r)) := by
  simp [World.modify, h]

theorem modifyInst_eq {w : World} {i : Int} {x : Instance} (h : w.inst i = .ok x)
    (f : Instance → Instance) : w.modifyInst i f = .ok (w.setInst i (f x)) := by
  simp [World.modifyInst, h]

theorem inst_ok_iff (i : Int) :
    (∃ x, w.inst i = .ok x) ↔ 0 ≤ i ∧ i < w.Max := by
  unfold World.inst World.Max
  constructor
  · rintro ⟨x, h⟩
    split at h
    · rename_i hi
      refine ⟨hi, ?_⟩
      by_contra hge
      have : w.s_Instances[i.toNat]? = none := List.getElem?_eq_none (by omega)
      simp [this] at h
    · simp at h
  · rintro ⟨h0, h1⟩
    have hlt : i.toNat < w.s_Instances.length := by omega
    exact ⟨w.s_Instances[i.toNat], by simp [h0, List.getElem?_eq_getElem hlt]⟩

theorem INVALID_ENTITYEX_eq_false_iff (i : Int) :
    INVALID_ENTITYEX i w.Max = false ↔ ∃ x, w.inst i = .ok x := by
  rw [inst_ok_iff]
  simp [INVALID_ENTITYEX]

theorem Verify_iff (id : Int) :
    Verify w id = true ↔ ∃ x, w.inst id = .ok x ∧ 0 ≤ x.ID := by
  unfold Verify World.inst VALID_ENTITYEX VALID_ENTITY World.Max
  constructor
  · intro h
    simp only [Bool.and_eq_true, decide_eq_true_eq] at h
    obtain ⟨⟨h0, h1⟩, h2⟩ := h
    have hlt : id.toNat < w.s_Instances.length := by omega
    rw [List.getElem?_eq_getElem hlt] at h2
    refine ⟨w.s_Instances[id.toNat], ?_, by simpa using h2⟩
    simp [h0, List.getElem?_eq_getElem hlt]
  · rintro ⟨x, h, hx⟩
    split at h
    · rename_i hi
      have hlt : id.toNat < w.s_Instances.length := by
        by_contra hge
        have : w.s_Instances[id.toNat]? = none := List.getElem?_eq_none (by omega)
        simp [this] at h
      rw [List.getElem?_eq_getElem hlt] at h ⊢
      simp only [Except.ok.injEq] at h
      simp [hi, h, hx]
      omega
    · simp at h

theorem Verify_eq_false_of_inst {w : World} {id : Int} {x : Instance} (h : w.inst id = .ok x)
    (hx : x.ID < 0) : Verify w id = false := by
  rw [Bool.eq_false_iff]
  intro hv
  obtain ⟨y, hy, hy0⟩ := (Verify_iff w id).1 hv
  rw [h] at hy
  cases hy
  omega

end Basic

/-! ## The two outcomes of `Activate` and `Deactivate`, continued -/

theorem bind_eq_ok {α β : Type} {x : Except Fault α} {f : α → Except Fault β} {b : β} :
    x >>= f = .ok b ↔ ∃ a, x = .ok a ∧ f a = .ok b := by
  cases x <;> simp [bind, Except.bind]

theorem Activate_eq (fuel : Nat) (id : Int) (owned : Bool) (args : List Int) (w : World) :
    Activate fuel id owned args w =
      if INVALID_ENTITYEX id w.Max then .ok (false, w)
      else if Verify w id then .ok (false, w)
      else activateBody fuel id owned args w >>= fun w1 => pure (true, w1) := by
  unfold Activate activateBody activateWalk activateSlot
  by_cases h1 : INVALID_ENTITYEX id w.Max = true
  · simp [h1, pure, Except.pure]
  · by_cases h2 : Verify w id = true
    · simp [h1, h2, pure, Except.pure]
    · simp only [h1, h2, Bool.false_eq_true, if_false, Bool.not_false, if_true, Bool.not_eq_true]
      simp only [bind_assoc]
      refine bind_congr (fun x => ?_)
      split_ifs
      · simp only [bind_assoc]
        refine bind_congr (fun _ => bind_congr (fun _ => bind_congr (fun _ => bind_congr (fun _ =>
          bind_congr (fun _ => bind_congr (fun _ => bind_congr (fun _ => bind_congr (fun _ => ?_))))))))
        split_ifs <;> simp only [bind_assoc, pure_bind]
      · simp only [bind_assoc, pure_bind]
        refine bind_congr (fun _ => bind_congr (fun _ => bind_congr (fun _ => ?_)))
        split_ifs <;> simp only [bind_assoc, pure_bind]

theorem Deactivate_eq (fuel : Nat) (id : Int) (w : World) :
    Deactivate fuel id w =
      if Verify w id then deactivateBody fuel id w >>= fun w1 => pure (true, w1)
      else .ok (false, w) := by
  unfold Deactivate deactivateBody
  by_cases h2 : Verify w id = true
  · simp only [h2, if_true, bind_assoc]
  · simp only [h2, Bool.false_eq_true, if_false]
    rfl

/-! ## Rejected calls -/

theorem Activate_of_invalid {fuel : Nat} {id : Int} {owned : Bool} {args : List Int} {w : World}
    (h : INVALID_ENTITYEX id w.Max = true) : Activate fuel id owned args w = .ok (false, w) := by
  rw [Activate_eq, if_pos h]

theorem Activate_of_active {fuel : Nat} {id : Int} {owned : Bool} {args : List Int} {w : World}
    (h : Verify w id = true) : Activate fuel id owned args w = .ok (false, w) := by
  rw [Activate_eq, if_pos h]
  split <;> rfl

theorem Activate_of_inactive {fuel : Nat} {id : Int} {owned : Bool} {args : List Int} {w : World}
    (h1 : INVALID_ENTITYEX id w.Max = false) (h2 : Verify w id = false) :
    Activate fuel id owned args w =
      activateBody fuel id owned args w >>= fun w1 => pure (true, w1) := by
  rw [Activate_eq]
  simp [h1, h2]

theorem Deactivate_of_inactive {fuel : Nat} {id : Int} {w : World}
    (h : Verify w id = false) : Deactivate fuel id w = .ok (false, w) := by
  rw [Deactivate_eq]
  simp [h]

theorem Deactivate_of_active {fuel : Nat} {id : Int} {w : World}
    (h : Verify w id = true) :
    Deactivate fuel id w = deactivateBody fuel id w >>= fun w1 => pure (true, w1) := by
  rw [Deactivate_eq, if_pos h]

theorem bind_pure_true_ne {x : Except Fault World} {w' : World} :
    (x >>= fun w1 => (pure (true, w1) : Except Fault (Bool × World))) ≠ .ok (false, w') := by
  cases x <;> simp [bind, Except.bind, pure, Except.pure]

/-- C7. Atomicity on error: `Activate` returns `false` whenever the id is out of range or the
slot is already active, `Deactivate` returns `false` whenever the slot is not active, and a
call of either that returns `false` leaves the whole world (all slots and all references) as it
was. -/
theorem Activate_Deactivate_false_unchanged (fuel : Nat) (id : Int) (owned : Bool)
    (args : List Int) (w : World) :
    ((INVALID_ENTITYEX id w.Max = true ∨ Verify w id = true) →
        Activate fuel id owned args w = .ok (false, w)) ∧
    (∀ w', Activate fuel id owned args w = .ok (false, w') → w' = w) ∧
    (Verify w id = false → Deactivate fuel id w = .ok (false, w)) ∧
    (∀ w', Deactivate fuel id w = .ok (false, w') → w' = w) := by
  refine ⟨?_, ?_, ?_, ?_⟩
  · rintro (h | h)
    · exact Activate_of_invalid h
    · exact Activate_of_active h
  · intro w' h
    by_cases h1 : INVALID_ENTITYEX id w.Max = true
    · rw [Activate_of_invalid h1] at h
      simp only [Except.ok.injEq, Prod.mk.injEq, true_and] at h
      exact h.symm
    · by_cases h2 : Verify w id = true
      · rw [Activate_of_active h2] at h
        simp only [Except.ok.injEq, Prod.mk.injEq, true_and] at h
        exact h.symm
      · rw [Activate_of_inactive (by simpa using h1) (by simpa using h2)] at h
        exact absurd h bind_pure_true_ne
  · exact Deactivate_of_inactive
  · intro w' h
    by_cases h2 : Verify w id = true
    · rw [Deactivate_of_active h2] at h
      exact absurd h bind_pure_true_ne
    · rw [Deactivate_of_inactive (by simpa using h2)] at h
      simp only [Except.ok.injEq, Prod.mk.injEq, true_and] at h
      exact h.symm

theorem Activate_Deactivate_false_unchanged_witness :
    Activate 1 0 true [] worldOneRef = .ok (false, worldOneRef) ∧
    Activate 1 5 true [] worldOneRef = .ok (false, worldOneRef) ∧
    Deactivate 1 1 worldOneRef = .ok (false, worldOneRef) :=
  ⟨(Activate_Deactivate_false_unchanged 1 0 true [] worldOneRef).1 (Or.inr (by decide)),
   (Activate_Deactivate_false_unchanged 1 5 true [] worldOneRef).1 (Or.inl (by decide)),
   (Activate_Deactivate_false_unchanged 1 1 true [] worldOneRef).2.2.1 (by decide)⟩

/-! ## Slots no reference targets -/

theorem setInst_setInst (w : World) (i : Int) (a b : Instance) :
    (w.setInst i a).setInst i b = w.setInst i b := by
  unfold World.setInst
  split <;> simp [*]

theorem inst_init {limit : Nat} {id : Int} (h0 : 0 ≤ id) (h1 : id < limit) :
    (World.init limit).inst id = .ok {} := by
  have hlt : id.toNat < limit := by omega
  simp [World.inst, World.init, h0, List.getElem?_replicate, hlt]

/-- The slot after the statements of `Activate` that enable it. -/
theorem activateSlot_eq {id : Int} {w : World} {x : Instance} (hx : w.inst id = .ok x)
    (owned : Bool) (args : List Int) :
    activateSlot id owned args w =
      .ok (w.setInst id (Store
        { x with ID := id, Owned := owned, Tag := if x.Fresh then "" else x.Tag,
                 Data := if x.Fresh then 0 else x.Data } args)) := by
  unfold activateSlot
  simp only [bind, Except.bind, pure, Except.pure]
  rw [modifyInst_eq hx]
  simp only
  rw [modifyInst_eq (inst_setInst_same hx _)]
  simp only [setInst_setInst]
  rw [inst_setInst_same hx]
  simp only
  by_cases hf : x.Fresh = true
  · simp only [hf, if_true]
    rw [modifyInst_eq (inst_setInst_same hx _)]
    simp only [setInst_setInst]
    rw [modifyInst_eq (inst_setInst_same hx _)]
    simp only [setInst_setInst, Store]
  · simp only [hf, if_false, Bool.false_eq_true]
    rw [modifyInst_eq (inst_setInst_same hx _)]
    simp only [setInst_setInst, Store]

theorem activateWalk_null_root {fuel : Nat} {id : Int} {w : World} {x : Instance}
    (hx : w.inst id = .ok x) (hroot : x.Root = 0) : activateWalk fuel id w = .ok w := by
  unfold activateWalk
  simp [hx, hroot, bind, Except.bind, pure, Except.pure]

/-- The slot after a successful `Activate`, when there was nothing to resurrect. -/
theorem activateBody_null_root {fuel : Nat} {id : Int} {owned : Bool} {args : List Int}
    {w : World} {x : Instance} (hx : w.inst id = .ok x) (hroot : x.Root = 0) :
    activateBody fuel id owned args w =
      .ok (w.setInst id (Store
        { x with ID := id, Owned := owned, Tag := if x.Fresh then "" else x.Tag,
                 Data := if x.Fresh then 0 else x.Data } args)) := by
  unfold activateBody
  rw [activateWalk_null_root hx hroot]
  exact activateSlot_eq hx owned args

theorem deactivateBody_null_root {fuel : Nat} {id : Int} {w : World} {x : Instance}
    (hx : w.inst id = .ok x) (hroot : x.Root = 0) :
    deactivateBody fuel id w = .error .nullDeref := by
  unfold deactivateBody
  simp [hx, hroot, bind, Except.bind]

/-- C6. Code evaluated where the claim fails: for every slot that is active and that no
reference targets (`Root` is null) `Deactivate` dereferences the null pointer
(`s_Instances[id].Root->m_Prev`), it does not complete and return `true`. -/
theorem Deactivate_null_root_faults (fuel : Nat) (id : Int) (w : World) (x : Instance)
    (hx : w.inst id = .ok x) (hactive : Verify w id = true) (hroot : x.Root = 0) :
    Deactivate fuel id w = .error .nullDeref := by
  rw [Deactivate_of_active hactive, deactivateBody_null_root hx hroot]
  rfl

theorem Deactivate_null_root_faults_witness :
    Deactivate 5 0 { s_Instances := [{ ID := 0 }], heap := [] } = .error .nullDeref :=
  Deactivate_null_root_faults 5 0 { s_Instances := [{ ID := 0 }], heap := [] } { ID := 0 }
    (by decide) (by decide) (by decide)

theorem Activate_null_root {fuel : Nat} {id : Int} {owned : Bool} {args : List Int}
    {w : World} {x : Instance} (hx : w.inst id = .ok x) (hid : x.ID < 0) (hroot : x.Root = 0) :
    ∃ w1 y, Activate fuel id owned args w = .ok (true, w1) ∧ w1.inst id = .ok y ∧
      y.ID = id ∧ y.Root = 0 := by
  have hinv : INVALID_ENTITYEX id w.Max = false := (INVALID_ENTITYEX_eq_false_iff _ _).2 ⟨_, hx⟩
  refine ⟨_, _, ?_, inst_setInst_same hx (Store
        { x with ID := id, Owned := owned, Tag := if x.Fresh then "" else x.Tag,
                 Data := if x.Fresh then 0 else x.Data } args), rfl, hroot⟩
  rw [Activate_of_inactive hinv (Verify_eq_false_of_inst hx hid), activateBody_null_root hx hroot]
  rfl

/-- C1. Code evaluated where the claim fails: on the initial slot table of any kind the
sequence `Activate(id, ...)`, `Deactivate(id)` with `id` in `[0, Limit)` does not reach a state
in which `Verify(id)` is false: the `Deactivate` call dereferences the null `Root` of the
slot. -/
theorem runCalls_activate_deactivate_faults (fuel limit : Nat) (id : Int) (owned : Bool)
    (args : List Int) (h0 : 0 ≤ id) (h1 : id < limit) :
    runCalls fuel [.activate id owned args, .deactivate id] (World.init limit)
      = .error .nullDeref := by
  obtain ⟨w1, y, hact, hy, hyid, hyroot⟩ :=
    @Activate_null_root fuel id owned args _ _ (inst_init h0 h1) (by decide) rfl
  simp only [runCalls, hact]
  rw [Deactivate_null_root_faults fuel id w1 y hy
    ((Verify_iff _ _).2 ⟨y, hy, by omega⟩) hyroot]

theorem runCalls_activate_deactivate_faults_witness :
    runCalls 3 [.activate 0 true [], .deactivate 0] (World.init 1) = .error .nullDeref :=
  runCalls_activate_deactivate_faults 3 1 0 true [] (by decide) (by decide)

/-! ## Evaluations of `Deactivate` and `SetID` -/

/-- C3. Code evaluated where the claim fails: after `Deactivate(0)` has returned `true`, the two
references that were constructed bound to slot `0` and are not persistent, the root of the
chain and the other one, both still have `GetID() = 0`, not "unknown", and so they have after
the next `Activate(0, ...)`. -/
theorem Deactivate_keeps_nonpersistent_id :
    nonPersistentScenario = .ok (true, 0, 0, 0, 0) := by decide

/-- C4. Code evaluated where the claim fails: after `Deactivate(0)` has returned `true`, the
persistent reference the `Root` of slot `0` points to still has `GetID() = 0`, not
"unknown". -/
theorem Deactivate_skips_root :
    persistentRootScenario = .ok (true, 1, 1, 0) := by decide

/-- C8. Code evaluated where the claim fails: `SetID(1)` on an unbound reference, while slot `1`
is inactive, leaves the reference with `GetID() = 1`, and `SetID(7)`, for a kind with two
slots, indexes the slot table out of its range. -/
theorem SetID_not_validated :
    setIDScenario 1 = .ok (false, 1) ∧ setIDScenario 7 = .error .outOfBounds := by decide

/-! ## Segments of a chain -/

theorem isSeg_cons {w : World} {p a n : Ptr} {L : List Ptr} :
    isSeg w p (a :: L) n = true ↔
      ∃ r, w.deref a = .ok r ∧ r.m_Prev = p ∧ r.m_Next = L.headD n ∧ isSeg w a L n = true := by
  cases h : w.deref a with
  | error e => simp [isSeg, h]
  | ok r => simp [isSeg, h, and_assoc]

theorem isSeg_append {w : World} {p n : Ptr} {X Y : List Ptr} :
    isSeg w p (X ++ Y) n = true ↔
      isSeg w p X (Y.headD n) = true ∧ isSeg w (X.getLastD p) Y n = true := by
  induction X generalizing p with
  | nil => simp [isSeg]
  | cons a X ih =>
    rw [List.cons_append, isSeg_cons, isSeg_cons]
    constructor
    · rintro ⟨r, hr, hp, hn, hs⟩
      rw [ih] at hs
      refine ⟨⟨r, hr, hp, ?_, hs.1⟩, ?_⟩
      · cases X <;> simpa using hn
      · cases X with
        | nil => simpa using hs.2
        | cons b X => simpa [List.getLastD] using hs.2
    · rintro ⟨⟨r, hr, hp, hn, hs⟩, h2⟩
      refine ⟨r, hr, hp, ?_, ih.2 ⟨hs, ?_⟩⟩
      · cases X <;> simpa using hn
      · cases X with
        | nil => simpa using h2
        | cons b X => simpa [List.getLastD] using h2

/-- A segment only depends on the links of its nodes. -/
theorem isSeg_congr {w w' : World} {p n : Ptr} {L : List Ptr}
    (h : ∀ a ∈ L, ∀ r, w.deref a = .ok r →
      ∃ r', w'.deref a = .ok r' ∧ r'.m_Prev = r.m_Prev ∧ r'.m_Next = r.m_Next)
    (hs : isSeg w p L n = true) : isSeg w' p L n = true := by
  induction L generalizing p with
  | nil => rfl
  | cons a L ih =>
    rw [isSeg_cons] at hs ⊢
    obtain ⟨r, hr, hp, hn, hs⟩ := hs
    obtain ⟨r', hr', hp', hn'⟩ := h a (List.mem_cons_self _ _) r hr
    exact ⟨r', hr', hp'.trans hp, hn'.trans hn,
      ih (fun b hb => h b (List.mem_cons_of_mem _ hb)) hs⟩

theorem isSeg_deref {w : World} {p n : Ptr} {L : List Ptr} (hs : isSeg w p L n = true)
    {a : Ptr} (ha : a ∈ L) : ∃ r, w.deref a = .ok r := by
  induction L generalizing p with
  | nil => simp at ha
  | cons b L ih =>
    rw [isSeg_cons] at hs
    obtain ⟨r, hr, -, -, hs⟩ := hs
    rcases List.mem_cons.1 ha with rfl | ha
    · exact ⟨r, hr⟩
    · exact ih hs ha

theorem isSeg_ne_zero {w : World} {p n : Ptr} {L : List Ptr} (hs : isSeg w p L n = true)
    {a : Ptr} (ha : a ∈ L) : a ≠ 0 := by
  obtain ⟨r, hr⟩ := isSeg_deref hs ha
  exact deref_ne_zero hr

/-- The links of a node in the middle of a segment. -/
theorem isSeg_mid {w : World} {p n b : Ptr} {X Y : List Ptr}
    (hs : isSeg w p (X ++ b :: Y) n = true) :
    ∃ r, w.deref b = .ok r ∧ r.m_Prev = X.getLastD p ∧ r.m_Next = Y.headD n := by
  rw [isSeg_append, isSeg_cons] at hs
  obtain ⟨-, r, hr, hp, hn, -⟩ := hs
  exact ⟨r, hr, hp, hn⟩

/-! ## Construction -/

theorem deref_alloc (w : World) (r : Reference) (q : Nat) :
    (w.alloc r).2.deref q = if q = w.heap.length + 1 then .ok r else w.deref q := by
  cases q with
  | zero => simp
  | succ a =>
    by_cases h : a = w.heap.length
    · subst h
      simp [World.alloc, World.deref]
    · have h' : ¬ (a + 1 = w.heap.length + 1) := by omega
      rw [if_neg h']
      simp only [World.alloc, World.deref]
      by_cases hlt : a < w.heap.length
      · rw [List.getElem?_append_left hlt]
      · have h1 : w.heap[a]? = none := List.getElem?_eq_none (by omega)
        have h2 : (w.heap ++ [some r])[a]? = none :=
          List.getElem?_eq_none (by simp; omega)
        rw [h1, h2]

theorem deref_le_length {w : World} {p : Nat} {r : Reference} (h : w.deref p = .ok r) :
    p ≤ w.heap.length := by
  cases p with
  | zero => simp at h
  | succ a =>
    by_contra hge
    have : w.heap[a]? = none := List.getElem?_eq_none (by omega)
    simp [World.deref, this] at h

theorem deref_alloc_new (w : World) (r : Reference) :
    (w.alloc r).2.deref (w.heap.length + 1) = .ok r := by
  rw [deref_alloc, if_pos rfl]

theorem deref_alloc_old {w : World} {q : Nat} {r' : Reference} (h : w.deref q = .ok r')
    (r : Reference) : (w.alloc r).2.deref q = .ok r' := by
  rw [deref_alloc, if_neg, h]
  have := deref_le_length h
  omega

@[simp] theorem inst_alloc (w : World) (r : Reference) (i : Int) :
    (w.alloc r).2.inst i = w.inst i := rfl

@[simp] theorem s_Instances_alloc (w : World) (r : Reference) :
    (w.alloc r).2.s_Instances = w.s_Instances := rfl

theorem InsertIntoChain_unbound {w : World} {self : Ptr} {this : Reference}
    (h : w.deref self = .ok this) (hid : this.m_ID < 0) : InsertIntoChain self w = .ok w := by
  unfold InsertIntoChain
  have : VALID_ENTITY this.m_ID = false := by simp [VALID_ENTITY, hid]
  simp [h, bind, Except.bind, this, pure, Except.pure]

theorem InsertIntoChain_null_root {w : World} {self : Ptr} {this : Reference} {x : Instance}
    (h : w.deref self = .ok this) (hid : 0 ≤ this.m_ID) (hx : w.inst this.m_ID = .ok x)
    (hroot : x.Root = 0) :
    InsertIntoChain self w = .ok (w.setInst this.m_ID { x with Root := self }) := by
  unfold InsertIntoChain
  have : VALID_ENTITY this.m_ID = true := by simp [VALID_ENTITY, hid]
  simp [h, bind, Except.bind, this, pure, Except.pure, hx, hroot, modifyInst_eq hx]

theorem InsertIntoChain_root {w : World} {self : Ptr} {this rr : Reference} {x : Instance}
    (h : w.deref self = .ok this) (hid : 0 ≤ this.m_ID) (hx : w.inst this.m_ID = .ok x)
    (hroot : x.Root ≠ 0) (hne : x.Root ≠ self) (hrr : w.deref x.Root = .ok rr) :
    InsertIntoChain self w =
      .ok (((w.store self { this with m_Next := x.Root, m_Prev := rr.m_Prev }).store x.Root
        { rr with m_Prev := self }).setInst this.m_ID { x with Root := self }) := by
  unfold InsertIntoChain
  have hv : VALID_ENTITY this.m_ID = true := by simp [VALID_ENTITY, hid]
  have h1 := deref_store_same h { this with m_Next := x.Root }
  have h2 : (w.store self { this with m_Next := x.Root }).deref x.Root = .ok rr := by
    rw [deref_store_ne _ (Ne.symm hne), hrr]
  have h3 := deref_store_same h1 { this with m_Next := x.Root, m_Prev := rr.m_Prev }
  have h4 : ((w.store self { this with m_Next := x.Root }).store self
      { this with m_Next := x.Root, m_Prev := rr.m_Prev }).deref x.Root = .ok rr := by
    rw [deref_store_ne _ (Ne.symm hne), h2]
  have hss : (w.store self { this with m_Next := x.Root }).store self
      { this with m_Next := x.Root, m_Prev := rr.m_Prev } =
      w.store self { this with m_Next := x.Root, m_Prev := rr.m_Prev } := by
    cases self with
    | zero => rfl
    | succ a => simp [World.store]
  rw [hss] at h3 h4
  simp only [h, bind, Except.bind, hv, if_true, hx, ne_eq, hroot, not_false_eq_true,
    modify_eq h, h1, h2, modify_eq h1, hss, h3, modify_eq h4]
  rw [modifyInst_eq (by simpa using hx)]

theorem Construct_eq (id : Int) (w : World) :
    Construct id w =
      (InsertIntoChain (w.heap.length + 1)
        (w.alloc (newReference (if Verify w id then id else SQMOD_UNKNOWN))).2 >>=
        fun w1 => pure (w.heap.length + 1, w1)) := rfl

theorem GetID_eq {w : World} {p : Ptr} {r : Reference} (h : w.deref p = .ok r) :
    GetID p w = .ok r.m_ID := by
  simp [GetID, h, bind, Except.bind, pure, Except.pure]

theorem resurrectForward_zero (id : Int) (fuel : Nat) (w : World) :
    resurrectForward id fuel 0 w = .ok w := by
  cases fuel <;> rfl

theorem resurrectBackward_zero (id : Int) (fuel : Nat) (w : World) :
    resurrectBackward id fuel 0 w = .ok w := by
  cases fuel <;> rfl

theorem Except_map_self {α : Type} (x : Except Fault α) (f : α → α)
    (h : ∀ a, x = .ok a → f a = a) : x.map f = x := by
  cases x with
  | error e => rfl
  | ok a => simp [Except.map, h a rfl]

theorem resurrected_links (id : Int) (Y : List Ptr) (q : Ptr) (r : Reference) :
    (resurrected id Y q r).m_Prev = r.m_Prev ∧ (resurrected id Y q r).m_Next = r.m_Next ∧
      (resurrected id Y q r).m_Persistent = r.m_Persistent := by
  unfold resurrected
  split <;> simp

theorem resurrected_nil (id : Int) (q : Ptr) (r : Reference) : resurrected id [] q r = r := by
  simp [resurrected]

/-- Visiting `a` and then the nodes `Y` is visiting `a :: Y`. -/
theorem resurrected_cons (id : Int) (a : Ptr) (Y : List Ptr) (q : Ptr) (r : Reference) :
    resurrected id Y q (resurrected id [a] q r) = resurrected id (a :: Y) q r := by
  unfold resurrected
  by_cases hp : r.m_Persistent = true <;> by_cases h1 : q = a <;> by_cases h2 : q ∈ Y <;>
    simp [hp, h1, h2]

theorem resurrected_append (id : Int) (X Y : List Ptr) (q : Ptr) (r : Reference) :
    resurrected id Y q (resurrected id X q r) = resurrected id (X ++ Y) q r := by
  unfold resurrected
  by_cases hp : r.m_Persistent = true <;> by_cases h1 : q ∈ X <;> by_cases h2 : q ∈ Y <;>
    simp [hp, h1, h2]

/-- A step of a resurrection walk: the world after the node `a` has been visited. -/
theorem resurrect_step (id : Int) {w : World} {a : Nat} {r : Reference}
    (hr : w.deref a = .ok r) :
    ∃ w1, (if r.m_Persistent = true then w.modify a (fun x => { x with m_ID := id })
            else .ok w) = .ok w1 ∧
      w1.s_Instances = w.s_Instances ∧
      ∀ q, w1.deref q = (w.deref q).map (resurrected id [a] q) := by
  by_cases hp : r.m_Persistent = true
  · refine ⟨w.store a { r with m_ID := id }, by simp [hp, modify_eq hr], by simp, ?_⟩
    intro q
    by_cases hq : q = a
    · subst hq
      rw [deref_store_same hr, hr]
      simp [Except.map, resurrected, hp]
    · rw [deref_store_ne _ (Ne.symm hq)]
      refine (Except_map_self _ _ (fun x _ => ?_)).symm
      simp [resurrected, hq]
  · refine ⟨w, by simp [hp], rfl, ?_⟩
    intro q
    refine (Except_map_self _ _ (fun x hx => ?_)).symm
    unfold resurrected
    split
    · rename_i h
      have : q = a := by simpa using h.1
      subst this
      rw [hr] at hx
      cases hx
      exact absurd h.2 hp
    · rfl

/-- Two worlds whose objects have the same links. -/
theorem isSeg_of_map {w w' : World} {f : Ptr → Reference → Reference}
    (hf : ∀ q r, (f q r).m_Prev = r.m_Prev ∧ (f q r).m_Next = r.m_Next)
    (h : ∀ q, w'.deref q = (w.deref q).map (f q)) {p n : Ptr} {L : List Ptr}
    (hs : isSeg w p L n = true) : isSeg w' p L n = true := by
  refine isSeg_congr (fun a _ r hr => ?_) hs
  refine ⟨f a r, ?_, (hf a r).1, (hf a r).2⟩
  rw [h a, hr]
  rfl

theorem resurrectForward_spec (id : Int) {Y : List Ptr} :
    ∀ {fuel : Nat} {w : World} {p : Ptr}, isSeg w p Y 0 = true → Y.length ≤ fuel →
    ∃ w', resurrectForward id fuel (Y.headD 0) w = .ok w' ∧
      w'.s_Instances = w.s_Instances ∧
      ∀ q, w'.deref q = (w.deref q).map (resurrected id Y q) := by
  induction Y with
  | nil =>
    intro fuel w p _ _
    refine ⟨w, resurrectForward_zero id fuel w, rfl, fun q => ?_⟩
    exact (Except_map_self _ _ (fun x _ => resurrected_nil id q x)).symm
  | cons a Y ih =>
    intro fuel w p hs hf
    rw [isSeg_cons] at hs
    obtain ⟨r, hr, -, hn, hs⟩ := hs
    obtain ⟨a', rfl⟩ := Nat.exists_eq_succ_of_ne_zero (deref_ne_zero hr)
    obtain ⟨f, rfl⟩ := Nat.exists_eq_succ_of_ne_zero (n := fuel) (by
      simp only [List.length_cons] at hf
      omega)
    obtain ⟨w1, hw1, hs1, hd1⟩ := resurrect_step id hr
    have hs' : isSeg w1 (a' + 1) Y 0 = true :=
      isSeg_of_map (fun q r => ⟨(resurrected_links id _ q r).1, (resurrected_links id _ q r).2.1⟩)
        hd1 hs
    obtain ⟨w', hw', hs2, hd2⟩ := @ih f w1 (a' + 1) hs' (by
      simp only [List.length_cons] at hf
      omega)
    refine ⟨w', ?_, hs2.trans hs1, fun q => ?_⟩
    · simp only [List.headD_cons, resurrectForward, hr]
      split at hw1
      · rename_i hp
        simp only [hp, if_true, hw1, hn, hw']
      · rename_i hp
        simp only [Except.ok.injEq] at hw1
        subst hw1
        simp only [hp, if_false, hn, hw', Bool.false_eq_true]
    · rw [hd2, hd1]
      cases w.deref q with
      | error e => rfl
      | ok x => simp [Except.map, resurrected_cons]

theorem resurrected_congr (id : Int) {Y Y' : List Ptr} {q : Ptr} (h : q ∈ Y ↔ q ∈ Y')
    (r : Reference) : resurrected id Y q r = resurrected id Y' q r := by
  unfold resurrected
  simp only [h]

theorem resurrectBackward_spec (id : Int) {X : List Ptr} :
    ∀ {fuel : Nat} {w : World} {n : Ptr}, isSeg w 0 X n = true → X.length ≤ fuel →
    ∃ w', resurrectBackward id fuel (X.getLastD 0) w = .ok w' ∧
      w'.s_Instances = w.s_Instances ∧
      ∀ q, w'.deref q = (w.deref q).map (resurrected id X q) := by
  induction X using List.reverseRecOn with
  | nil =>
    intro fuel w n _ _
    refine ⟨w, resurrectBackward_zero id fuel w, rfl, fun q => ?_⟩
    exact (Except_map_self _ _ (fun x _ => resurrected_nil id q x)).symm
  | append_singleton X a ih =>
    intro fuel w n hs hf
    rw [isSeg_append, isSeg_cons] at hs
    obtain ⟨hsX, r, hr, hp, -, -⟩ := hs
    obtain ⟨a', rfl⟩ := Nat.exists_eq_succ_of_ne_zero (deref_ne_zero hr)
    obtain ⟨f, rfl⟩ := Nat.exists_eq_succ_of_ne_zero (n := fuel) (by
      simp only [List.length_append, List.length_singleton] at hf
      omega)
    obtain ⟨w1, hw1, hs1, hd1⟩ := resurrect_step id hr
    have hs' : isSeg w1 0 X (a' + 1) = true :=
      isSeg_of_map (fun q r => ⟨(resurrected_links id _ q r).1, (resurrected_links id _ q r).2.1⟩)
        hd1 hsX
    obtain ⟨w', hw', hs2, hd2⟩ := @ih f w1 (a' + 1) hs' (by
      simp only [List.length_append, List.length_singleton] at hf
      omega)
    refine ⟨w', ?_, hs2.trans hs1, fun q => ?_⟩
    · rw [List.getLastD_concat]
      simp only [resurrectBackward, hr]
      split at hw1
      · rename_i hpers
        simp only [hpers, if_true, hw1, hp, hw']
      · rename_i hpers
        simp only [Except.ok.injEq] at hw1
        subst hw1
        simp only [hpers, if_false, hp, hw', Bool.false_eq_true]
    · rw [hd2, hd1]
      cases w.deref q with
      | error e => rfl
      | ok x =>
        simp only [Except.map, Except.ok.injEq]
        rw [resurrected_append]
        exact resurrected_congr id (by simp [or_comm]) x

/-- The statements of `Activate` on the path that returns `true`, for a slot whose chain is a
doubly linked list through its root. -/
theorem activateBody_chain {fuel : Nat} {id : Int} {owned : Bool} {args : List Int}
    {w : World} {x : Instance} {B A : List Ptr} (hx : w.inst id = .ok x)
    (hroot : x.Root ≠ 0) (hs : isSeg w 0 (B ++ x.Root :: A) 0 = true)
    (hB : B.length ≤ fuel) (hA : A.length ≤ fuel) :
    ∃ w1 : World, activateBody fuel id owned args w =
        .ok (w1.setInst id (Store
          { x with ID := id, Owned := owned, Tag := if x.Fresh then "" else x.Tag,
                   Data := if x.Fresh then 0 else x.Data } args)) ∧
      w1.s_Instances = w.s_Instances ∧
      ∀ q, w1.deref q = (w.deref q).map (resurrected id (B ++ A) q) := by
  obtain ⟨rr, hrr, hrp, hrn⟩ := isSeg_mid hs
  have hs' := hs
  rw [isSeg_append, isSeg_cons] at hs'
  obtain ⟨hsB, -, -, -, -, hsA⟩ := hs'
  obtain ⟨w1, hw1, hi1, hd1⟩ := resurrectBackward_spec id hsB hB
  have hlinks : ∀ Y q r, (resurrected id Y q r).m_Prev = r.m_Prev ∧
      (resurrected id Y q r).m_Next = r.m_Next :=
    fun Y q r => ⟨(resurrected_links id Y q r).1, (resurrected_links id Y q r).2.1⟩
  have hx1 : w1.inst id = .ok x := by
    unfold World.inst at hx ⊢
    rw [hi1]
    exact hx
  have hrr1 : w1.deref x.Root = .ok (resurrected id B x.Root rr) := by
    rw [hd1, hrr]
    rfl
  obtain ⟨w2, hw2, hi2, hd2⟩ :=
    resurrectForward_spec id (isSeg_of_map (hlinks B) hd1 hsA) hA
  have hx2 : w2.inst id = .ok x := by
    unfold World.inst at hx1 ⊢
    rw [hi2]
    exact hx1
  refine ⟨w2, ?_, hi2.trans hi1, fun q => ?_⟩
  · have hwalk : activateWalk fuel id w = .ok w2 := by
      unfold activateWalk
      simp only [hx, bind, Except.bind, ne_eq, hroot, not_false_eq_true, if_true, hrr, hrp,
        hw1, hx1, hrr1, (hlinks B x.Root rr).2, hrn, hw2]
    unfold activateBody
    rw [hwalk]
    exact activateSlot_eq hx2 owned args
  · rw [hd2, hd1]
    cases w.deref q with
    | error e => rfl
    | ok y =>
      simp only [Except.map, Except.ok.injEq]
      exact resurrected_append id B A q y

theorem inst_congr {w w' : World} (h : w'.s_Instances = w.s_Instances) (j : Int) :
    w'.inst j = w.inst j := by
  unfold World.inst
  rw [h]

theorem Max_congr {w w' : World} (h : w'.s_Instances = w.s_Instances) : w'.Max = w.Max := by
  unfold World.Max
  rw [h]

/-- What `Activate(id, owned, args)` returns where its walks complete: `true` iff
`0 <= id < Limit` and slot `id` is not active before the call; when it returns `true`, slot `id`
has `ID = id` and `Owned = owned` afterwards and every other slot is unchanged. The calls that
are refused need no condition. For a slot in range that is not active, a non-null `Root` is
taken to be on a chain `B ++ Root :: A` linked through `m_Prev` and `m_Next`, which the walks
get the fuel for. -/
theorem Activate_returns (fuel : Nat) (id : Int) (owned : Bool) (args : List Int) (w : World)
    (B A : List Ptr)
    (hchain : ∀ x, w.inst id = .ok x → Verify w id = false → x.Root ≠ 0 →
      isSeg w 0 (B ++ x.Root :: A) 0 = true)
    (hB : B.length ≤ fuel) (hA : A.length ≤ fuel) :
    ∃ w', Activate fuel id owned args w
        = .ok (decide (0 ≤ id ∧ id < w.Max) && !Verify w id, w') ∧
      ((decide (0 ≤ id ∧ id < w.Max) && !Verify w id) = true →
        (∃ y, w'.inst id = .ok y ∧ y.ID = id ∧ y.Owned = owned) ∧
        ∀ j, j ≠ id → w'.inst j = w.inst j) := by
  by_cases h1 : INVALID_ENTITYEX id w.Max = true
  · have hr : ¬ (0 ≤ id ∧ id < w.Max) := by
      simp only [INVALID_ENTITYEX, Bool.or_eq_true, decide_eq_true_eq] at h1
      omega
    refine ⟨w, ?_, ?_⟩
    · rw [Activate_of_invalid h1]
      simp [hr]
    · simp [hr]
  · have h1' : INVALID_ENTITYEX id w.Max = false := by simpa using h1
    have hr : 0 ≤ id ∧ id < w.Max := by
      simp only [INVALID_ENTITYEX, Bool.or_eq_false_iff, decide_eq_false_iff_not] at h1'
      omega
    by_cases h2 : Verify w id = true
    · refine ⟨w, ?_, ?_⟩
      · rw [Activate_of_active h2]
        simp [h2]
      · simp [h2]
    · have h2' : Verify w id = false := by simpa using h2
      obtain ⟨x, hx⟩ := (INVALID_ENTITYEX_eq_false_iff w id).1 h1'
      have hb : (decide (0 ≤ id ∧ id < w.Max) && !Verify w id) = true := by simp [hr, h2']
      rw [hb, Activate_of_inactive h1' h2']
      by_cases h0 : x.Root = 0
      · rw [activateBody_null_root hx h0]
        refine ⟨_, rfl, fun _ => ⟨⟨_, inst_setInst_same hx _, rfl, rfl⟩, fun j hj => ?_⟩⟩
        exact inst_setInst_ne w (Ne.symm hj) _
      · obtain ⟨w1, hw1, hi1, -⟩ :=
          @activateBody_chain fuel id owned args w x B A hx h0 (hchain x hx h2' h0) hB hA
        rw [hw1]
        have hx1 : w1.inst id = .ok x := (inst_congr hi1 id).trans hx
        refine ⟨_, rfl, fun _ => ⟨⟨_, inst_setInst_same hx1 _, rfl, rfl⟩, fun j hj => ?_⟩⟩
        rw [inst_setInst_ne w1 (Ne.symm hj), inst_congr hi1]

theorem Activate_returns_witness :
    ∃ w', Activate 1 0 true [7] worldLeftover
        = .ok (decide ((0 : Int) ≤ 0 ∧ 0 < worldLeftover.Max) && !Verify worldLeftover 0, w') ∧
      ((decide ((0 : Int) ≤ 0 ∧ 0 < worldLeftover.Max) && !Verify worldLeftover 0) = true →
        (∃ y, w'.inst 0 = .ok y ∧ y.ID = 0 ∧ y.Owned = true) ∧
        ∀ j, j ≠ 0 → w'.inst j = worldLeftover.inst j) :=
  Activate_returns 1 0 true [7] worldLeftover [1] [3]
    (fun x hx _ _ => by
      have h : worldLeftover.inst 0 = .ok { ID := -1, Root := 2 } := rfl
      rw [h] at hx
      cases hx
      decide)
    (by decide) (by decide)

/-! ## Counting the references of a chain -/

theorem countForward_spec {Y : List Ptr} :
    ∀ {fuel : Nat} {w : World} {p : Ptr} {c : Nat}, isSeg w p Y 0 = true → Y.length ≤ fuel →
      c < 2 ^ 32 → countForward fuel w (Y.headD 0) c = .ok ((c + Y.length) % 2 ^ 32) := by
  induction Y with
  | nil =>
    intro fuel w p c _ _ hc
    have : countForward fuel w 0 c = .ok c := by cases fuel <;> rfl
    simp only [List.headD_nil, List.length_nil, Nat.add_zero, Nat.mod_eq_of_lt hc, this]
  | cons a Y ih =>
    intro fuel w p c hs hf hc
    rw [isSeg_cons] at hs
    obtain ⟨r, hr, -, hn, hs⟩ := hs
    obtain ⟨a', rfl⟩ := Nat.exists_eq_succ_of_ne_zero (deref_ne_zero hr)
    obtain ⟨f, rfl⟩ := Nat.exists_eq_succ_of_ne_zero (n := fuel) (by
      simp only [List.length_cons] at hf
      omega)
    simp only [List.headD_cons, countForward, hr, hn]
    rw [ih hs (by simp only [List.length_cons] at hf; omega) (Nat.mod_lt _ (by norm_num))]
    simp only [List.length_cons, Nat.mod_add_mod]
    congr 2
    omega

theorem countBackward_spec {X : List Ptr} :
    ∀ {fuel : Nat} {w : World} {n : Ptr} {c : Nat}, isSeg w 0 X n = true → X.length ≤ fuel →
      c < 2 ^ 32 → countBackward fuel w (X.getLastD 0) c = .ok ((c + X.length) % 2 ^ 32) := by
  induction X using List.reverseRecOn with
  | nil =>
    intro fuel w n c _ _ hc
    have : countBackward fuel w 0 c = .ok c := by cases fuel <;> rfl
    simp only [List.getLastD_nil, List.length_nil, Nat.add_zero, Nat.mod_eq_of_lt hc, this]
  | append_singleton X a ih =>
    intro fuel w n c hs hf hc
    rw [isSeg_append, isSeg_cons] at hs
    obtain ⟨hsX, r, hr, hp, -, -⟩ := hs
    obtain ⟨a', rfl⟩ := Nat.exists_eq_succ_of_ne_zero (deref_ne_zero hr)
    obtain ⟨f, rfl⟩ := Nat.exists_eq_succ_of_ne_zero (n := fuel) (by
      simp only [List.length_append, List.length_singleton] at hf
      omega)
    rw [List.getLastD_concat]
    simp only [countBackward, hr, hp]
    rw [ih hsX (by simp only [List.length_append, List.length_singleton] at hf; omega)
      (Nat.mod_lt _ (by norm_num))]
    simp only [List.length_append, List.length_singleton, Nat.mod_add_mod]
    congr 2
    omega

/-- `CountRefs` on a node of a doubly linked list counts the nodes of the list. -/
theorem CountRefs_chain {w : World} {X Y : List Ptr} {p : Ptr} {r : Reference} {fuel : Nat}
    (hs : isSeg w 0 (X ++ p :: Y) 0 = true) (hr : w.deref p = .ok r)
    (hid : VALID_ENTITYEX r.m_ID w.Max = true) (hX : X.length ≤ fuel) (hY : Y.length ≤ fuel) :
    CountRefs fuel p w = .ok ((X.length + 1 + Y.length) % 2 ^ 32) := by
  obtain ⟨r', hr', hp, hn⟩ := isSeg_mid hs
  rw [hr] at hr'
  cases hr'
  rw [isSeg_append, isSeg_cons] at hs
  obtain ⟨hsX, -, -, -, -, hsY⟩ := hs
  unfold CountRefs
  simp only [hr, bind, Except.bind, hid, if_true, hp, hn]
  rw [countBackward_spec hsX hX (by norm_num)]
  simp only
  rw [countForward_spec hsY hY (Nat.mod_lt _ (by norm_num))]
  simp only [Nat.mod_add_mod]
  congr 2
  omega

theorem CountRefs_unbound {w : World} {p : Ptr} {r : Reference} (fuel : Nat)
    (hr : w.deref p = .ok r) (hid : r.m_ID < 0) : CountRefs fuel p w = .ok 0 := by
  unfold CountRefs
  have : VALID_ENTITYEX r.m_ID w.Max = false := by
    simp only [VALID_ENTITYEX, Bool.and_eq_false_imp, decide_eq_true_eq, decide_eq_false_iff_not]
    omega
  simp [hr, bind, Except.bind, this, pure, Except.pure]

/-! ## Constructing references on a slot -/

/-- `Reference(id)` on a live slot puts the new reference in front of the chain. -/
theorem Construct_chain {w : World} {id : Int} {L : List Ptr} (h : BoundChain w id L) :
    ∃ w', Construct id w = .ok (w.heap.length + 1, w') ∧
      BoundChain w' id ((w.heap.length + 1) :: L) := by
  obtain ⟨⟨x, hx, hx0, hroot⟩, hseg, hnd, hb⟩ := h
  have hv : Verify w id = true := (Verify_iff w id).2 ⟨x, hx, hx0⟩
  have hid0 : 0 ≤ id := ((inst_ok_iff w id).1 ⟨x, hx⟩).1
  have hnew := deref_alloc_new w (newReference id)
  have hfresh : ∀ a ∈ L, a ≠ w.heap.length + 1 := by
    intro a ha
    obtain ⟨r, hr, -⟩ := hb a ha
    exact Nat.ne_of_lt (Nat.lt_succ_of_le (deref_le_length hr))
  rw [Construct_eq]
  simp only [hv, if_true]
  cases L with
  | nil =>
    rw [InsertIntoChain_null_root hnew hid0 (by simpa using hx) (by simpa using hroot)]
    refine ⟨_, rfl, ⟨_, inst_setInst_same (by simpa using hx) _, hx0, rfl⟩, ?_,
      List.nodup_singleton _, ?_⟩
    · rw [isSeg_cons]
      exact ⟨newReference id, by rw [deref_setInst]; exact hnew, rfl, rfl, rfl⟩
    · intro a ha
      rw [List.mem_singleton] at ha
      subst ha
      exact ⟨newReference id, by rw [deref_setInst]; exact hnew, rfl⟩
  | cons rt L =>
    simp only [List.headD_cons] at hroot
    rw [isSeg_cons] at hseg
    obtain ⟨rr, hrr, hrp, hrn, hseg⟩ := hseg
    have hrt0 : x.Root ≠ 0 := by rw [hroot]; exact deref_ne_zero hrr
    have hrtne : x.Root ≠ w.heap.length + 1 := by
      rw [hroot]
      exact hfresh rt (List.mem_cons_self _ _)
    have hrr' : (w.alloc (newReference id)).2.deref x.Root = .ok rr := by
      rw [hroot]
      exact deref_alloc_old hrr _
    rw [InsertIntoChain_root hnew hid0 (by simpa using hx) hrt0 hrtne hrr']
    have hd : ∀ q, q ≠ rt → q ≠ w.heap.length + 1 → ∀ r, w.deref q = .ok r →
        ((((w.alloc (newReference id)).2.store (w.heap.length + 1)
          { newReference id with m_Next := x.Root, m_Prev := rr.m_Prev }).store x.Root
          { rr with m_Prev := w.heap.length + 1 }).setInst (newReference id).m_ID
          { x with Root := w.heap.length + 1 }).deref q = .ok r := by
      intro q hq1 hq2 r hr
      rw [deref_setInst, deref_store_ne _ (by rw [hroot]; exact Ne.symm hq1),
        deref_store_ne _ (Ne.symm hq2)]
      exact deref_alloc_old hr _
    have hdrt : ((((w.alloc (newReference id)).2.store (w.heap.length + 1)
          { newReference id with m_Next := x.Root, m_Prev := rr.m_Prev }).store x.Root
          { rr with m_Prev := w.heap.length + 1 }).setInst (newReference id).m_ID
          { x with Root := w.heap.length + 1 }).deref rt
          = .ok { rr with m_Prev := w.heap.length + 1 } := by
      rw [deref_setInst, ← hroot]
      refine deref_store_same (r := rr) ?_ _
      rw [deref_store_ne _ (Ne.symm hrtne)]
      exact hrr'
    have hdnew : ((((w.alloc (newReference id)).2.store (w.heap.length + 1)
          { newReference id with m_Next := x.Root, m_Prev := rr.m_Prev }).store x.Root
          { rr with m_Prev := w.heap.length + 1 }).setInst (newReference id).m_ID
          { x with Root := w.heap.length + 1 }).deref (w.heap.length + 1)
          = .ok { newReference id with m_Next := x.Root, m_Prev := rr.m_Prev } := by
      rw [deref_setInst, deref_store_ne _ hrtne]
      exact deref_store_same hnew _
    have hnd' := List.nodup_cons.1 hnd
    refine ⟨_, rfl, ⟨_, inst_setInst_same (by simpa using hx) _, hx0, rfl⟩, ?_, ?_, ?_⟩
    · rw [isSeg_cons]
      refine ⟨_, hdnew, hrp, by simpa using hroot, ?_⟩
      rw [isSeg_cons]
      refine ⟨_, hdrt, rfl, hrn, ?_⟩
      refine isSeg_congr (fun a ha r hr => ⟨r, ?_, rfl, rfl⟩) hseg
      exact hd a (fun e => hnd'.1 (e ▸ ha)) (hfresh a (List.mem_cons_of_mem _ ha)) r hr
    · refine List.nodup_cons.2 ⟨fun hmem => ?_, hnd⟩
      exact hfresh _ hmem rfl
    · intro a ha
      rcases List.mem_cons.1 ha with rfl | ha
      · exact ⟨_, hdnew, rfl⟩
      · rcases List.mem_cons.1 ha with rfl | ha'
        · obtain ⟨r, hr, hrid⟩ := hb a (List.mem_cons_self _ _)
          rw [hrr] at hr
          cases hr
          exact ⟨_, hdrt, hrid⟩
        · obtain ⟨r, hr, hrid⟩ := hb a ha
          exact ⟨r, hd a (fun e => hnd'.1 (e ▸ ha')) (hfresh a ha) r hr, hrid⟩

theorem constructN_spec {id : Int} (n : Nat) :
    ∀ {w : World} {L : List Ptr}, BoundChain w id L →
      ∃ ps w', constructN id n w = .ok (ps, w') ∧ ps.length = n ∧
        BoundChain w' id (ps ++ L) := by
  induction n with
  | zero =>
    intro w L h
    exact ⟨[], w, rfl, rfl, h⟩
  | succ n ih =>
    intro w L h
    obtain ⟨ps, w1, h1, hlen, hb1⟩ := ih h
    obtain ⟨w2, h2, hb2⟩ := Construct_chain hb1
    refine ⟨(w1.heap.length + 1) :: ps, w2, ?_, by simp [hlen], hb2⟩
    simp only [constructN, h1, bind, Except.bind, h2, pure, Except.pure]

theorem RemoveFromChain_eq (self : Ptr) (w : World) :
    RemoveFromChain self w =
      (w.deref self >>= fun this =>
        if VALID_ENTITY this.m_ID = true then
          (if this.m_Next ≠ 0 then
              w.modify this.m_Next (fun r => { r with m_Prev := this.m_Prev })
            else pure w) >>= fun w1 =>
          w1.deref self >>= fun this =>
          (if this.m_Prev ≠ 0 then
              w1.modify this.m_Prev (fun r => { r with m_Next := this.m_Next })
            else pure w1) >>= fun w2 =>
          w2.deref self >>= fun this =>
          w2.inst this.m_ID >>= fun inst =>
          (if inst.Root = self then
              w2.modifyInst this.m_ID (fun x =>
                { x with Root := if this.m_Next ≠ 0 then this.m_Next
                                 else if this.m_Prev ≠ 0 then this.m_Prev else 0 })
            else pure w2) >>= fun w3 =>
          w3.modify self (fun r => { r with m_Next := 0, m_Prev := 0 })
        else pure w) := by
  unfold RemoveFromChain
  refine bind_congr (fun this => ?_)
  split_ifs <;> simp only [bind_assoc, pure_bind]
  all_goals
    repeat
      first
      | rfl
      | refine bind_congr (fun _ => ?_)
      | (split_ifs <;> try simp only [bind_assoc, pure_bind])

theorem modify_if_spec {w : World} {n : Nat} (f : Reference → Reference)
    (h : n ≠ 0 → ∃ r, w.deref n = .ok r) :
    ∃ w1 : World, (if n ≠ 0 then w.modify n f else pure w) = .ok w1 ∧
      w1.s_Instances = w.s_Instances ∧
      (∀ q, q ≠ n → w1.deref q = w.deref q) ∧
      (∀ r, w.deref n = .ok r → w1.deref n = .ok (f r)) := by
  by_cases hn : n = 0
  · subst hn
    exact ⟨w, by simp [pure, Except.pure], rfl, fun _ _ => rfl, fun r hr => by simp at hr⟩
  · obtain ⟨r, hr⟩ := h hn
    refine ⟨w.store n (f r), by simp [hn, modify_eq hr], by simp, fun q hq => ?_, fun r' hr' => ?_⟩
    · exact deref_store_ne _ (Ne.symm hq) _
    · rw [hr] at hr'
      cases hr'
      exact deref_store_same hr _

/-- The node before `b` on a chain, if there is one. -/
theorem isSeg_before {w : World} {X : List Ptr} {p b : Ptr} (hs : isSeg w p X b = true) :
    (X = [] ∧ X.getLastD 0 = 0) ∨
      ∃ X' x' rx, X = X' ++ [x'] ∧ X.getLastD 0 = x' ∧ w.deref x' = .ok rx ∧
        rx.m_Next = b ∧ rx.m_Prev = X'.getLastD p ∧ isSeg w p X' x' = true := by
  induction X using List.reverseRecOn with
  | nil => exact Or.inl ⟨rfl, rfl⟩
  | append_singleton X' x' _ =>
    right
    rw [isSeg_append, isSeg_cons] at hs
    obtain ⟨hsX, rx, hrx, hp, hn, -⟩ := hs
    exact ⟨X', x', rx, rfl, List.getLastD_concat _ _ _, hrx, by simpa using hn, hp,
      by simpa using hsX⟩

/-- The node after `b` on a chain, if there is one. -/
theorem isSeg_after {w : World} {Y : List Ptr} {b n : Ptr} (hs : isSeg w b Y n = true) :
    (Y = [] ∧ Y.headD 0 = 0) ∨
      ∃ y Y' ry, Y = y :: Y' ∧ Y.headD 0 = y ∧ w.deref y = .ok ry ∧
        ry.m_Prev = b ∧ ry.m_Next = Y'.headD n ∧ isSeg w y Y' n = true := by
  cases Y with
  | nil => exact Or.inl ⟨rfl, rfl⟩
  | cons y Y' =>
    right
    rw [isSeg_cons] at hs
    obtain ⟨ry, hry, hp, hn, hs⟩ := hs
    exact ⟨y, Y', ry, rfl, rfl, hry, hp, hn, hs⟩

/-- The world after `RemoveFromChain` on a node `b` of a chain that is not the root of its
slot, object by object. -/
theorem RemoveFromChain_pointwise {w : World} {X Y : List Ptr} {b : Nat} {r : Reference}
    {x : Instance} (hs : isSeg w 0 (X ++ b :: Y) 0 = true) (hnd : (X ++ b :: Y).Nodup)
    (hr : w.deref b = .ok r) (hid : 0 ≤ r.m_ID) (hx : w.inst r.m_ID = .ok x)
    (hroot : x.Root ≠ b) :
    ∃ w' : World, RemoveFromChain b w = .ok w' ∧ w'.s_Instances = w.s_Instances ∧
      w'.deref b = .ok { r with m_Next := 0, m_Prev := 0 } ∧
      (∀ q, q ≠ b → q ≠ X.getLastD 0 → q ≠ Y.headD 0 → w'.deref q = w.deref q) ∧
      (∀ rx, w.deref (X.getLastD 0) = .ok rx →
        w'.deref (X.getLastD 0) = .ok { rx with m_Next := Y.headD 0 }) ∧
      (∀ ry, w.deref (Y.headD 0) = .ok ry →
        w'.deref (Y.headD 0) = .ok { ry with m_Prev := X.getLastD 0 }) := by
  obtain ⟨r', hr', hp, hn⟩ := isSeg_mid hs
  rw [hr] at hr'
  cases hr'
  have hsplit := hs
  rw [isSeg_append, isSeg_cons] at hsplit
  obtain ⟨hsX, -, -, -, -, hsY⟩ := hsplit
  simp only [List.headD_cons] at hsX
  have hb0 : b ≠ 0 := deref_ne_zero hr
  have hndX : b ∉ X := fun h => by
    have := List.nodup_append.1 hnd
    exact this.2.2 h (List.mem_cons_self _ _)
  have hndY : b ∉ Y := fun h => by
    have := (List.nodup_append.1 hnd).2.1
    exact (List.nodup_cons.1 this).1 h
  have hXY : ∀ a, a ∈ X → a ∈ Y → False := fun a h1 h2 =>
    (List.nodup_append.1 hnd).2.2 h1 (List.mem_cons_of_mem _ h2)
  -- the neighbours
  have hprev : X.getLastD 0 ≠ 0 → X.getLastD 0 ∈ X ∧ ∃ rx, w.deref (X.getLastD 0) = .ok rx := by
    intro h0
    rcases isSeg_before hsX with ⟨-, h⟩ | ⟨X', x', rx, hX, hl, hrx, -⟩
    · exact absurd h h0
    · rw [hl]
      exact ⟨by rw [hX]; simp, rx, hrx⟩
  have hnext : Y.headD 0 ≠ 0 → Y.headD 0 ∈ Y ∧ ∃ ry, w.deref (Y.headD 0) = .ok ry := by
    intro h0
    rcases isSeg_after hsY with ⟨-, h⟩ | ⟨y, Y', ry, hY, hl, hry, -⟩
    · exact absurd h h0
    · rw [hl]
      exact ⟨by rw [hY]; simp, ry, hry⟩
  have hbn : b ≠ Y.headD 0 := by
    intro e
    exact hndY (e ▸ (hnext (e ▸ hb0)).1)
  have hbp : b ≠ X.getLastD 0 := by
    intro e
    exact hndX (e ▸ (hprev (e ▸ hb0)).1)
  have hpn : X.getLastD 0 ≠ 0 → X.getLastD 0 ≠ Y.headD 0 := by
    intro h0 e
    exact hXY _ (hprev h0).1 (e ▸ (hnext (e ▸ h0)).1)
  -- the steps
  obtain ⟨w1, hw1, hi1, hd1, hd1'⟩ :=
    modify_if_spec (w := w) (n := Y.headD 0) (fun z => { z with m_Prev := X.getLastD 0 })
      (fun h0 => (hnext h0).2)
  have hr1 : w1.deref b = .ok r := (hd1 b hbn).trans hr
  obtain ⟨w2, hw2, hi2, hd2, hd2'⟩ :=
    modify_if_spec (w := w1) (n := X.getLastD 0) (fun z => { z with m_Next := Y.headD 0 })
      (fun h0 => by
        obtain ⟨rx, hrx⟩ := (hprev h0).2
        exact ⟨rx, (hd1 _ (hpn h0)).trans hrx⟩)
  have hr2 : w2.deref b = .ok r := (hd2 b hbp).trans hr1
  have hx2 : w2.inst r.m_ID = .ok x := by
    rw [inst_congr hi2, inst_congr hi1, hx]
  refine ⟨w2.store b { r with m_Next := 0, m_Prev := 0 }, ?_, ?_, ?_, ?_, ?_, ?_⟩
  · rw [RemoveFromChain_eq]
    have hv : VALID_ENTITY r.m_ID = true := by simp [VALID_ENTITY, hid]
    simp only [pure, Except.pure] at hw1 hw2
    simp only [hr, bind, Except.bind, hv, if_true, hn, hp, hw1, hr1, hw2, hr2, hx2, hroot,
      if_false, pure, Except.pure, modify_eq hr2]
  · simp [hi2, hi1]
  · exact deref_store_same hr2 _
  · intro q hqb hqp hqn
    rw [deref_store_ne _ (Ne.symm hqb), hd2 q hqp, hd1 q hqn]
  · intro rx hrx
    have h0 : X.getLastD 0 ≠ 0 := deref_ne_zero hrx
    rw [deref_store_ne _ hbp]
    exact hd2' rx ((hd1 _ (hpn h0)).trans hrx)
  · intro ry hry
    have h0 : Y.headD 0 ≠ 0 := deref_ne_zero hry
    have hne : Y.headD 0 ≠ X.getLastD 0 := by
      intro e
      have h0' : X.getLastD 0 ≠ 0 := e ▸ h0
      exact hpn h0' e.symm
    rw [deref_store_ne _ hbn, hd2 _ hne]
    exact hd1' ry hry

/-- `RemoveFromChain` on a node of a chain that is not the root of its slot takes the node
out of the chain and changes no id and no persistence flag. -/
theorem RemoveFromChain_inner {w : World} {X Y : List Ptr} {b : Nat} {r : Reference}
    {x : Instance} (hs : isSeg w 0 (X ++ b :: Y) 0 = true) (hnd : (X ++ b :: Y).Nodup)
    (hr : w.deref b = .ok r) (hid : 0 ≤ r.m_ID) (hx : w.inst r.m_ID = .ok x)
    (hroot : x.Root ≠ b) :
    ∃ w' : World, RemoveFromChain b w = .ok w' ∧ w'.s_Instances = w.s_Instances ∧
      isSeg w' 0 (X ++ Y) 0 = true ∧
      (∀ q r0, w.deref q = .ok r0 →
        ∃ r1, w'.deref q = .ok r1 ∧ r1.m_ID = r0.m_ID ∧ r1.m_Persistent = r0.m_Persistent) := by
  obtain ⟨w', hw', hi, hdb, hdq, hdp, hdn⟩ := RemoveFromChain_pointwise hs hnd hr hid hx hroot
  have hsplit := hs
  rw [isSeg_append, isSeg_cons] at hsplit
  obtain ⟨hsX, -, -, -, -, hsY⟩ := hsplit
  simp only [List.headD_cons] at hsX
  have hndX : b ∉ X := fun h => (List.nodup_append.1 hnd).2.2 h (List.mem_cons_self _ _)
  have hndY : b ∉ Y := fun h => (List.nodup_cons.1 (List.nodup_append.1 hnd).2.1).1 h
  have hXY : ∀ a, a ∈ X → a ∈ Y → False := fun a h1 h2 =>
    (List.nodup_append.1 hnd).2.2 h1 (List.mem_cons_of_mem _ h2)
  refine ⟨w', hw', hi, ?_, ?_⟩
  · rw [isSeg_append]
    constructor
    · rcases isSeg_before hsX with ⟨hX, -⟩ | ⟨X', x', rx, hX, hl, hrx, -, hrxp, hsX'⟩
      · rw [hX]
        rfl
      · have hx'X' : x' ∉ X' := by
          have := (List.nodup_append.1 hnd).1
          rw [hX] at this
          exact fun h => (List.nodup_append.1 this).2.2 h (List.mem_singleton_self _)
        rw [hl] at hdp hdq
        have hrx' := hdp rx hrx
        rw [hX, isSeg_append, isSeg_cons]
        refine ⟨?_, _, hrx', hrxp, rfl, rfl⟩
        refine isSeg_congr (fun a ha ra hra => ⟨ra, ?_, rfl, rfl⟩) hsX'
        have haX : a ∈ X := by rw [hX]; exact List.mem_append_left _ ha
        rw [hdq a (fun e => hndX (e ▸ haX)) (fun e => hx'X' (e ▸ ha)) ?_, hra]
        intro e
        rcases isSeg_after hsY with ⟨-, h0⟩ | ⟨y, Y', ry, hY, hly, -⟩
        · exact deref_ne_zero hra (e.trans h0)
        · exact hXY a haX (by rw [e, hly, hY]; exact List.mem_cons_self _ _)
    · rcases isSeg_after hsY with ⟨hY, -⟩ | ⟨y, Y', ry, hY, hl, hry, -, hryn, hsY'⟩
      · rw [hY]
        rfl
      · have hyY' : y ∉ Y' := by
          have := (List.nodup_cons.1 (List.nodup_append.1 hnd).2.1).2
          rw [hY] at this
          exact (List.nodup_cons.1 this).1
        rw [hl] at hdn hdq
        have hry' := hdn ry hry
        rw [hY, isSeg_cons]
        refine ⟨_, hry', rfl, hryn, ?_⟩
        refine isSeg_congr (fun a ha ra hra => ⟨ra, ?_, rfl, rfl⟩) hsY'
        have haY : a ∈ Y := by rw [hY]; exact List.mem_cons_of_mem _ ha
        rw [hdq a (fun e => hndY (e ▸ haY)) ?_ (fun e => hyY' (e ▸ ha)), hra]
        intro e
        rcases isSeg_before hsX with ⟨-, h0⟩ | ⟨X', x', rx, hX, hlx, -⟩
        · exact deref_ne_zero hra (e.trans h0)
        · exact hXY a (by rw [e, hlx, hX]; simp) haY
  · intro q r0 h0
    by_cases hqb : q = b
    · subst hqb
      rw [hr] at h0
      cases h0
      exact ⟨_, hdb, rfl, rfl⟩
    · by_cases hqp : q = X.getLastD 0
      · subst hqp
        exact ⟨_, hdp r0 h0, rfl, rfl⟩
      · by_cases hqn : q = Y.headD 0
        · subst hqn
          exact ⟨_, hdn r0 h0, rfl, rfl⟩
        · exact ⟨r0, (hdq q hqb hqp hqn).trans h0, rfl, rfl⟩

/-! ## Deactivation walks of `Deactivate` -/

theorem DisabledOn_refl (w : World) : DisabledOn [] w w := by
  intro q r hr
  exact ⟨r, hr, rfl, by simp⟩

theorem DisabledOn_trans {Y1 Y2 : List Ptr} {w w1 w2 : World} (h1 : DisabledOn Y1 w w1)
    (h2 : DisabledOn Y2 w1 w2) : DisabledOn (Y1 ++ Y2) w w2 := by
  intro q r hr
  obtain ⟨r1, hr1, hp1, hid1⟩ := h1 q r hr
  obtain ⟨r2, hr2, hp2, hid2⟩ := h2 q r1 hr1
  refine ⟨r2, hr2, hp2.trans hp1, ?_⟩
  rw [hid2, hid1, hp1]
  by_cases hp : r.m_Persistent = true <;> by_cases hq1 : q ∈ Y1 <;> by_cases hq2 : q ∈ Y2 <;>
    simp [hp, hq1, hq2]

theorem DisabledOn_congr {Y Y' : List Ptr} {w w' : World} (h : DisabledOn Y w w')
    (hm : ∀ q, q ∈ Y ↔ q ∈ Y') : DisabledOn Y' w w' := by
  intro q r hr
  obtain ⟨r', hr', hp, hid⟩ := h q r hr
  exact ⟨r', hr', hp, by rw [hid]; simp only [hm q]⟩

theorem RemoveFromChain_unbound {w : World} {self : Ptr} {this : Reference}
    (h : w.deref self = .ok this) (hid : this.m_ID < 0) : RemoveFromChain self w = .ok w := by
  rw [RemoveFromChain_eq]
  have : VALID_ENTITY this.m_ID = false := by simp [VALID_ENTITY, hid]
  simp [h, bind, Except.bind, this, pure, Except.pure]

theorem targets_iff {w : World} {id : Int} {a : Ptr} :
    targets w id a = true ↔ ∃ r, w.deref a = .ok r ∧ (r.m_ID = id ∨ r.m_ID < 0) := by
  unfold targets
  cases w.deref a <;> simp

/-- One step of a deactivation walk, at a node `a` of the chain that is not the root of the
slot: a persistent node is disabled and stays, another node bound to the slot is taken out. -/
theorem deactivate_step {w : World} {id : Int} {x : Instance} {X Y : List Ptr} {a : Nat}
    {r : Reference} (hx : w.inst id = .ok x) (hroot : x.Root ≠ a)
    (hs : isSeg w 0 (X ++ a :: Y) 0 = true) (hnd : (X ++ a :: Y).Nodup)
    (hr : w.deref a = .ok r) (ht : r.m_ID = id ∨ r.m_ID < 0) :
    ∃ (w1 : World) (K : List Ptr),
      (if r.m_Persistent = true then w.modify a (fun z => { z with m_ID := SQMOD_UNKNOWN })
        else RemoveFromChain a w) = .ok w1 ∧
      w1.s_Instances = w.s_Instances ∧
      (K = [a] ∨ K = [] ∧ r.m_Persistent = false) ∧
      isSeg w1 0 (X ++ (K ++ Y)) 0 = true ∧
      DisabledOn [a] w w1 := by
  by_cases hp : r.m_Persistent = true
  · refine ⟨w.store a { r with m_ID := SQMOD_UNKNOWN }, [a], by simp [hp, modify_eq hr],
      by simp, Or.inl rfl, ?_, ?_⟩
    · refine isSeg_congr (fun b _ rb hrb => ?_) hs
      by_cases hb : b = a
      · subst hb
        rw [hr] at hrb
        cases hrb
        exact ⟨_, deref_store_same hr _, rfl, rfl⟩
      · exact ⟨rb, (deref_store_ne _ (Ne.symm hb) _).trans hrb, rfl, rfl⟩
    · intro q rq hrq
      by_cases hq : q = a
      · subst hq
        rw [hr] at hrq
        cases hrq
        exact ⟨_, deref_store_same hr _, rfl, by simp [hp]⟩
      · exact ⟨rq, (deref_store_ne _ (Ne.symm hq) _).trans hrq, rfl, by simp [hq]⟩
  · have hp' : r.m_Persistent = false := by simpa using hp
    by_cases hid : 0 ≤ r.m_ID
    · have hrid : r.m_ID = id := by
        rcases ht with h | h
        · exact h
        · omega
      obtain ⟨w1, hw1, hi1, hs1, hattr⟩ :=
        RemoveFromChain_inner hs hnd hr hid (by rw [hrid]; exact hx) hroot
      refine ⟨w1, [], by simp [hp, hw1], hi1, Or.inr ⟨rfl, hp'⟩, by simpa using hs1, ?_⟩
      intro q rq hrq
      obtain ⟨r1, hr1, hid1, hp1⟩ := hattr q rq hrq
      refine ⟨r1, hr1, hp1, ?_⟩
      rw [hid1]
      by_cases hq : q = a
      · subst hq
        rw [hr] at hrq
        cases hrq
        simp [hp']
      · simp [hq]
    · refine ⟨w, [a], by simp [hp, RemoveFromChain_unbound hr (by omega)], rfl, Or.inl rfl,
        by simpa using hs, ?_⟩
      intro q rq hrq
      refine ⟨rq, hrq, rfl, ?_⟩
      by_cases hq : q = a
      · subst hq
        rw [hr] at hrq
        cases hrq
        simp [hp']
      · simp [hq]

theorem deactivateForward_succ {w : World} {a fuel : Nat} {r : Reference}
    (hr : w.deref (a + 1) = .ok r) :
    deactivateForward (fuel + 1) (a + 1) w =
      ((if r.m_Persistent = true then
          w.modify (a + 1) (fun z => { z with m_ID := SQMOD_UNKNOWN })
        else RemoveFromChain (a + 1) w) >>= deactivateForward fuel r.m_Next) := by
  simp only [deactivateForward, hr]
  split_ifs <;> simp only [bind, Except.bind] <;> split <;> simp_all

theorem deactivateBackward_succ {w : World} {a fuel : Nat} {r : Reference}
    (hr : w.deref (a + 1) = .ok r) :
    deactivateBackward (fuel + 1) (a + 1) w =
      ((if r.m_Persistent = true then
          w.modify (a + 1) (fun z => { z with m_ID := SQMOD_UNKNOWN })
        else RemoveFromChain (a + 1) w) >>= deactivateBackward fuel r.m_Prev) := by
  simp only [deactivateBackward, hr]
  split_ifs <;> simp only [bind, Except.bind] <;> split <;> simp_all

theorem deactivateForward_zero (fuel : Nat) (w : World) :
    deactivateForward fuel 0 w = .ok w := by
  cases fuel <;> rfl

theorem deactivateBackward_zero (fuel : Nat) (w : World) :
    deactivateBackward fuel 0 w = .ok w := by
  cases fuel <;> rfl

theorem targets_of_DisabledOn {Y : List Ptr} {w w' : World} {id : Int} {b : Ptr}
    (h : DisabledOn Y w w') (hb : targets w id b = true) : targets w' id b = true := by
  rw [targets_iff] at hb ⊢
  obtain ⟨r, hr, hid⟩ := hb
  obtain ⟨r', hr', -, hid'⟩ := h b r hr
  refine ⟨r', hr', ?_⟩
  rw [hid']
  split
  · exact Or.inr (by decide)
  · exact hid

/-- The walk "Deactivate forward references" over the nodes `A` that follow the part `C` of
the chain, which holds the root. -/
theorem deactivateForward_spec {id : Int} {A : List Ptr} :
    ∀ {fuel : Nat} {w : World} {C : List Ptr} {x : Instance},
      w.inst id = .ok x → x.Root ∈ C → isSeg w 0 (C ++ A) 0 = true → (C ++ A).Nodup →
      (∀ a ∈ A, targets w id a = true) → A.length ≤ fuel →
      ∃ (w' : World) (A' : List Ptr), deactivateForward fuel (A.headD 0) w = .ok w' ∧
        w'.s_Instances = w.s_Instances ∧ A'.Sublist A ∧ isSeg w' 0 (C ++ A') 0 = true ∧
        DisabledOn A w w' ∧
        (∀ q ∈ A, ∀ r, w.deref q = .ok r → r.m_Persistent = true → q ∈ A') := by
  induction A with
  | nil =>
    intro fuel w C x _ _ hs _ _ _
    exact ⟨w, [], deactivateForward_zero fuel w, rfl, List.Sublist.refl _, hs,
      DisabledOn_refl w, fun q hq => by simp at hq⟩
  | cons a A ih =>
    intro fuel w C x hx hroot hs hnd ht hf
    obtain ⟨r, hr, -, hn⟩ := isSeg_mid hs
    obtain ⟨a', rfl⟩ := Nat.exists_eq_succ_of_ne_zero (deref_ne_zero hr)
    obtain ⟨f, rfl⟩ := Nat.exists_eq_succ_of_ne_zero (n := fuel) (by
      simp only [List.length_cons] at hf
      omega)
    have hdisj := (List.nodup_append.1 hnd).2.2
    have hrootne : x.Root ≠ a' + 1 := fun e =>
      hdisj hroot (e ▸ List.mem_cons_self _ _)
    have hta : r.m_ID = id ∨ r.m_ID < 0 := by
      obtain ⟨r', hr', h⟩ := targets_iff.1 (ht _ (List.mem_cons_self _ _))
      rw [hr] at hr'
      cases hr'
      exact h
    obtain ⟨w1, K, hstep, hi1, hK, hs1, hdis1⟩ := deactivate_step hx hrootne hs hnd hr hta
    have hnd1 : ((C ++ K) ++ A).Nodup := by
      rcases hK with rfl | ⟨rfl, -⟩
      · simpa using hnd
      · rw [List.append_nil]
        exact hnd.sublist (List.Sublist.append_left (List.sublist_cons_self _ _) _)
    obtain ⟨w', A0, hw', hi', hsub, hs', hdis', hmem'⟩ :=
      @ih f w1 (C ++ K) x ((inst_congr hi1 id).trans hx) (List.mem_append_left _ hroot)
        (by rw [List.append_assoc]; exact hs1) hnd1
        (fun b hb => targets_of_DisabledOn hdis1 (ht b (List.mem_cons_of_mem _ hb)))
        (by simp only [List.length_cons] at hf; omega)
    refine ⟨w', K ++ A0, ?_, hi'.trans hi1, ?_, by rw [← List.append_assoc]; exact hs',
      DisabledOn_trans hdis1 hdis', ?_⟩
    · rw [List.headD_cons, deactivateForward_succ hr, hstep]
      simp only [bind, Except.bind, hn]
      exact hw'
    · rcases hK with rfl | ⟨rfl, -⟩
      · exact List.Sublist.cons₂ _ hsub
      · exact List.Sublist.cons _ hsub
    · intro q hq rq hrq hpq
      rcases List.mem_cons.1 hq with rfl | hqA
      · rw [hr] at hrq
        cases hrq
        rcases hK with rfl | ⟨-, hnp⟩
        · simp
        · rw [hpq] at hnp
          cases hnp
      · obtain ⟨r1, hr1, hp1, -⟩ := hdis1 q rq hrq
        exact List.mem_append_right _ (hmem' q hqA r1 hr1 (hp1.trans hpq))

/-- The walk "Deactivate backward references" over the nodes `B` that precede the part `C` of
the chain, which holds the root. -/
theorem deactivateBackward_spec {id : Int} {B : List Ptr} :
    ∀ {fuel : Nat} {w : World} {C : List Ptr} {x : Instance},
      w.inst id = .ok x → x.Root ∈ C → isSeg w 0 (B ++ C) 0 = true → (B ++ C).Nodup →
      (∀ a ∈ B, targets w id a = true) → B.length ≤ fuel →
      ∃ (w' : World) (B' : List Ptr), deactivateBackward fuel (B.getLastD 0) w = .ok w' ∧
        w'.s_Instances = w.s_Instances ∧ B'.Sublist B ∧ isSeg w' 0 (B' ++ C) 0 = true ∧
        DisabledOn B w w' ∧
        (∀ q ∈ B, ∀ r, w.deref q = .ok r → r.m_Persistent = true → q ∈ B') := by
  induction B using List.reverseRecOn with
  | nil =>
    intro fuel w C x _ _ hs _ _ _
    exact ⟨w, [], deactivateBackward_zero fuel w, rfl, List.Sublist.refl _, hs,
      DisabledOn_refl w, fun q hq => by simp at hq⟩
  | append_singleton B a ih =>
    intro fuel w C x hx hroot hs hnd ht hf
    rw [List.append_assoc, List.singleton_append] at hs hnd
    obtain ⟨r, hr, hp, -⟩ := isSeg_mid hs
    obtain ⟨a', rfl⟩ := Nat.exists_eq_succ_of_ne_zero (deref_ne_zero hr)
    obtain ⟨f, rfl⟩ := Nat.exists_eq_succ_of_ne_zero (n := fuel) (by
      simp only [List.length_append, List.length_singleton] at hf
      omega)
    have haC : a' + 1 ∉ C := (List.nodup_cons.1 (List.nodup_append.1 hnd).2.1).1
    have hrootne : x.Root ≠ a' + 1 := fun e => haC (e ▸ hroot)
    have hta : r.m_ID = id ∨ r.m_ID < 0 := by
      obtain ⟨r', hr', h⟩ := targets_iff.1 (ht (a' + 1) (by simp))
      rw [hr] at hr'
      cases hr'
      exact h
    obtain ⟨w1, K, hstep, hi1, hK, hs1, hdis1⟩ := deactivate_step hx hrootne hs hnd hr hta
    have hnd1 : (B ++ (K ++ C)).Nodup := by
      rcases hK with rfl | ⟨rfl, -⟩
      · simpa using hnd
      · rw [List.nil_append]
        exact hnd.sublist (List.Sublist.append_left (List.sublist_cons_self _ _) _)
    obtain ⟨w', B0, hw', hi', hsub, hs', hdis', hmem'⟩ :=
      @ih f w1 (K ++ C) x ((inst_congr hi1 id).trans hx) (List.mem_append_right _ hroot)
        hs1 hnd1
        (fun b hb => targets_of_DisabledOn hdis1 (ht b (List.mem_append_left _ hb)))
        (by simp only [List.length_append, List.length_singleton] at hf; omega)
    refine ⟨w', B0 ++ K, ?_, hi'.trans hi1, ?_, by rw [List.append_assoc]; exact hs',
      DisabledOn_congr (DisabledOn_trans hdis1 hdis') (fun q => by simp [or_comm]), ?_⟩
    · rw [List.getLastD_concat, deactivateBackward_succ hr, hstep]
      simp only [bind, Except.bind, hp]
      exact hw'
    · rcases hK with rfl | ⟨rfl, -⟩
      · exact List.Sublist.append hsub (List.Sublist.refl _)
      · rw [List.append_nil]
        exact hsub.trans (List.sublist_append_left _ _)
    · intro q hq rq hrq hpq
      rcases List.mem_append.1 hq with hqB | hqa
      · obtain ⟨r1, hr1, hp1, -⟩ := hdis1 q rq hrq
        exact List.mem_append_left _ (hmem' q hqB r1 hr1 (hp1.trans hpq))
      · rw [List.mem_singleton] at hqa
        subst hqa
        rw [hr] at hrq
        cases hrq
        rcases hK with rfl | ⟨-, hnp⟩
        · simp
        · rw [hpq] at hnp
          cases hnp

theorem isSeg_setInst {w : World} {i : Int} {y : Instance} {p n : Ptr} {L : List Ptr} :
    isSeg (w.setInst i y) p L n = isSeg w p L n := by
  induction L generalizing p with
  | nil => rfl
  | cons a L ih => simp only [isSeg, deref_setInst, ih]

theorem isChainOf_iff {w : World} {id : Int} {B A : List Ptr} {root : Ptr} :
    isChainOf w id B root A = true ↔
      (∃ x, w.inst id = .ok x ∧ x.Root = root) ∧ isSeg w 0 (B ++ root :: A) 0 = true ∧
      (B ++ root :: A).Nodup ∧ ∀ a ∈ B ++ root :: A, targets w id a = true := by
  unfold isChainOf
  cases w.inst id with
  | error e => simp
  | ok x =>
    simp only [Bool.and_eq_true, beq_iff_eq, decide_eq_true_eq, List.all_eq_true, and_assoc,
      Except.ok.injEq, exists_eq_left']

/-- The statements of `Deactivate` on the path that returns `true`, for a slot with a well
formed chain `B ++ Root :: A`: the chain shrinks to `B' ++ Root :: A'`, which keeps every
persistent node, and the persistent references among `B` and `A` are disabled. -/
theorem deactivateBody_chain {fuel : Nat} {id : Int} {w : World} {x : Instance}
    {B A : List Ptr} (hx : w.inst id = .ok x)
    (hs : isSeg w 0 (B ++ x.Root :: A) 0 = true) (hnd : (B ++ x.Root :: A).Nodup)
    (ht : ∀ a ∈ B ++ x.Root :: A, targets w id a = true)
    (hB : B.length ≤ fuel) (hA : A.length ≤ fuel) :
    ∃ (w2 : World) (B' A' : List Ptr),
      deactivateBody fuel id w = .ok (w2.setInst id (Clear { x with ID := SQMOD_UNKNOWN })) ∧
      w2.s_Instances = w.s_Instances ∧ B'.Sublist B ∧ A'.Sublist A ∧
      isSeg w2 0 (B' ++ x.Root :: A') 0 = true ∧
      DisabledOn (B ++ A) w w2 ∧
      (∀ q ∈ B ++ A, ∀ r, w.deref q = .ok r → r.m_Persistent = true → q ∈ B' ++ A') := by
  obtain ⟨rr, hrr, hrp, -⟩ := isSeg_mid hs
  obtain ⟨w1, B', hw1, hi1, hsubB, hs1, hdis1, hmem1⟩ :=
    deactivateBackward_spec hx (List.mem_cons_self _ _) hs hnd
      (fun a ha => ht a (List.mem_append_left _ ha)) hB
  have hx1 : w1.inst id = .ok x := (inst_congr hi1 id).trans hx
  obtain ⟨rr1, hrr1, -, hrn1⟩ := isSeg_mid hs1
  have hnd1 : ((B' ++ [x.Root]) ++ A).Nodup := by
    rw [List.append_assoc, List.singleton_append]
    exact hnd.sublist (List.Sublist.append hsubB (List.Sublist.refl _))
  obtain ⟨w2, A', hw2, hi2, hsubA, hs2, hdis2, hmem2⟩ :=
    deactivateForward_spec hx1 (List.mem_append_right B' (List.mem_singleton_self _))
      (by rw [List.append_assoc, List.singleton_append]; exact hs1) hnd1
      (fun a ha => targets_of_DisabledOn hdis1
        (ht a (List.mem_append_right _ (List.mem_cons_of_mem _ ha)))) hA
  have hx2 : w2.inst id = .ok x := (inst_congr hi2 id).trans hx1
  refine ⟨w2, B', A', ?_, hi2.trans hi1, hsubB, hsubA,
    by rw [List.append_assoc, List.singleton_append] at hs2; exact hs2,
    DisabledOn_trans hdis1 hdis2, ?_⟩
  · unfold deactivateBody
    simp only [hx, bind, Except.bind, hrr, hrp, hw1, hx1, hrr1, hrn1, hw2, modifyInst_eq hx2,
      modifyInst_eq (inst_setInst_same hx2 _), setInst_setInst]
  · intro q hq r hr hp
    rcases List.mem_append.1 hq with hqB | hqA
    · exact List.mem_append_left _ (hmem1 q hqB r hr hp)
    · obtain ⟨r1, hr1, hp1, -⟩ := hdis1 q r hr
      exact List.mem_append_right _ (hmem2 q hqA r1 hr1 (hp1.trans hp))

/-- What `Deactivate` does on a live slot with a well formed chain `B ++ root :: A`: it returns
`true`, the slot is inactive afterwards, the persistent references among `B` and `A` are
disabled, and every other reference, the root and the non-persistent ones, has the id it
had. -/
theorem Deactivate_chain {fuel : Nat} {id : Int} {w : World} {B A : List Ptr} {root : Ptr}
    (hlive : Verify w id = true) (hchain : isChainOf w id B root A = true)
    (hB : B.length ≤ fuel) (hA : A.length ≤ fuel) :
    ∃ w1, Deactivate fuel id w = .ok (true, w1) ∧ Verify w1 id = false ∧
      DisabledOn (B ++ A) w w1 := by
  obtain ⟨⟨x, hx, rfl⟩, hs, hnd, ht⟩ := isChainOf_iff.1 hchain
  obtain ⟨w2, B', A', hd, hi2, -, -, -, hdis, -⟩ := deactivateBody_chain hx hs hnd ht hB hA
  have hx2 : w2.inst id = .ok x := (inst_congr hi2 id).trans hx
  refine ⟨w2.setInst id (Clear { x with ID := SQMOD_UNKNOWN }), ?_, ?_, ?_⟩
  · rw [Deactivate_of_active hlive, hd]
    rfl
  · exact Verify_eq_false_of_inst (inst_setInst_same hx2 _) (show SQMOD_UNKNOWN < 0 by decide)
  · intro q r hr
    obtain ⟨r', hr', h⟩ := hdis q r hr
    exact ⟨r', by rw [deref_setInst]; exact hr', h⟩

/-! ## The ids of the slots under calls that complete -/

theorem Verify_ids (w : World) (id : Int) :
    Verify w id = (VALID_ENTITYEX id w.ids.length &&
      (match w.ids[id.toNat]? with
       | some i => VALID_ENTITY i
       | none => false)) := by
  unfold Verify World.ids World.Max
  rw [List.length_map, List.getElem?_map]
  cases w.s_Instances[id.toNat]? <;> rfl

theorem Verify_congr {w w' : World} (h : w'.ids = w.ids) (id : Int) :
    Verify w' id = Verify w id := by
  rw [Verify_ids, Verify_ids, h]

theorem ids_store (w : World) (p : Ptr) (r : Reference) : (w.store p r).ids = w.ids := by
  cases p <;> rfl

theorem ids_setInst {w : World} {i : Int} {x : Instance} (hx : w.inst i = .ok x)
    (y : Instance) : (w.setInst i y).ids = w.ids.set i.toNat y.ID := by
  have h0 := ((inst_ok_iff w i).1 ⟨x, hx⟩).1
  simp [World.setInst, World.ids, h0, List.map_set]

theorem ids_setInst_same {w : World} {i : Int} {x : Instance} (hx : w.inst i = .ok x)
    {y : Instance} (hy : y.ID = x.ID) : (w.setInst i y).ids = w.ids := by
  rw [ids_setInst hx, hy]
  have h0 := ((inst_ok_iff w i).1 ⟨x, hx⟩).1
  unfold World.inst at hx
  rw [if_pos h0] at hx
  apply List.ext_getElem?
  intro k
  by_cases hk : i.toNat = k
  · subst hk
    cases hget : w.s_Instances[i.toNat]? with
    | none => simp [hget] at hx
    | some z =>
      simp only [hget, Except.ok.injEq] at hx
      subst hx
      have hlt : i.toNat < w.ids.length := by
        by_contra hge
        have : w.s_Instances[i.toNat]? = none :=
          List.getElem?_eq_none (by simpa [World.ids] using hge)
        rw [this] at hget
        cases hget
      rw [List.getElem?_set_self hlt]
      simp [World.ids, List.getElem?_map, hget]
  · rw [List.getElem?_set_ne hk]

theorem modify_ids {w w' : World} {p : Ptr} {f : Reference → Reference}
    (h : w.modify p f = .ok w') : w'.ids = w.ids := by
  unfold World.modify at h
  cases hd : w.deref p with
  | error e => simp [hd] at h
  | ok r =>
    simp only [hd, Except.ok.injEq] at h
    subst h
    exact ids_store _ _ _

theorem ite_modify_ids {w w' : World} {c : Prop} [Decidable c] {p : Ptr}
    {f : Reference → Reference}
    (h : (if c then w.modify p f else pure w) = .ok w') : w'.ids = w.ids := by
  split at h
  · exact modify_ids h
  · cases h
    rfl

theorem RemoveFromChain_ids {w w' : World} {b : Ptr} (h : RemoveFromChain b w = .ok w') :
    w'.ids = w.ids := by
  rw [RemoveFromChain_eq, bind_eq_ok] at h
  obtain ⟨this, -, h⟩ := h
  split at h
  · simp only [bind_eq_ok] at h
    obtain ⟨w1, h1, this1, -, w2, h2, this2, -, inst, hinst, w3, h3, h4⟩ := h
    have e1 := ite_modify_ids h1
    have e2 := ite_modify_ids h2
    have e3 : w3.ids = w2.ids := by
      split at h3
      · unfold World.modifyInst at h3
        rw [hinst] at h3
        simp only [Except.ok.injEq] at h3
        subst h3
        exact ids_setInst_same hinst rfl
      · cases h3
        rfl
    rw [modify_ids h4, e3, e2, e1]
  · cases h
    rfl

theorem deactivateForward_ids : ∀ (fuel : Nat) (p : Nat) (w w' : World),
    deactivateForward fuel p w = .ok w' → w'.ids = w.ids := by
  intro fuel
  induction fuel with
  | zero =>
    intro p w w' h
    cases p with
    | zero => cases h; rfl
    | succ a => cases h
  | succ f ih =>
    intro p w w' h
    cases p with
    | zero => cases h; rfl
    | succ a =>
      cases hd : w.deref (a + 1) with
      | error e => simp [deactivateForward, hd] at h
      | ok r =>
        rw [deactivateForward_succ hd, bind_eq_ok] at h
        obtain ⟨w1, h1, h2⟩ := h
        rw [ih _ _ _ h2]
        split at h1
        · exact modify_ids h1
        · exact RemoveFromChain_ids h1

theorem deactivateBackward_ids : ∀ (fuel : Nat) (p : Nat) (w w' : World),
    deactivateBackward fuel p w = .ok w' → w'.ids = w.ids := by
  intro fuel
  induction fuel with
  | zero =>
    intro p w w' h
    cases p with
    | zero => cases h; rfl
    | succ a => cases h
  | succ f ih =>
    intro p w w' h
    cases p with
    | zero => cases h; rfl
    | succ a =>
      cases hd : w.deref (a + 1) with
      | error e => simp [deactivateBackward, hd] at h
      | ok r =>
        rw [deactivateBackward_succ hd, bind_eq_ok] at h
        obtain ⟨w1, h1, h2⟩ := h
        rw [ih _ _ _ h2]
        split at h1
        · exact modify_ids h1
        · exact RemoveFromChain_ids h1

theorem resurrectForward_ids (id : Int) : ∀ (fuel : Nat) (p : Nat) (w w' : World),
    resurrectForward id fuel p w = .ok w' → w'.ids = w.ids := by
  intro fuel
  induction fuel with
  | zero =>
    intro p w w' h
    cases p with
    | zero => cases h; rfl
    | succ a => cases h
  | succ f ih =>
    intro p w w' h
    cases p with
    | zero => cases h; rfl
    | succ a =>
      cases hd : w.deref (a + 1) with
      | error e => simp [resurrectForward, hd] at h
      | ok r =>
        simp only [resurrectForward, hd] at h
        split at h
        · rw [modify_eq hd] at h
          rw [ih _ _ _ h, ids_store]
        · exact ih _ _ _ h

theorem resurrectBackward_ids (id : Int) : ∀ (fuel : Nat) (p : Nat) (w w' : World),
    resurrectBackward id fuel p w = .ok w' → w'.ids = w.ids := by
  intro fuel
  induction fuel with
  | zero =>
    intro p w w' h
    cases p with
    | zero => cases h; rfl
    | succ a => cases h
  | succ f ih =>
    intro p w w' h
    cases p with
    | zero => cases h; rfl
    | succ a =>
      cases hd : w.deref (a + 1) with
      | error e => simp [resurrectBackward, hd] at h
      | ok r =>
        simp only [resurrectBackward, hd] at h
        split at h
        · rw [modify_eq hd] at h
          rw [ih _ _ _ h, ids_store]
        · exact ih _ _ _ h

theorem modifyInst_ids {w w' : World} {i : Int} {f : Instance → Instance}
    (h : w.modifyInst i f = .ok w') :
    ∃ x, w.inst i = .ok x ∧ w'.inst i = .ok (f x) ∧ w'.ids = w.ids.set i.toNat (f x).ID := by
  unfold World.modifyInst at h
  cases hx : w.inst i with
  | error e => simp [hx] at h
  | ok x =>
    simp only [hx, Except.ok.injEq] at h
    subst h
    exact ⟨x, rfl, inst_setInst_same hx _, ids_setInst hx _⟩

theorem bind_pure_true_eq {x : Except Fault World} {b : Bool} {w' : World}
    (h : (x >>= fun w1 => (pure (true, w1) : Except Fault (Bool × World))) = .ok (b, w')) :
    b = true ∧ x = .ok w' := by
  cases x with
  | error e => simp [bind, Except.bind] at h
  | ok w1 =>
    simp only [bind, Except.bind, pure, Except.pure, Except.ok.injEq, Prod.mk.injEq] at h
    exact ⟨h.1.symm, by rw [h.2]⟩

/-- A call of `Deactivate` that completes changes no `ID` but that of slot `id`, which it makes
"unknown" when it returns `true`. -/
theorem Deactivate_ids {fuel : Nat} {id : Int} {w w' : World} {b : Bool}
    (h : Deactivate fuel id w = .ok (b, w')) :
    b = Verify w id ∧
      w'.ids = if b = true then w.ids.set id.toNat SQMOD_UNKNOWN else w.ids := by
  by_cases hv : Verify w id = true
  · rw [Deactivate_of_active hv] at h
    obtain ⟨rfl, hb⟩ := bind_pure_true_eq h
    refine ⟨hv.symm, ?_⟩
    unfold deactivateBody at hb
    simp only [bind_eq_ok] at hb
    obtain ⟨inst, -, root, -, w1, h1, inst1, -, root1, -, w2, h2, w3, h3, h4⟩ := hb
    obtain ⟨x3, -, hx3, e3⟩ := modifyInst_ids h3
    obtain ⟨x4, hx4, -, e4⟩ := modifyInst_ids h4
    rw [hx3] at hx4
    cases hx4
    rw [if_pos rfl, e4, e3, deactivateForward_ids _ _ _ _ h2, deactivateBackward_ids _ _ _ _ h1]
    simp only [List.set_set, Clear]
  · have hv' : Verify w id = false := by simpa using hv
    rw [Deactivate_of_inactive hv'] at h
    simp only [Except.ok.injEq, Prod.mk.injEq] at h
    obtain ⟨rfl, rfl⟩ := h
    exact ⟨hv'.symm, by simp⟩

theorem activateWalk_ids {fuel : Nat} {id : Int} {w w' : World}
    (h : activateWalk fuel id w = .ok w') : w'.ids = w.ids := by
  unfold activateWalk at h
  rw [bind_eq_ok] at h
  obtain ⟨inst, -, h⟩ := h
  split at h
  · simp only [bind_eq_ok] at h
    obtain ⟨root, -, w1, h1, inst1, -, root1, -, h2⟩ := h
    rw [resurrectForward_ids _ _ _ _ _ h2, resurrectBackward_ids _ _ _ _ _ h1]
  · cases h
    rfl

/-- A call of `Activate` that completes changes no `ID` but that of slot `id`, which it makes
`id` when it returns `true`. -/
theorem Activate_ids {fuel : Nat} {id : Int} {owned : Bool} {args : List Int} {w w' : World}
    {b : Bool} (h : Activate fuel id owned args w = .ok (b, w')) :
    b = (!INVALID_ENTITYEX id w.Max && !Verify w id) ∧
      w'.ids = if b = true then w.ids.set id.toNat id else w.ids := by
  by_cases h1 : INVALID_ENTITYEX id w.Max = true
  · rw [Activate_of_invalid h1] at h
    simp only [Except.ok.injEq, Prod.mk.injEq] at h
    obtain ⟨rfl, rfl⟩ := h
    simp [h1]
  · have h1' : INVALID_ENTITYEX id w.Max = false := by simpa using h1
    by_cases hv : Verify w id = true
    · rw [Activate_of_active hv] at h
      simp only [Except.ok.injEq, Prod.mk.injEq] at h
      obtain ⟨rfl, rfl⟩ := h
      simp [hv]
    · have hv' : Verify w id = false := by simpa using hv
      rw [Activate_of_inactive h1' hv'] at h
      obtain ⟨rfl, hb⟩ := bind_pure_true_eq h
      refine ⟨by simp [h1', hv'], ?_⟩
      unfold activateBody at hb
      rw [bind_eq_ok] at hb
      obtain ⟨w1, hw1, hs⟩ := hb
      obtain ⟨x, hx⟩ := (INVALID_ENTITYEX_eq_false_iff w id).1 h1'
      have hx1 : ∃ x1, w1.inst id = .ok x1 := by
        rw [inst_ok_iff]
        have := (inst_ok_iff w id).1 ⟨x, hx⟩
        have hlen : w1.Max = w.Max := by
          have := congrArg List.length (activateWalk_ids hw1)
          simpa [World.ids, World.Max] using this
        rw [hlen]
        exact this
      obtain ⟨x1, hx1⟩ := hx1
      rw [activateSlot_eq hx1] at hs
      cases hs
      rw [if_pos rfl, ids_setInst hx1, activateWalk_ids hw1]
      rfl

theorem Max_eq_ids_length (w : World) : w.Max = (w.ids.length : Int) := by
  simp [World.Max, World.ids]

theorem Verify_of_ids_set {w w1 : World} {k : Nat} {v : Int} (h : w1.ids = w.ids.set k v)
    {i : Int} (hi : 0 ≤ i) (hlt : i < w.Max) :
    Verify w1 i = if i.toNat = k then VALID_ENTITY v else Verify w i := by
  rw [Max_eq_ids_length] at hlt
  have hlt' : i.toNat < w.ids.length := by omega
  rw [Verify_ids, Verify_ids, h, List.length_set]
  have hval : VALID_ENTITYEX i (w.ids.length : Int) = true := by
    simp [VALID_ENTITYEX, hi, hlt]
  rw [hval]
  by_cases hk : i.toNat = k
  · subst hk
    rw [if_pos rfl, List.getElem?_set_self hlt']
    rfl
  · rw [if_neg hk, List.getElem?_set_ne (Ne.symm hk)]

/-- On every sequence of `Activate`/`Deactivate` calls that runs to its end, from any world,
`Verify(i)` afterwards says whether slot `i` was most recently activated and not yet
deactivated. -/
theorem runCalls_Verify (fuel : Nat) : ∀ (cs : List Call) (w w' : World),
    runCalls fuel cs w = .ok w' →
      w'.Max = w.Max ∧
      ∀ i, 0 ≤ i → i < w.Max → Verify w' i = activeAfter cs i (Verify w i) := by
  intro cs
  induction cs with
  | nil =>
    intro w w' h
    cases h
    exact ⟨rfl, fun i _ _ => rfl⟩
  | cons c cs ih =>
    intro w w' h
    cases c with
    | activate j owned args =>
      cases hA : Activate fuel j owned args w with
      | error e => simp [runCalls, hA] at h
      | ok res =>
        obtain ⟨b, w1⟩ := res
        simp only [runCalls, hA] at h
        obtain ⟨hb, hids⟩ := Activate_ids hA
        have hmax : w1.Max = w.Max := by
          rw [Max_eq_ids_length, Max_eq_ids_length, hids]
          split <;> simp
        obtain ⟨hm, hv⟩ := ih w1 w' h
        refine ⟨hm.trans hmax, fun i hi hlt => ?_⟩
        rw [hv i hi (hmax ▸ hlt)]
        simp only [activeAfter]
        congr 1
        have hinv : INVALID_ENTITYEX i w.Max = false := by
          simp only [INVALID_ENTITYEX, Bool.or_eq_false_iff, decide_eq_false_iff_not]
          omega
        cases b with
        | true =>
          rw [if_pos rfl] at hids
          have hj : INVALID_ENTITYEX j w.Max = false ∧ Verify w j = false := by
            simpa using hb.symm
          have hj0 : 0 ≤ j := by
            have := hj.1
            simp only [INVALID_ENTITYEX, Bool.or_eq_false_iff, decide_eq_false_iff_not] at this
            omega
          rw [Verify_of_ids_set hids hi hlt]
          by_cases hij : j = i
          · subst hij
            simp [VALID_ENTITY, hj0]
          · have : i.toNat ≠ j.toNat := by omega
            simp [this, hij]
        | false =>
          simp only [Bool.false_eq_true, if_false] at hids
          rw [Verify_congr hids]
          by_cases hij : j = i
          · subst hij
            have : Verify w j = true := by
              simpa [hinv] using hb.symm
            simp [this]
          · simp [hij]
    | deactivate j =>
      cases hD : Deactivate fuel j w with
      | error e => simp [runCalls, hD] at h
      | ok res =>
        obtain ⟨b, w1⟩ := res
        simp only [runCalls, hD] at h
        obtain ⟨hb, hids⟩ := Deactivate_ids hD
        have hmax : w1.Max = w.Max := by
          rw [Max_eq_ids_length, Max_eq_ids_length, hids]
          split <;> simp
        obtain ⟨hm, hv⟩ := ih w1 w' h
        refine ⟨hm.trans hmax, fun i hi hlt => ?_⟩
        rw [hv i hi (hmax ▸ hlt)]
        simp only [activeAfter]
        congr 1
        cases b with
        | true =>
          rw [if_pos rfl] at hids
          have hj0 : 0 ≤ j := by
            obtain ⟨x, hx, -⟩ := (Verify_iff w j).1 hb.symm
            exact ((inst_ok_iff w j).1 ⟨x, hx⟩).1
          rw [Verify_of_ids_set hids hi hlt]
          by_cases hij : j = i
          · subst hij
            simp [VALID_ENTITY, SQMOD_UNKNOWN]
          · have : i.toNat ≠ j.toNat := by omega
            simp [this, hij]
        | false =>
          simp only [Bool.false_eq_true, if_false] at hids
          rw [Verify_congr hids]
          by_cases hij : j = i
          · subst hij
            simp [← hb]
          · simp [hij]

/-! ## Event tables of the entity kinds -/

/-- C14, counter-example. A key press ties the Player kind to a pairing with a key bind and
`Ent< CPlayer >::InEvent(EVT_KEYBINDKEYPRESS)` is `true`, yet with `inversed = false` the two
argument form is `false`, and with `inversed = true` it is `true`. -/
theorem InEvent2_CPlayer_counterexample :
    pairingEvent .EVT_KEYBINDKEYPRESS = true ∧
      EntType.InEvent .CPlayer .EVT_KEYBINDKEYPRESS = true ∧
      EntType.InEvent2 .CPlayer .EVT_KEYBINDKEYPRESS false = false ∧
      EntType.InEvent2 .CPlayer .EVT_KEYBINDKEYPRESS true = true := by
  decide

/-- C14, as the code has it. For every kind `K` and every pairing event `t` that `K.InEvent`
accepts: every kind but Player reports `t` exactly when `inversed` is `false`, and the Player
kind reports it exactly when `inversed` is `true`. -/
theorem InEvent2_pairing (K : EntType) (t : EventID) (inversed : Bool)
    (hp : pairingEvent t = true) (hK : K.InEvent t = true) :
    K.InEvent2 t inversed = if K = .CPlayer then inversed else !inversed := by
  cases K <;> cases t <;> first | exact absurd hp (by decide) | exact absurd hK (by decide) | rfl

theorem InEvent2_pairing_witness :
    EntType.InEvent2 .CVehicle .EVT_VEHICLEEMBARKED false
      = if EntType.CVehicle = .CPlayer then false else !false :=
  InEvent2_pairing .CVehicle .EVT_VEHICLEEMBARKED false (by decide) (by decide)

/-! ## The slot root invariant -/

/-- C12. After `danglingRootOps`, run from the initial state of a kind with two slots, no
`Reference` exists any more, and yet the `Root` of slot `0` is not null: it holds the address of
the persistent reference, which `RemoveFromChain` left on the chain when the reference was
destroyed, because the reference was disabled at that time. The next `Activate(0)` reads through
that pointer. -/
theorem runOps_danglingRoot :
    ∃ w x, runOps 4 danglingRootOps (World.init 2) = .ok w ∧ w.existing = [] ∧
      w.inst 0 = .ok x ∧ x.Root = 1 ∧ w.deref x.Root = .error .dangling ∧
      Activate 4 0 false [] w = .error .dangling := by
  refine ⟨_, _, rfl, ?_, rfl, rfl, ?_, ?_⟩ <;> decide

/-- C13, counter-example. On a fresh table: after `SetGlobalTag` with the tag `"t"` the slot is
still `Fresh`, and after `Deactivate` and a successful `Activate` the global tag read through
the same reference is empty. -/
theorem globalTagScenario_counterexample :
    globalTagScenario "t" = .ok (true, true, true, "", true) := by
  decide

/-! ## The global tag over a deactivation and an activation -/

theorem GetGlobalTag_eq {w : World} {p : Ptr} {r : Reference} {x : Instance}
    (h : w.deref p = .ok r) (hx : w.inst r.m_ID = .ok x) : GetGlobalTag p w = .ok x.Tag := by
  have hv : VALID_ENTITYEX r.m_ID w.Max = true := by
    have := (inst_ok_iff w r.m_ID).1 ⟨x, hx⟩
    simp [VALID_ENTITYEX, this.1, this.2]
  simp [GetGlobalTag, h, hx, hv, bind, Except.bind, pure, Except.pure]

theorem SetGlobalTag_eq {w : World} {p : Ptr} {r : Reference} {x : Instance}
    (h : w.deref p = .ok r) (hx : w.inst r.m_ID = .ok x) (t : String) :
    SetGlobalTag p t w = .ok (w.setInst r.m_ID { x with Tag := t }) := by
  have hv : VALID_ENTITYEX r.m_ID w.Max = true := by
    have := (inst_ok_iff w r.m_ID).1 ⟨x, hx⟩
    simp [VALID_ENTITYEX, this.1, this.2]
  simp [SetGlobalTag, h, hv, bind, Except.bind, modifyInst_eq hx]

/-- A call of `Deactivate` and then of `Activate` on a live slot with a well formed chain: both
return `true`, every reference that was bound to the slot is bound to it afterwards, and the
slot has the tag it had unless it is `Fresh`. -/
theorem Deactivate_Activate_slot {fuel : Nat} {id : Int} {w : World} {B A : List Ptr}
    {root : Ptr} {x : Instance} (owned : Bool) (args : List Int)
    (hx : w.inst id = .ok x) (hlive : Verify w id = true)
    (hchain : isChainOf w id B root A = true) (hB : B.length ≤ fuel) (hA : A.length ≤ fuel) :
    ∃ w1 w2 y, Deactivate fuel id w = .ok (true, w1) ∧
      Activate fuel id owned args w1 = .ok (true, w2) ∧
      w2.inst id = .ok y ∧ y.Tag = (if x.Fresh then "" else x.Tag) ∧ y.Fresh = x.Fresh ∧
      ∀ R r, w.deref R = .ok r → r.m_ID = id → ∃ r2, w2.deref R = .ok r2 ∧ r2.m_ID = id := by
  obtain ⟨⟨x', hx', hroot⟩, hs, hnd, ht⟩ := isChainOf_iff.1 hchain
  rw [hx] at hx'
  cases hx'
  subst hroot
  obtain ⟨w2, B', A', hd, hi2, hsubB, hsubA, hs2, hdis, hmem⟩ :=
    deactivateBody_chain hx hs hnd ht hB hA
  have hx2 : w2.inst id = .ok x := (inst_congr hi2 id).trans hx
  have hx1 := inst_setInst_same hx2 (Clear { x with ID := SQMOD_UNKNOWN })
  obtain ⟨rr, hrr, -, -⟩ := isSeg_mid hs
  have hroot0 : (Clear { x with ID := SQMOD_UNKNOWN }).Root ≠ 0 := deref_ne_zero hrr
  obtain ⟨w3, ha, hi3, hd3⟩ :=
    @activateBody_chain fuel id owned args _ _ B' A' hx1 hroot0
      (by rw [isSeg_setInst]; exact hs2) (hsubB.length_le.trans hB) (hsubA.length_le.trans hA)
  have hx3 : w3.inst id = .ok (Clear { x with ID := SQMOD_UNKNOWN }) :=
    (inst_congr hi3 id).trans hx1
  have ha' : ∃ (wf : World) (y : Instance),
      activateBody fuel id owned args (w2.setInst id (Clear { x with ID := SQMOD_UNKNOWN }))
        = .ok wf ∧ wf.inst id = .ok y ∧ y.Tag = (if x.Fresh then "" else x.Tag) ∧
      y.Fresh = x.Fresh ∧ ∀ q, wf.deref q = w3.deref q :=
    ⟨_, _, ha, inst_setInst_same hx3 _, rfl, rfl, fun q => deref_setInst _ _ _ _⟩
  obtain ⟨wf, y, ha', hy, hyt, hyf, hdf⟩ := ha'
  refine ⟨w2.setInst id (Clear { x with ID := SQMOD_UNKNOWN }), wf, y, ?_, ?_,
    hy, hyt, hyf, ?_⟩
  · rw [Deactivate_of_active hlive, hd]
    rfl
  · rw [Activate_of_inactive ((INVALID_ENTITYEX_eq_false_iff _ _).2 ⟨_, hx1⟩)
      (Verify_eq_false_of_inst hx1 (show SQMOD_UNKNOWN < 0 by decide)), ha']
    rfl
  · intro R r hR hid
    obtain ⟨r1, hr1, hp1, hid1⟩ := hdis R r hR
    have hdR : w3.deref R = .ok (resurrected id (B' ++ A') R r1) := by
      rw [hd3 R, deref_setInst, hr1]
      rfl
    refine ⟨_, by rw [hdf]; exact hdR, ?_⟩
    by_cases hc : R ∈ B ++ A ∧ r.m_Persistent = true
    · have hin := hmem R hc.1 r hR hc.2
      simp [resurrected, hin, hp1, hc.2]
    · rw [if_neg hc] at hid1
      unfold resurrected
      split
      · rfl
      · rw [hid1, hid]

/-- C13, as the code has it. On a live slot `id` with a well formed reference chain, for every
reference `R` bound to `id` and every tag `t`: `SetGlobalTag(t)` on `R` leaves the `Fresh`
member of the slot as it is, `Deactivate(id)` and then `Activate(id, owned, args)` both return
`true`, and `GetGlobalTag()` on `R` then returns the empty tag if the slot is `Fresh` and `t`
otherwise; the slot is as `Fresh` after the three calls as it was before them. -/
theorem SetGlobalTag_Deactivate_Activate (fuel : Nat) (id : Int) (owned : Bool)
    (args : List Int) (w : World) (B A : List Ptr) (root R : Ptr) (r : Reference)
    (x : Instance) (t : String)
    (hlive : Verify w id = true) (hchain : isChainOf w id B root A = true)
    (hB : B.length ≤ fuel) (hA : A.length ≤ fuel)
    (hR : w.deref R = .ok r) (hid : r.m_ID = id) (hx : w.inst id = .ok x) :
    ∃ w0 x0 w1 w2, SetGlobalTag R t w = .ok w0 ∧
      w0.inst id = .ok x0 ∧ x0.Tag = t ∧ x0.Fresh = x.Fresh ∧
      Deactivate fuel id w0 = .ok (true, w1) ∧
      Activate fuel id owned args w1 = .ok (true, w2) ∧
      GetGlobalTag R w2 = .ok (if x.Fresh then "" else t) ∧
      ∃ y, w2.inst id = .ok y ∧ y.Fresh = x.Fresh := by
  subst hid
  have hx0 := inst_setInst_same hx { x with Tag := t }
  have hlive0 : Verify (w.setInst r.m_ID { x with Tag := t }) r.m_ID = true := by
    obtain ⟨x', hx', h0⟩ := (Verify_iff w r.m_ID).1 hlive
    rw [hx] at hx'
    cases hx'
    exact (Verify_iff _ _).2 ⟨_, hx0, h0⟩
  have hchain0 : isChainOf (w.setInst r.m_ID { x with Tag := t }) r.m_ID B root A = true := by
    obtain ⟨⟨x', hx', hroot⟩, hs, hnd, ht⟩ := isChainOf_iff.1 hchain
    rw [hx] at hx'
    cases hx'
    refine isChainOf_iff.2 ⟨⟨_, hx0, hroot⟩, by rw [isSeg_setInst]; exact hs, hnd, ?_⟩
    intro a ha
    have := ht a ha
    unfold targets at this ⊢
    rw [deref_setInst]
    exact this
  obtain ⟨w1, w2, y, hd, ha, hy, hyt, hyf, hb⟩ :=
    Deactivate_Activate_slot owned args hx0 hlive0 hchain0 hB hA
  obtain ⟨r2, hr2, hid2⟩ := hb R r (by rw [deref_setInst]; exact hR) rfl
  refine ⟨_, _, w1, w2, SetGlobalTag_eq hR hx t, hx0, rfl, rfl, hd, ha, ?_, y, hy, hyf⟩
  rw [GetGlobalTag_eq hr2 (by rw [hid2]; exact hy), hyt]

theorem SetGlobalTag_Deactivate_Activate_witness :
    ∃ w0 x0 w1 w2, SetGlobalTag 4 "t" worldChain = .ok w0 ∧
      w0.inst 0 = .ok x0 ∧ x0.Tag = "t" ∧ x0.Fresh = true ∧
      Deactivate 2 0 w0 = .ok (true, w1) ∧
      Activate 2 0 true [] w1 = .ok (true, w2) ∧
      GetGlobalTag 4 w2 = .ok (if true = true then "" else "t") ∧
      ∃ y, w2.inst 0 = .ok y ∧ y.Fresh = true :=
  SetGlobalTag_Deactivate_Activate 2 0 true [] worldChain [1] [3, 4] 2 4
    { m_ID := 0, m_Tag := "", m_Data := 0, m_Prev := 3, m_Next := 0, m_Persistent := true }
    { ID := 0, Root := 2 } "t"
    (by decide) (by decide) (by decide) (by decide) rfl rfl rfl

/-! ## Filters: `Include`, `Exclude` and the listener of the `Destroyed` signal -/

theorem INVALID_ENTITYEX_eq_not (e m : Int) : INVALID_ENTITYEX e m = !VALID_ENTITYEX e m := by
  unfold INVALID_ENTITYEX VALID_ENTITYEX
  by_cases h1 : 0 ≤ e <;> by_cases h2 : e < m <;> simp [h1, h2] <;> omega

theorem testBit_ok_iff {bits : List Bool} {i : Int} {b : Bool} :
    testBit bits i = .ok b ↔ 0 ≤ i ∧ bits[i.toNat]? = some b := by
  unfold testBit
  by_cases h : 0 ≤ i
  · simp only [h, if_true, true_and]
    cases bits[i.toNat]? <;> simp
  · simp [h]

theorem setBit_eq {bits : List Bool} {i : Int} {b : Bool} (h : testBit bits i = .ok b)
    (v : Bool) : setBit bits i v = .ok (bits.set i.toNat v) := by
  obtain ⟨h0, hb⟩ := testBit_ok_iff.1 h
  obtain ⟨hlt, -⟩ := List.getElem?_eq_some_iff.1 hb
  simp [setBit, h0, hlt]

theorem testBit_set {bits : List Bool} {i : Int} {b : Bool} (h : testBit bits i = .ok b)
    (v : Bool) : testBit (bits.set i.toNat v) i = .ok v := by
  obtain ⟨h0, hb⟩ := testBit_ok_iff.1 h
  obtain ⟨hlt, -⟩ := List.getElem?_eq_some_iff.1 hb
  exact testBit_ok_iff.2 ⟨h0, by simp [List.getElem?_set_self, hlt]⟩

theorem set_set_of_testBit {bits : List Bool} {i : Int} {b : Bool}
    (h : testBit bits i = .ok b) (v : Bool) : (bits.set i.toNat v).set i.toNat b = bits := by
  obtain ⟨-, hb⟩ := testBit_ok_iff.1 h
  rw [List.set_set]
  apply List.ext_getElem?
  intro j
  by_cases hj : i.toNat = j
  · subst hj
    obtain ⟨hlt, -⟩ := List.getElem?_eq_some_iff.1 hb
    rw [List.getElem?_set_self hlt, hb]
  · rw [List.getElem?_set_ne hj]

theorem count_set_true {bits : List Bool} {n : Nat} (hb : bits[n]? = some false) :
    (bits.set n true).count true = bits.count true + 1 := by
  induction bits generalizing n with
  | nil => simp at hb
  | cons a bits ih =>
    cases n with
    | zero =>
      simp only [List.getElem?_cons_zero, Option.some.injEq] at hb
      subst hb
      simp
    | succ n =>
      simp only [List.getElem?_cons_succ] at hb
      simp only [List.set_cons_succ, List.count_cons, ih hb]
      omega

theorem count_set_false {bits : List Bool} {n : Nat} (hb : bits[n]? = some true) :
    (bits.set n false).count true + 1 = bits.count true := by
  induction bits generalizing n with
  | nil => simp at hb
  | cons a bits ih =>
    cases n with
    | zero =>
      simp only [List.getElem?_cons_zero, Option.some.injEq] at hb
      subst hb
      simp
    | succ n =>
      simp only [List.getElem?_cons_succ] at hb
      simp only [List.set_cons_succ, List.count_cons, ← ih hb]
      omega

theorem onDestroyed_eq {w : World} {id : Int} {x : Instance} (hx : w.inst id = .ok x)
    (act : List Nat → Nat → List Nat) (self : Nat) :
    onDestroyed act self id w
      = .ok (w.setInst id { x with Destroyed := act x.Destroyed self }) :=
  modifyInst_eq hx _

theorem deref_hooked (T : EntType) (type : EventID) (act : List Nat → Nat → List Nat)
    (self : Nat) (id : Int) (x : Instance) (w : World) (p : Ptr) :
    (hooked T type act self id x w).deref p = w.deref p := by
  unfold hooked
  split
  · exact deref_setInst _ _ _ _
  · rfl

theorem Max_hooked (T : EntType) (type : EventID) (act : List Nat → Nat → List Nat)
    (self : Nat) (id : Int) (x : Instance) (w : World) :
    (hooked T type act self id x w).Max = w.Max := by
  unfold hooked
  split
  · exact Max_setInst _ _ _
  · rfl

/-- `Include` on a valid reference, for a compatible filter whose bit of the entity is `bit`. -/
theorem Include_eq {T : EntType} {self : Nat} {ent : Ptr} {header : Int} {f : GlobalFilter}
    {w : World} {e : Reference} {x : Instance} {bit : Bool}
    (he : w.deref ent = .ok e) (hx : w.inst e.m_ID = .ok x)
    (hc : T.InEvent f.m_Event.m_Type = true) (hb : testBit f.m_Filter e.m_ID = .ok bit) :
    GlobalFilter.Include T self ent header f w =
      if bit then .ok (false, f, w)
      else if (askHook f.m_Event.m_OnInclude (.OnInclude e.m_ID header) [e.m_ID, header] f).1
      then .ok (true,
        { (askHook f.m_Event.m_OnInclude (.OnInclude e.m_ID header) [e.m_ID, header] f).2 with
          m_Filter := f.m_Filter.set e.m_ID.toNat true },
        hooked T f.m_Event.m_Type Connect self e.m_ID x w)
      else .ok (false,
        (askHook f.m_Event.m_OnInclude (.OnInclude e.m_ID header) [e.m_ID, header] f).2, w) := by
  have hv : INVALID_ENTITYEX e.m_ID w.Max = false :=
    (INVALID_ENTITYEX_eq_false_iff w _).2 ⟨x, hx⟩
  unfold GlobalFilter.Include
  simp only [he, hv, hc, hb, Bool.false_eq_true, if_false, Bool.not_true]
  cases bit
  · simp only [Bool.not_false, if_true, Bool.false_eq_true, if_false]
    have hf : (askHook f.m_Event.m_OnInclude (.OnInclude e.m_ID header) [e.m_ID, header]
        f).2.m_Filter = f.m_Filter := by
      unfold askHook
      cases f.m_Event.m_OnInclude <;> rfl
    rcases hask : askHook f.m_Event.m_OnInclude (.OnInclude e.m_ID header) [e.m_ID, header] f
      with ⟨allow, f1⟩
    rw [hask] at hf
    simp only at hf
    cases allow
    · simp
    · simp only [if_true]
      unfold hooked
      by_cases hd : T.DestroyEvID = f.m_Event.m_Type
      · simp [hd, hf, setBit_eq hb]
      · simp [hd, hf, setBit_eq hb, onDestroyed_eq hx]
  · simp

/-- `Exclude` on a valid reference, for a compatible filter whose bit of the entity is `bit`. -/
theorem Exclude_eq {T : EntType} {self : Nat} {ent : Ptr} {header : Int} {f : GlobalFilter}
    {w : World} {e : Reference} {x : Instance} {bit : Bool}
    (he : w.deref ent = .ok e) (hx : w.inst e.m_ID = .ok x)
    (hc : T.InEvent f.m_Event.m_Type = true) (hb : testBit f.m_Filter e.m_ID = .ok bit) :
    GlobalFilter.Exclude T self ent header f w =
      if !bit then .ok (false, f, w)
      else if (askHook f.m_Event.m_OnExclude (.OnExclude e.m_ID header) [e.m_ID, header] f).1
      then .ok (true,
        { (askHook f.m_Event.m_OnExclude (.OnExclude e.m_ID header) [e.m_ID, header] f).2 with
          m_Filter := f.m_Filter.set e.m_ID.toNat false },
        hooked T f.m_Event.m_Type Disconnect self e.m_ID x w)
      else .ok (false,
        (askHook f.m_Event.m_OnExclude (.OnExclude e.m_ID header) [e.m_ID, header] f).2, w) := by
  have hv : INVALID_ENTITYEX e.m_ID w.Max = false :=
    (INVALID_ENTITYEX_eq_false_iff w _).2 ⟨x, hx⟩
  unfold GlobalFilter.Exclude
  simp only [he, hv, hc, hb, Bool.false_eq_true, if_false, Bool.not_true]
  cases bit
  · simp
  · simp only [if_true, Bool.not_true, Bool.false_eq_true, if_false]
    have hf : (askHook f.m_Event.m_OnExclude (.OnExclude e.m_ID header) [e.m_ID, header]
        f).2.m_Filter = f.m_Filter := by
      unfold askHook
      cases f.m_Event.m_OnExclude <;> rfl
    rcases hask : askHook f.m_Event.m_OnExclude (.OnExclude e.m_ID header) [e.m_ID, header] f
      with ⟨allow, f1⟩
    rw [hask] at hf
    simp only at hf
    cases allow
    · simp
    · simp only [if_true]
      unfold hooked
      by_cases hd : T.DestroyEvID = f.m_Event.m_Type
      · simp [hd, hf, setBit_eq hb]
      · simp [hd, hf, setBit_eq hb, onDestroyed_eq hx]

theorem Enabled_eq {ent : Ptr} {f : GlobalFilter} {w : World} {e : Reference}
    (he : w.deref ent = .ok e) (hv : VALID_ENTITYEX e.m_ID w.Max = true) :
    f.Enabled ent w = testBit f.m_Filter e.m_ID := by
  simp [GlobalFilter.Enabled, he, hv]

theorem inst_of_VALID {w : World} {id : Int} (hv : VALID_ENTITYEX id w.Max = true) :
    ∃ x, w.inst id = .ok x := by
  apply (INVALID_ENTITYEX_eq_false_iff w id).1
  rw [INVALID_ENTITYEX_eq_not, hv]
  rfl

/-- C15. Round trip: for a filter compatible with its parent event whose `OnInclude` and
`OnExclude` functions, if set, say yes, and a valid reference `ent` with `Enabled(ent)` false:
`Include(ent)` and then `Exclude(ent)` both return `true`, and afterwards `Enabled(ent)` is
false, `Count()` is what it was, and every bit is what it was. -/
theorem Include_Exclude_roundtrip (T : EntType) (self : Nat) (ent : Ptr) (h1 h2 : Int)
    (f : GlobalFilter) (w : World) (e : Reference)
    (hc : T.InEvent f.m_Event.m_Type = true)
    (he : w.deref ent = .ok e) (hv : VALID_ENTITYEX e.m_ID w.Max = true)
    (hinc : ∀ g, f.m_Event.m_OnInclude = some g → g [e.m_ID, h1] = some true)
    (hexc : ∀ g, f.m_Event.m_OnExclude = some g → g [e.m_ID, h2] = some true)
    (hen : f.Enabled ent w = .ok false) :
    ∃ f1 w1 f2 w2, GlobalFilter.Include T self ent h1 f w = .ok (true, f1, w1) ∧
      GlobalFilter.Exclude T self ent h2 f1 w1 = .ok (true, f2, w2) ∧
      f2.Enabled ent w2 = .ok false ∧ f2.Count = f.Count ∧ f2.m_Filter = f.m_Filter := by
  obtain ⟨x, hx⟩ := inst_of_VALID hv
  rw [Enabled_eq he hv] at hen
  have ha1 : ∀ (fn : ScriptFunction) (c : HookCall) (h : Int) (f0 : GlobalFilter),
      (∀ g, fn = some g → g [e.m_ID, h] = some true) →
      (askHook fn c [e.m_ID, h] f0).1 = true ∧
        (askHook fn c [e.m_ID, h] f0).2.m_Event = f0.m_Event := by
    intro fn c h f0 hg
    unfold askHook
    cases fn with
    | none => exact ⟨rfl, rfl⟩
    | some g => simp [hg g rfl]
  have hi := @Include_eq T self ent h1 f w e x false he hx hc hen
  simp only [Bool.false_eq_true, if_false, (ha1 _ (.OnInclude e.m_ID h1) h1 f hinc).1,
    if_true] at hi
  have he1 : (hooked T f.m_Event.m_Type Connect self e.m_ID x w).deref ent = .ok e := by
    rw [deref_hooked]; exact he
  have hx1 : ∃ x1, (hooked T f.m_Event.m_Type Connect self e.m_ID x w).inst e.m_ID = .ok x1 :=
    inst_of_VALID (by rw [Max_hooked]; exact hv)
  obtain ⟨x1, hx1⟩ := hx1
  have hev := (ha1 f.m_Event.m_OnInclude (.OnInclude e.m_ID h1) h1 f hinc).2
  have hx := @Exclude_eq T self ent h2
    { (askHook f.m_Event.m_OnInclude (.OnInclude e.m_ID h1) [e.m_ID, h1] f).2 with
      m_Filter := f.m_Filter.set e.m_ID.toNat true } _ e x1 true he1 hx1
    (by simp only [hev]; exact hc) (testBit_set hen true)
  have hexc1 : ∀ g, ({ (askHook f.m_Event.m_OnInclude (.OnInclude e.m_ID h1) [e.m_ID, h1] f).2
      with m_Filter := f.m_Filter.set e.m_ID.toNat true } : GlobalFilter).m_Event.m_OnExclude
        = some g → g [e.m_ID, h2] = some true := by
    simp only [hev]
    exact hexc
  simp only [Bool.not_true, Bool.false_eq_true, if_false,
    (ha1 _ (.OnExclude e.m_ID h2) h2 _ hexc1).1, if_true] at hx
  have hbits : (f.m_Filter.set e.m_ID.toNat true).set e.m_ID.toNat false = f.m_Filter :=
    set_set_of_testBit hen true
  refine ⟨_, _, _, _, hi, hx, ?_, ?_, ?_⟩
  · rw [Enabled_eq (by rw [deref_hooked]; exact he1) (by rw [Max_hooked, Max_hooked]; exact hv)]
    simp only [hbits]
    exact hen
  · simp only [GlobalFilter.Count, hbits]
  · exact hbits

theorem Include_Exclude_roundtrip_witness :
    ∃ f1 w1 f2 w2,
      GlobalFilter.Include .CPlayer 7 1 0 (emptyFilter .EVT_PLAYERSPAWN) worldOneBound
        = .ok (true, f1, w1) ∧
      GlobalFilter.Exclude .CPlayer 7 1 0 f1 w1 = .ok (true, f2, w2) ∧
      f2.Enabled 1 w2 = .ok false ∧ f2.Count = (emptyFilter .EVT_PLAYERSPAWN).Count ∧
      f2.m_Filter = (emptyFilter .EVT_PLAYERSPAWN).m_Filter :=
  Include_Exclude_roundtrip .CPlayer 7 1 0 0 (emptyFilter .EVT_PLAYERSPAWN) worldOneBound
    (newReference 0) (by decide) rfl (by decide) (fun g h => by cases h)
    (fun g h => by cases h) (by decide)

/-- `Include` of an entity that is already included does nothing and returns `false`. -/
theorem Include_of_Enabled {T : EntType} {self : Nat} {ent : Ptr} {f : GlobalFilter}
    {w : World} (header : Int) (hen : f.Enabled ent w = .ok true) :
    GlobalFilter.Include T self ent header f w = .ok (false, f, w) := by
  unfold GlobalFilter.Enabled at hen
  cases he : w.deref ent with
  | error err => simp [he] at hen
  | ok e =>
    simp only [he] at hen
    by_cases hv : VALID_ENTITYEX e.m_ID w.Max = true
    · simp only [hv, if_true] at hen
      obtain ⟨x, hx⟩ := inst_of_VALID hv
      by_cases hc : T.InEvent f.m_Event.m_Type = true
      · rw [Include_eq he hx hc hen]
        rfl
      · simp [GlobalFilter.Include, he, hc]
    · simp [hv] at hen

/-- C16. If `Include(ent, h)` returns `true`, an `Include(ent, h')` that follows it returns
`false` and leaves the filter and the slots exactly as they are: no bit changes, `Count()` is
the same, no script function is called and no signal is touched. -/
theorem Include_twice (T : EntType) (self : Nat) (ent : Ptr) (h h' : Int)
    (f f1 : GlobalFilter) (w w1 : World)
    (hinc : GlobalFilter.Include T self ent h f w = .ok (true, f1, w1)) :
    GlobalFilter.Include T self ent h' f1 w1 = .ok (false, f1, w1) := by
  apply Include_of_Enabled
  unfold GlobalFilter.Include at hinc
  cases he : w.deref ent with
  | error err => simp [he] at hinc
  | ok e =>
    simp only [he] at hinc
    by_cases hv : INVALID_ENTITYEX e.m_ID w.Max = true
    · simp [hv] at hinc
    · rw [Bool.not_eq_true] at hv
      have hvv : VALID_ENTITYEX e.m_ID w.Max = true := by
        rw [INVALID_ENTITYEX_eq_not] at hv
        simpa using hv
      obtain ⟨x, hx⟩ := inst_of_VALID hvv
      by_cases hc : T.InEvent f.m_Event.m_Type = true
      · cases hb : testBit f.m_Filter e.m_ID with
        | error err => simp [hv, hc, hb] at hinc
        | ok bit =>
          have hi := @Include_eq T self ent h f w e x bit he hx hc hb
          unfold GlobalFilter.Include at hi
          simp only [he] at hi
          rw [hi] at hinc
          cases bit
          · simp only [Bool.false_eq_true, if_false] at hinc
            split at hinc
            · simp only [Except.ok.injEq, Prod.mk.injEq, true_and] at hinc
              obtain ⟨rfl, rfl⟩ := hinc
              rw [Enabled_eq (by rw [deref_hooked]; exact he)
                (by rw [Max_hooked]; exact hvv)]
              exact testBit_set hb true
            · simp at hinc
          · simp at hinc
      · simp [hv, hc] at hinc

theorem Include_twice_witness :
    ∃ f1 w1,
      GlobalFilter.Include .CPlayer 7 1 0 (emptyFilter .EVT_PLAYERSPAWN) worldOneBound
        = .ok (true, f1, w1) ∧
      GlobalFilter.Include .CPlayer 7 1 5 f1 w1 = .ok (false, f1, w1) :=
  ⟨_, _, rfl, Include_twice .CPlayer 7 1 0 5 (emptyFilter .EVT_PLAYERSPAWN) _ worldOneBound _
    rfl⟩

/-- C17. If the reference is invalid (its id is not in `[0, Limit)`) or the kind of the filter
is not one the type of the parent event is raised for, `Include(ref, header)` returns `false`
and leaves the filter and the slots exactly as they are: no bit changes and no script function
is called. -/
theorem Include_invalid (T : EntType) (self : Nat) (ref : Ptr) (header : Int)
    (f : GlobalFilter) (w : World) (e : Reference) (he : w.deref ref = .ok e)
    (h : INVALID_ENTITYEX e.m_ID w.Max = true ∨ T.InEvent f.m_Event.m_Type = false) :
    GlobalFilter.Include T self ref header f w = .ok (false, f, w) := by
  unfold GlobalFilter.Include
  simp only [he]
  rcases h with h | h
  · simp [h]
  · simp [h]

theorem Include_invalid_witness :
    GlobalFilter.Include .CBlip 7 1 0 (emptyFilter .EVT_PLAYERSPAWN) worldOneBound
      = .ok (false, emptyFilter .EVT_PLAYERSPAWN, worldOneBound) :=
  Include_invalid .CBlip 7 1 0 (emptyFilter .EVT_PLAYERSPAWN) worldOneBound (newReference 0)
    rfl (Or.inr (by decide))

/-- C18. For a filter compatible with its parent event and a valid reference `ent` that is
not included: if the `OnInclude` function is set and yields `false` or no value for
`(ent, header)`, `Include(ent, header)` returns `false` and every bit is what it was, so the
bit of the entity stays clear; if it yields `true`, or no function is set, `Include` returns
`true` and the bit of the entity is set. -/
theorem Include_hook (T : EntType) (self : Nat) (ent : Ptr) (header : Int)
    (f : GlobalFilter) (w : World) (e : Reference)
    (hc : T.InEvent f.m_Event.m_Type = true)
    (he : w.deref ent = .ok e) (hv : VALID_ENTITYEX e.m_ID w.Max = true)
    (hen : f.Enabled ent w = .ok false) :
    (∀ g, f.m_Event.m_OnInclude = some g → g [e.m_ID, header] ≠ some true →
      ∃ f1, GlobalFilter.Include T self ent header f w = .ok (false, f1, w) ∧
        f1.m_Filter = f.m_Filter ∧ f1.Enabled ent w = .ok false) ∧
    ((f.m_Event.m_OnInclude = none ∨
        ∃ g, f.m_Event.m_OnInclude = some g ∧ g [e.m_ID, header] = some true) →
      ∃ f1 w1, GlobalFilter.Include T self ent header f w = .ok (true, f1, w1) ∧
        f1.Enabled ent w1 = .ok true) := by
  obtain ⟨x, hx⟩ := inst_of_VALID hv
  have hen' := hen
  rw [Enabled_eq he hv] at hen
  have hi := @Include_eq T self ent header f w e x false he hx hc hen
  simp only [Bool.false_eq_true, if_false] at hi
  constructor
  · intro g hg hne
    have hask : askHook f.m_Event.m_OnInclude (.OnInclude e.m_ID header) [e.m_ID, header] f
        = (false, { f with invoked := f.invoked ++ [.OnInclude e.m_ID header] }) := by
      unfold askHook
      rw [hg]
      simp only [Prod.mk.injEq, and_true]
      cases hr : g [e.m_ID, header] with
      | none => rfl
      | some b =>
        cases b
        · rfl
        · exact absurd hr hne
    rw [hask] at hi
    simp only [Bool.false_eq_true, if_false] at hi
    refine ⟨_, hi, rfl, ?_⟩
    rw [Enabled_eq he hv]
    exact hen
  · intro h
    have hask : (askHook f.m_Event.m_OnInclude (.OnInclude e.m_ID header) [e.m_ID, header]
        f).1 = true := by
      unfold askHook
      rcases h with h | ⟨g, hg, hr⟩
      · rw [h]
      · rw [hg]
        simp [hr]
    rw [hask] at hi
    simp only [if_true] at hi
    refine ⟨_, _, hi, ?_⟩
    rw [Enabled_eq (by rw [deref_hooked]; exact he) (by rw [Max_hooked]; exact hv)]
    exact testBit_set hen true

theorem Include_hook_witness :
    (∀ g, refusingFilter.m_Event.m_OnInclude = some g →
      g [(newReference 0).m_ID, 3] ≠ some true →
      ∃ f1, GlobalFilter.Include .CPlayer 7 1 3 refusingFilter worldOneBound
          = .ok (false, f1, worldOneBound) ∧
        f1.m_Filter = refusingFilter.m_Filter ∧ f1.Enabled 1 worldOneBound = .ok false) ∧
    ((refusingFilter.m_Event.m_OnInclude = none ∨
        ∃ g, refusingFilter.m_Event.m_OnInclude = some g ∧
          g [(newReference 0).m_ID, 3] = some true) →
      ∃ f1 w1, GlobalFilter.Include .CPlayer 7 1 3 refusingFilter worldOneBound
          = .ok (true, f1, w1) ∧
        f1.Enabled 1 w1 = .ok true) :=
  Include_hook .CPlayer 7 1 3 refusingFilter worldOneBound (newReference 0)
    (by decide) rfl (by decide) (by decide)

/-- The slot after `Deactivate` on a live slot with a well formed chain: its id is unknown and
`Ent< T >::Clear` has disconnected its listeners. -/
theorem Deactivate_slot {fuel : Nat} {id : Int} {w : World} {B A : List Ptr} {root : Ptr}
    {x : Instance} (hx : w.inst id = .ok x) (hlive : Verify w id = true)
    (hchain : isChainOf w id B root A = true) (hB : B.length ≤ fuel) (hA : A.length ≤ fuel) :
    ∃ w1, Deactivate fuel id w = .ok (true, w1) ∧
      w1.inst id = .ok (Clear { x with ID := SQMOD_UNKNOWN }) := by
  obtain ⟨⟨x', hx', hroot⟩, hs, hnd, ht⟩ := isChainOf_iff.1 hchain
  rw [hx] at hx'
  cases hx'
  subst hroot
  obtain ⟨w2, B', A', hd, hi2, -, -, -, -, -⟩ := deactivateBody_chain hx hs hnd ht hB hA
  have hx2 : w2.inst id = .ok x := (inst_congr hi2 id).trans hx
  refine ⟨w2.setInst id (Clear { x with ID := SQMOD_UNKNOWN }), ?_, inst_setInst_same hx2 _⟩
  rw [Deactivate_of_active hlive, hd]
  rfl

theorem mem_Connect (listeners : List Nat) (self : Nat) : self ∈ Connect listeners self := by
  unfold Connect
  split
  · assumption
  · simp

/-- C20, counter-example. A reference bound to the live slot `0` is included in a filter of a
spawn event, `Count()` is `1`, and the slot is deactivated: `Enabled` of the reference is still
`true` and `Count()` is still `1`. -/
theorem selfHealingScenario_counterexample :
    selfHealingScenario = .ok (true, true, 1, true, 1) := by
  decide

/-- C20, as the code has it. For a filter whose parent event is not the destroy event of its
kind: when `Include(ent, header)` returns `true`, the filter is connected to the `Destroyed`
signal of the slot of the entity and `Count()` has grown by one. `Deactivate` of that slot,
live and with a well formed chain, returns `true` and disconnects every listener of the slot
without calling it, so the filter stays as it is. It is the listener `Destroyed(id, header,
payload)` of the filter that heals it: once it has run, `Enabled(ent)` is `false` and `Count()`
is one less than after the `Include`. -/
theorem Include_then_Destroyed (T : EntType) (self : Nat) (ent : Ptr) (header h' : Int)
    (f f1 : GlobalFilter) (w w1 : World) (e : Reference) (fuel : Nat) (B A : List Ptr)
    (root : Ptr)
    (hd : T.DestroyEvID ≠ f.m_Event.m_Type) (he : w.deref ent = .ok e)
    (hinc : GlobalFilter.Include T self ent header f w = .ok (true, f1, w1))
    (hlive : Verify w1 e.m_ID = true) (hchain : isChainOf w1 e.m_ID B root A = true)
    (hB : B.length ≤ fuel) (hA : A.length ≤ fuel) :
    (∃ x1, w1.inst e.m_ID = .ok x1 ∧ self ∈ x1.Destroyed) ∧ f1.Count = f.Count + 1 ∧
    (∃ w2 x2, Deactivate fuel e.m_ID w1 = .ok (true, w2) ∧
      w2.inst e.m_ID = .ok x2 ∧ x2.Destroyed = []) ∧
    ∃ f2, f1.Destroyed e.m_ID h' = .ok f2 ∧ f2.Enabled ent w1 = .ok false ∧
      f2.Count = f1.Count - 1 := by
  unfold GlobalFilter.Include at hinc
  simp only [he] at hinc
  by_cases hv : INVALID_ENTITYEX e.m_ID w.Max = true
  · simp [hv] at hinc
  rw [Bool.not_eq_true] at hv
  have hvv : VALID_ENTITYEX e.m_ID w.Max = true := by
    rw [INVALID_ENTITYEX_eq_not] at hv
    simpa using hv
  obtain ⟨x, hx⟩ := inst_of_VALID hvv
  by_cases hc : T.InEvent f.m_Event.m_Type = true
  swap
  · simp [hv, hc] at hinc
  cases hb : testBit f.m_Filter e.m_ID with
  | error err => simp [hv, hc, hb] at hinc
  | ok bit =>
    have hi := @Include_eq T self ent header f w e x bit he hx hc hb
    unfold GlobalFilter.Include at hi
    simp only [he] at hi
    rw [hi] at hinc
    cases bit
    swap
    · simp at hinc
    simp only [Bool.false_eq_true, if_false] at hinc
    split at hinc
    swap
    · simp at hinc
    simp only [Except.ok.injEq, Prod.mk.injEq, true_and] at hinc
    obtain ⟨hf1, rfl⟩ := hinc
    have hf1b : f1.m_Filter = f.m_Filter.set e.m_ID.toNat true := by rw [← hf1]
    have hw1 : hooked T f.m_Event.m_Type Connect self e.m_ID x w
        = w.setInst e.m_ID { x with Destroyed := Connect x.Destroyed self } := by
      unfold hooked
      rw [if_pos hd]
    have hx1 := inst_setInst_same hx { x with Destroyed := Connect x.Destroyed self }
    rw [← hw1] at hx1
    obtain ⟨-, hbit⟩ := testBit_ok_iff.1 hb
    have hbit1 := testBit_set hb true
    refine ⟨⟨_, hx1, mem_Connect _ _⟩, ?_, ?_, ?_⟩
    · simp only [GlobalFilter.Count, hf1b, count_set_true hbit]
      push_cast
      rfl
    · obtain ⟨w2, hd2, hx2⟩ := Deactivate_slot hx1 hlive hchain hB hA
      exact ⟨w2, _, hd2, hx2, rfl⟩
    · have hrel : ∀ f0 : GlobalFilter, f0.m_Filter = f.m_Filter.set e.m_ID.toNat true →
          ∃ f2, f0.Destroyed e.m_ID h' = .ok f2 ∧
            f2.m_Filter = (f.m_Filter.set e.m_ID.toNat true).set e.m_ID.toNat false := by
        intro f0 hf0
        unfold GlobalFilter.Destroyed GlobalFilter.Release
        cases f0.m_Event.m_OnRelease with
        | none =>
          simp only [hf0, setBit_eq hbit1]
          exact ⟨_, rfl, rfl⟩
        | some g =>
          simp only [hf0, setBit_eq hbit1]
          exact ⟨_, rfl, rfl⟩
      obtain ⟨f2, hf2, hbits⟩ := hrel f1 hf1b
      refine ⟨f2, hf2, ?_, ?_⟩
      · rw [Enabled_eq (by rw [deref_hooked]; exact he) (by rw [Max_hooked]; exact hvv), hbits]
        exact testBit_set hbit1 false
      · have hc2 := count_set_false ((testBit_ok_iff.1 hbit1).2)
        simp only [GlobalFilter.Count, hbits, hf1b]
        omega

theorem Include_then_Destroyed_witness :
    (∃ x1, (hooked .CPlayer .EVT_PLAYERSPAWN Connect 7 0 { ID := 0, Root := 1 }
        worldOneBound).inst (newReference 0).m_ID = .ok x1 ∧ 7 ∈ x1.Destroyed) ∧
    ({ emptyFilter .EVT_PLAYERSPAWN with m_Filter := [true, false] } : GlobalFilter).Count
      = (emptyFilter .EVT_PLAYERSPAWN).Count + 1 ∧
    (∃ w2 x2, Deactivate 1 (newReference 0).m_ID
        (hooked .CPlayer .EVT_PLAYERSPAWN Connect 7 0 { ID := 0, Root := 1 } worldOneBound)
          = .ok (true, w2) ∧
      w2.inst (newReference 0).m_ID = .ok x2 ∧ x2.Destroyed = []) ∧
    ∃ f2, ({ emptyFilter .EVT_PLAYERSPAWN with m_Filter := [true, false] } :
        GlobalFilter).Destroyed (newReference 0).m_ID 0 = .ok f2 ∧
      f2.Enabled 1 (hooked .CPlayer .EVT_PLAYERSPAWN Connect 7 0 { ID := 0, Root := 1 }
        worldOneBound) = .ok false ∧
      f2.Count
        = ({ emptyFilter .EVT_PLAYERSPAWN with m_Filter := [true, false] } :
            GlobalFilter).Count - 1 :=
  Include_then_Destroyed .CPlayer 7 1 0 0 (emptyFilter .EVT_PLAYERSPAWN) _ worldOneBound _
    (newReference 0) 1 [] [] 1 (by decide) rfl rfl (by decide) (by decide) (by decide)
    (by decide)

/-! ## Filters: `Hook`, `Unhook` and `Flip` -/

theorem ids_onDestroyed {w w1 : World} {act : List Nat → Nat → List Nat} {self : Nat}
    {id : Int} (h : onDestroyed act self id w = .ok w1) :
    w1.ids = w.ids ∧ w1.heap = w.heap := by
  unfold onDestroyed World.modifyInst at h
  cases hx : w.inst id with
  | error err => simp [hx] at h
  | ok x =>
    simp only [hx, Except.ok.injEq] at h
    subst h
    exact ⟨ids_setInst_same hx rfl, heap_setInst _ _ _⟩

theorem ids_length (w : World) : w.ids.length = w.s_Instances.length := by
  simp [World.ids]

/-- The loop of `Hook` and `Unhook` from the index `i` to the end of the bit set: it completes,
clears the bits of the slots that are not active, from `i` on, and changes no other bit, no id
of a slot and no reference. -/
theorem hookLoop_spec (act : List Nat → Nat → List Nat) (self : Nat) :
    ∀ (n i : Nat) (bits : List Bool) (w : World), i + n = bits.length →
      bits.length = w.ids.length →
      ∃ bits1 w1, hookLoop act self n i bits w = .ok (bits1, w1) ∧
        w1.ids = w.ids ∧ w1.heap = w.heap ∧
        ∀ j, bits1[j]? = if i ≤ j then (bits[j]?).map (fun b => b && Verify w j)
                         else bits[j]? := by
  intro n
  induction n with
  | zero =>
    intro i bits w hi _
    refine ⟨bits, w, rfl, rfl, rfl, fun j => ?_⟩
    split
    · rename_i hij
      have : bits.length ≤ j := by omega
      rw [List.getElem?_eq_none this]
      rfl
    · rfl
  | succ n ih =>
    intro i bits w hi hlen
    have hlt : i < bits.length := by omega
    have hb : testBit bits (i : Int) = .ok bits[i] :=
      testBit_ok_iff.2 ⟨Int.natCast_nonneg i, by simp [List.getElem?_eq_getElem hlt]⟩
    have hbi : bits[i]? = some bits[i] := List.getElem?_eq_getElem hlt
    unfold hookLoop
    simp only [hb]
    by_cases h1 : (bits[i] && Verify w i) = true
    · rw [if_pos h1]
      have hxi : ∃ x, w.inst (i : Int) = .ok x := by
        apply (inst_ok_iff w _).2
        rw [Max_eq_ids_length]
        omega
      obtain ⟨x, hx⟩ := hxi
      rw [onDestroyed_eq hx]
      obtain ⟨hids, hheap⟩ := ids_onDestroyed (onDestroyed_eq hx act self)
      obtain ⟨bits1, w1, hl, hi1, hh1, hj⟩ := ih (i + 1) bits _ (by omega) (by rw [hids]; exact hlen)
      refine ⟨bits1, w1, hl, hi1.trans hids, hh1.trans hheap, fun j => ?_⟩
      rw [hj j]
      simp only [Verify_congr hids]
      by_cases hij : i + 1 ≤ j
      · rw [if_pos hij, if_pos (by omega)]
      · rw [if_neg hij]
        by_cases hij2 : i ≤ j
        · have : j = i := by omega
          subst this
          rw [if_pos hij2, hbi]
          simp only [Option.map_some', h1]
          rw [Bool.and_eq_true] at h1
          rw [h1.1]
        · rw [if_neg hij2]
    · rw [if_neg h1]
      by_cases h2 : Verify w i = true
      · simp only [h2, Bool.not_true, Bool.false_eq_true, if_false]
        obtain ⟨bits1, w1, hl, hi1, hh1, hj⟩ := ih (i + 1) bits w (by omega) hlen
        refine ⟨bits1, w1, hl, hi1, hh1, fun j => ?_⟩
        rw [hj j]
        by_cases hij : i + 1 ≤ j
        · rw [if_pos hij, if_pos (by omega)]
        · rw [if_neg hij]
          by_cases hij2 : i ≤ j
          · have : j = i := by omega
            subst this
            rw [if_pos hij2, hbi]
            simp only [Option.map_some', h2, Bool.and_true]
          · rw [if_neg hij2]
      · rw [Bool.not_eq_true] at h2
        simp only [h2, Bool.not_false, if_true]
        rw [setBit_eq hb]
        simp only [Int.toNat_ofNat]
        obtain ⟨bits1, w1, hl, hi1, hh1, hj⟩ :=
          ih (i + 1) (bits.set i false) w (by rw [List.length_set]; omega)
            (by rw [List.length_set]; exact hlen)
        refine ⟨bits1, w1, hl, hi1, hh1, fun j => ?_⟩
        rw [hj j]
        by_cases hij : i + 1 ≤ j
        · rw [if_pos hij, if_pos (by omega), List.getElem?_set_ne (by omega)]
        · rw [if_neg hij]
          by_cases hij2 : i ≤ j
          · have : j = i := by omega
            subst this
            rw [if_pos hij2, hbi, List.getElem?_set_self hlt]
            simp only [Option.map_some', h2, Bool.and_false]
          · rw [if_neg hij2, List.getElem?_set_ne (by omega)]

/-- What `Hook` and `Unhook` do to the bits when the parent event is not the destroy event of
the kind: they complete and clear the bits of the slots that are not active. -/
theorem hookLoop_all (act : List Nat → Nat → List Nat) (self : Nat) (bits : List Bool)
    (w : World) (hlen : bits.length = w.ids.length) :
    ∃ bits1 w1, hookLoop act self bits.length 0 bits w = .ok (bits1, w1) ∧
      w1.ids = w.ids ∧ w1.heap = w.heap ∧
      ∀ j : Nat, bits1[j]? = (bits[j]?).map (fun b => b && Verify w j) := by
  obtain ⟨bits1, w1, hl, hi1, hh1, hj⟩ :=
    hookLoop_spec act self bits.length 0 bits w (by omega) hlen
  refine ⟨bits1, w1, hl, hi1, hh1, fun j => ?_⟩
  rw [hj j, if_pos (Nat.zero_le j)]

theorem length_of_getElem? {bits bits1 : List Bool} {g : Nat → Bool → Bool}
    (h : ∀ j, bits1[j]? = (bits[j]?).map (g j)) : bits1.length = bits.length := by
  apply Nat.le_antisymm
  · by_contra hlt
    have h1 := h bits.length
    rw [List.getElem?_eq_none (Nat.le_refl _), Option.map_none'] at h1
    rw [List.getElem?_eq_none_iff] at h1
    omega
  · by_contra hlt
    have h1 := h bits1.length
    rw [List.getElem?_eq_none (Nat.le_refl _), List.getElem?_eq_getElem (by omega)] at h1
    simp at h1

/-- C19, as the code has it. For a filter compatible with its parent event, with one bit per
slot: `Flip(header)` completes and changes no id of a slot. If the parent event is not the
destroy event of the kind of the filter, bit `i` is set afterwards exactly when slot `i` is
active and bit `i` was clear before; if it is the destroy event, `Hook` and `Unhook` return at
once and bit `i` is set afterwards exactly when it was clear before, whether slot `i` is active
or not. -/
theorem Flip_bits (T : EntType) (self : Nat) (header : Int) (f : GlobalFilter) (w : World)
    (hc : T.InEvent f.m_Event.m_Type = true)
    (hlen : f.m_Filter.length = w.s_Instances.length) :
    ∃ f1 w1, f.Flip T self header w = .ok (f1, w1) ∧ w1.ids = w.ids ∧
      ∀ i : Nat, f1.m_Filter[i]? = (f.m_Filter[i]?).map (fun b =>
        if T.DestroyEvID = f.m_Event.m_Type then !b else Verify w i && !b) := by
  unfold GlobalFilter.Flip
  simp only [hc, Bool.not_true, Bool.false_eq_true, if_false]
  by_cases hd : T.DestroyEvID = f.m_Event.m_Type
  · simp only [GlobalFilter.Unhook, GlobalFilter.Hook, hd, if_true]
    refine ⟨_, _, rfl, rfl, fun i => ?_⟩
    simp only [List.getElem?_map]
  · simp only [GlobalFilter.Unhook, GlobalFilter.Hook, hd, if_false]
    obtain ⟨bits1, w1, hl1, hi1, -, hj1⟩ :=
      hookLoop_all Disconnect self f.m_Filter w (by rw [ids_length]; exact hlen)
    rw [hl1]
    simp only [List.length_map]
    have hlen1 : bits1.length = f.m_Filter.length := length_of_getElem? hj1
    obtain ⟨bits2, w2, hl2, hi2, -, hj2⟩ :=
      hookLoop_all Connect self (bits1.map (fun b => !b)) w1
        (by rw [List.length_map, hlen1, hi1, ids_length]; exact hlen)
    rw [List.length_map] at hl2
    rw [hl2]
    simp only [hd, if_false]
    refine ⟨_, _, rfl, hi2.trans hi1, fun i => ?_⟩
    simp only [hj2 i, List.getElem?_map, hj1 i, Verify_congr hi1]
    cases f.m_Filter[i]? with
    | none => rfl
    | some b =>
      simp only [Option.map_some', Option.some.injEq]
      cases b <;> cases Verify w i <;> rfl

theorem Flip_bits_witness :
    ∃ f1 w1,
      GlobalFilter.Flip .CBlip 7 0
        { m_Filter := [false, false, true, false, false, true, false, false]
          m_Event := { m_Type := .EVT_BLIPCUSTOM } } worldEight = .ok (f1, w1) ∧
      w1.ids = worldEight.ids ∧
      ∀ i : Nat, f1.m_Filter[i]?
        = ([false, false, true, false, false, true, false, false][i]?).map (fun b =>
          if EntType.CBlip.DestroyEvID = .EVT_BLIPCUSTOM then !b
          else Verify worldEight i && !b) :=
  Flip_bits .CBlip 7 0
    { m_Filter := [false, false, true, false, false, true, false, false]
      m_Event := { m_Type := .EVT_BLIPCUSTOM } } worldEight (by decide) (by decide)

/-- C19, counter-example. A Blip filter over eight slots, of which `5` and `6` are not active,
with the bits `2` and `5` set: for a parent event of the type `EVT_BLIPDESTROYED`, which the
Blip kind accepts, `Flip` sets the bit of the inactive slot `6`. For the type `EVT_BLIPCUSTOM`
it leaves it clear. -/
theorem flipScenario_counterexample :
    EntType.InEvent .CBlip .EVT_BLIPDESTROYED = true ∧ Verify worldEight 6 = false ∧
      flipScenario .EVT_BLIPDESTROYED
        = .ok [true, true, false, true, true, false, true, true] ∧
      flipScenario .EVT_BLIPCUSTOM
        = .ok [true, true, false, true, true, false, false, true] := by
  decide

/-! ## Reassigning one reference of a chain -/

/-- The world after `RemoveFromChain` on a node `b` of a chain that is the root of its slot,
object by object: the root moves to the next node, or else to the previous one. -/
theorem RemoveFromChain_pointwise_root {w : World} {X Y : List Ptr} {b : Nat} {r : Reference}
    {x : Instance} (hs : isSeg w 0 (X ++ b :: Y) 0 = true) (hnd : (X ++ b :: Y).Nodup)
    (hr : w.deref b = .ok r) (hid : 0 ≤ r.m_ID) (hx : w.inst r.m_ID = .ok x)
    (hroot : x.Root = b) :
    ∃ w' : World, RemoveFromChain b w = .ok w' ∧
      w'.s_Instances = (w.setInst r.m_ID
        { x with Root := if Y.headD 0 ≠ 0 then Y.headD 0
                         else if X.getLastD 0 ≠ 0 then X.getLastD 0 else 0 }).s_Instances ∧
      w'.deref b = .ok { r with m_Next := 0, m_Prev := 0 } ∧
      (∀ q, q ≠ b → q ≠ X.getLastD 0 → q ≠ Y.headD 0 → w'.deref q = w.deref q) ∧
      (∀ rx, w.deref (X.getLastD 0) = .ok rx →
        w'.deref (X.getLastD 0) = .ok { rx with m_Next := Y.headD 0 }) ∧
      (∀ ry, w.deref (Y.headD 0) = .ok ry →
        w'.deref (Y.headD 0) = .ok { ry with m_Prev := X.getLastD 0 }) := by
  obtain ⟨r', hr', hp, hn⟩ := isSeg_mid hs
  rw [hr] at hr'
  cases hr'
  have hsplit := hs
  rw [isSeg_append, isSeg_cons] at hsplit
  obtain ⟨hsX, -, -, -, -, hsY⟩ := hsplit
  simp only [List.headD_cons] at hsX
  have hb0 : b ≠ 0 := deref_ne_zero hr
  have hndX : b ∉ X := fun h => (List.nodup_append.1 hnd).2.2 h (List.mem_cons_self _ _)
  have hndY : b ∉ Y := fun h => (List.nodup_cons.1 (List.nodup_append.1 hnd).2.1).1 h
  have hXY : ∀ a, a ∈ X → a ∈ Y → False := fun a h1 h2 =>
    (List.nodup_append.1 hnd).2.2 h1 (List.mem_cons_of_mem _ h2)
  have hprev : X.getLastD 0 ≠ 0 → X.getLastD 0 ∈ X ∧ ∃ rx, w.deref (X.getLastD 0) = .ok rx := by
    intro h0
    rcases isSeg_before hsX with ⟨-, h⟩ | ⟨X', x', rx, hX, hl, hrx, -⟩
    · exact absurd h h0
    · rw [hl]
      exact ⟨by rw [hX]; simp, rx, hrx⟩
  have hnext : Y.headD 0 ≠ 0 → Y.headD 0 ∈ Y ∧ ∃ ry, w.deref (Y.headD 0) = .ok ry := by
    intro h0
    rcases isSeg_after hsY with ⟨-, h⟩ | ⟨y, Y', ry, hY, hl, hry, -⟩
    · exact absurd h h0
    · rw [hl]
      exact ⟨by rw [hY]; simp, ry, hry⟩
  have hbn : b ≠ Y.headD 0 := fun e => hndY (e ▸ (hnext (e ▸ hb0)).1)
  have hbp : b ≠ X.getLastD 0 := fun e => hndX (e ▸ (hprev (e ▸ hb0)).1)
  have hpn : X.getLastD 0 ≠ 0 → X.getLastD 0 ≠ Y.headD 0 := fun h0 e =>
    hXY _ (hprev h0).1 (e ▸ (hnext (e ▸ h0)).1)
  obtain ⟨w1, hw1, hi1, hd1, hd1'⟩ :=
    modify_if_spec (w := w) (n := Y.headD 0) (fun z => { z with m_Prev := X.getLastD 0 })
      (fun h0 => (hnext h0).2)
  have hr1 : w1.deref b = .ok r := (hd1 b hbn).trans hr
  obtain ⟨w2, hw2, hi2, hd2, hd2'⟩ :=
    modify_if_spec (w := w1) (n := X.getLastD 0) (fun z => { z with m_Next := Y.headD 0 })
      (fun h0 => by
        obtain ⟨rx, hrx⟩ := (hprev h0).2
        exact ⟨rx, (hd1 _ (hpn h0)).trans hrx⟩)
  have hr2 : w2.deref b = .ok r := (hd2 b hbp).trans hr1
  have hx2 : w2.inst r.m_ID = .ok x := by
    rw [inst_congr hi2, inst_congr hi1, hx]
  have hr3 : ∀ y : Instance, (w2.setInst r.m_ID y).deref b = .ok r := fun y => by
    rw [deref_setInst]; exact hr2
  refine ⟨(w2.setInst r.m_ID
    { x with Root := if Y.headD 0 ≠ 0 then Y.headD 0
                     else if X.getLastD 0 ≠ 0 then X.getLastD 0 else 0 }).store b
      { r with m_Next := 0, m_Prev := 0 }, ?_, ?_, ?_, ?_, ?_, ?_⟩
  · rw [RemoveFromChain_eq]
    have hv : VALID_ENTITY r.m_ID = true := by simp [VALID_ENTITY, hid]
    simp only [pure, Except.pure] at hw1 hw2
    simp only [hr, bind, Except.bind, hv, if_true, hn, hp, hw1, hr1, hw2, hr2, hx2, hroot,
      pure, Except.pure, modifyInst_eq hx2, modify_eq (hr3 _)]
  · simp only [s_Instances_store]
    have h01 := ((inst_ok_iff w r.m_ID).1 ⟨x, hx⟩).1
    simp only [World.setInst, h01, if_true, hi2, hi1]
  · exact deref_store_same (hr3 _) _
  · intro q hqb hqp hqn
    rw [deref_store_ne _ (Ne.symm hqb), deref_setInst, hd2 q hqp, hd1 q hqn]
  · intro rx hrx
    have h0 : X.getLastD 0 ≠ 0 := deref_ne_zero hrx
    rw [deref_store_ne _ hbp, deref_setInst]
    exact hd2' rx ((hd1 _ (hpn h0)).trans hrx)
  · intro ry hry
    have h0 : Y.headD 0 ≠ 0 := deref_ne_zero hry
    have hne : Y.headD 0 ≠ X.getLastD 0 := by
      intro e
      have h0' : X.getLastD 0 ≠ 0 := e ▸ h0
      exact hpn h0' e.symm
    rw [deref_store_ne _ hbn, deref_setInst, hd2 _ hne]
    exact hd1' ry hry

/-- A chain from which the node `b` has been taken out, its neighbours linked to one
another: the other nodes form a chain. -/
theorem isSeg_removed {w w' : World} {X Y : List Ptr} {b : Nat}
    (hs : isSeg w 0 (X ++ b :: Y) 0 = true) (hnd : (X ++ b :: Y).Nodup)
    (hdq : ∀ q, q ≠ b → q ≠ X.getLastD 0 → q ≠ Y.headD 0 → w'.deref q = w.deref q)
    (hdp : ∀ rx, w.deref (X.getLastD 0) = .ok rx →
      w'.deref (X.getLastD 0) = .ok { rx with m_Next := Y.headD 0 })
    (hdn : ∀ ry, w.deref (Y.headD 0) = .ok ry →
      w'.deref (Y.headD 0) = .ok { ry with m_Prev := X.getLastD 0 }) :
    isSeg w' 0 (X ++ Y) 0 = true := by
  have hsplit := hs
  rw [isSeg_append, isSeg_cons] at hsplit
  obtain ⟨hsX, -, -, -, -, hsY⟩ := hsplit
  simp only [List.headD_cons] at hsX
  have hndX : b ∉ X := fun h => (List.nodup_append.1 hnd).2.2 h (List.mem_cons_self _ _)
  have hndY : b ∉ Y := fun h => (List.nodup_cons.1 (List.nodup_append.1 hnd).2.1).1 h
  have hXY : ∀ a, a ∈ X → a ∈ Y → False := fun a h1 h2 =>
    (List.nodup_append.1 hnd).2.2 h1 (List.mem_cons_of_mem _ h2)
  rw [isSeg_append]
  constructor
  · rcases isSeg_before hsX with ⟨hX, -⟩ | ⟨X', x', rx, hX, hl, hrx, -, hrxp, hsX'⟩
    · rw [hX]
      rfl
    · have hx'X' : x' ∉ X' := by
        have := (List.nodup_append.1 hnd).1
        rw [hX] at this
        exact fun h => (List.nodup_append.1 this).2.2 h (List.mem_singleton_self _)
      rw [hl] at hdp hdq
      have hrx' := hdp rx hrx
      rw [hX, isSeg_append, isSeg_cons]
      refine ⟨?_, _, hrx', hrxp, rfl, rfl⟩
      refine isSeg_congr (fun a ha ra hra => ⟨ra, ?_, rfl, rfl⟩) hsX'
      have haX : a ∈ X := by rw [hX]; exact List.mem_append_left _ ha
      rw [hdq a (fun e => hndX (e ▸ haX)) (fun e => hx'X' (e ▸ ha)) ?_, hra]
      intro e
      rcases isSeg_after hsY with ⟨-, h0⟩ | ⟨y, Y', ry, hY, hly, -⟩
      · exact deref_ne_zero hra (e.trans h0)
      · exact hXY a haX (by rw [e, hly, hY]; exact List.mem_cons_self _ _)
  · rcases isSeg_after hsY with ⟨hY, -⟩ | ⟨y, Y', ry, hY, hl, hry, -, hryn, hsY'⟩
    · rw [hY]
      rfl
    · have hyY' : y ∉ Y' := by
        have := (List.nodup_cons.1 (List.nodup_append.1 hnd).2.1).2
        rw [hY] at this
        exact (List.nodup_cons.1 this).1
      rw [hl] at hdn hdq
      have hry' := hdn ry hry
      rw [hY, isSeg_cons]
      refine ⟨_, hry', rfl, hryn, ?_⟩
      refine isSeg_congr (fun a ha ra hra => ⟨ra, ?_, rfl, rfl⟩) hsY'
      have haY : a ∈ Y := by rw [hY]; exact List.mem_cons_of_mem _ ha
      rw [hdq a (fun e => hndY (e ▸ haY)) ?_ (fun e => hyY' (e ▸ ha)), hra]
      intro e
      rcases isSeg_before hsX with ⟨-, h0⟩ | ⟨X', x', rx, hX, hlx, -⟩
      · exact deref_ne_zero hra (e.trans h0)
      · exact hXY a (by rw [e, hlx, hX]; simp) haY

/-- `RemoveFromChain` on any node `p` of the chain of a live slot, the root or another: the
other nodes form the chain afterwards, `p` is linked to nothing, and no id changes. -/
theorem RemoveFromChain_bound {w : World} {id : Int} {X Y : List Ptr} {p : Nat}
    (h : BoundChain w id (X ++ p :: Y)) :
    ∃ (w1 : World) (r : Reference), w.deref p = .ok r ∧ r.m_ID = id ∧
      RemoveFromChain p w = .ok w1 ∧ w1.Max = w.Max ∧
      (∀ k, k ≠ id → w1.inst k = w.inst k) ∧
      w1.deref p = .ok { r with m_Next := 0, m_Prev := 0 } ∧
      isSeg w1 0 (X ++ Y) 0 = true ∧
      (∀ q r0, w.deref q = .ok r0 → ∃ r1, w1.deref q = .ok r1 ∧ r1.m_ID = r0.m_ID) := by
  obtain ⟨x, hx, -, hroot⟩ := h.slot
  obtain ⟨r, hr, hrid⟩ := h.bound p (by simp)
  have hid0 : 0 ≤ r.m_ID := by
    rw [hrid]
    exact ((inst_ok_iff w id).1 ⟨x, hx⟩).1
  have hxr : w.inst r.m_ID = .ok x := by rw [hrid]; exact hx
  have hids : ∀ (w' : World), w'.deref p = .ok { r with m_Next := 0, m_Prev := 0 } →
      (∀ q, q ≠ p → q ≠ X.getLastD 0 → q ≠ Y.headD 0 → w'.deref q = w.deref q) →
      (∀ rx, w.deref (X.getLastD 0) = .ok rx →
        w'.deref (X.getLastD 0) = .ok { rx with m_Next := Y.headD 0 }) →
      (∀ ry, w.deref (Y.headD 0) = .ok ry →
        w'.deref (Y.headD 0) = .ok { ry with m_Prev := X.getLastD 0 }) →
      ∀ q r0, w.deref q = .ok r0 → ∃ r1, w'.deref q = .ok r1 ∧ r1.m_ID = r0.m_ID := by
    intro w' hdb hdq hdp hdn q r0 h0
    by_cases hqb : q = p
    · subst hqb
      rw [hr] at h0
      cases h0
      exact ⟨_, hdb, rfl⟩
    · by_cases hqp : q = X.getLastD 0
      · subst hqp
        exact ⟨_, hdp r0 h0, rfl⟩
      · by_cases hqn : q = Y.headD 0
        · subst hqn
          exact ⟨_, hdn r0 h0, rfl⟩
        · exact ⟨r0, (hdq q hqb hqp hqn).trans h0, rfl⟩
  by_cases hrp : x.Root = p
  · obtain ⟨w1, hw1, hi, hdb, hdq, hdp, hdn⟩ :=
      RemoveFromChain_pointwise_root h.seg h.nodup hr hid0 hxr hrp
    refine ⟨w1, r, hr, hrid, hw1, ?_, ?_, hdb, isSeg_removed h.seg h.nodup hdq hdp hdn,
      hids w1 hdb hdq hdp hdn⟩
    · rw [Max_congr hi, Max_setInst]
    · intro k hk
      rw [inst_congr hi, inst_setInst_ne _ (by rw [hrid]; exact Ne.symm hk)]
  · obtain ⟨w1, hw1, hi, hdb, hdq, hdp, hdn⟩ :=
      RemoveFromChain_pointwise h.seg h.nodup hr hid0 hxr hrp
    exact ⟨w1, r, hr, hrid, hw1, Max_congr hi, fun k _ => inst_congr hi k, hdb,
      isSeg_removed h.seg h.nodup hdq hdp hdn, hids w1 hdb hdq hdp hdn⟩

/-- What the generic `EpsLtEq` and `EpsGtEq` compute where they are defined: whether the
arguments differ. -/
theorem EpsLtEq_eq_ne (a b : Int) (e : Bool) (h : EpsEq a b = some e) :
    EpsLtEq a b = some (decide (a ≠ b)) ∧ EpsGtEq a b = some (decide (a ≠ b)) := by
  unfold EpsEq at h
  split at h
  · simp only [Option.some.injEq] at h
    subst h
    unfold EpsLtEq EpsGtEq EpsEq
    simp only [*, if_true, Option.map_some', Option.some.injEq]
    by_cases hab : a = b
    · subst hab
      simp
    · have h1 : ¬ |a - b| ≤ 0 := by
        intro h0
        have := abs_nonpos_iff.1 h0
        omega
      simp [h1, hab]
  · cases h

/-- C27. The generic `EpsLtEq` and `EpsGtEq` are `false` on equal arguments, `EpsLtEq(5, 3)` is
`true` and `EpsGtEq(3, 5)` is `true`: they are not the comparisons `a <= b` and `a >= b`. -/
theorem EpsLtEq_EpsGtEq_at_equal :
    EpsLtEq 3 3 = some false ∧ EpsGtEq 3 3 = some false ∧
      EpsLtEq 5 3 = some true ∧ EpsGtEq 3 5 = some true := by
  decide

/-- C30. `Date::DaysInMonth` reads `MonthLengths` at the index `month`, not `month - 1`: for
January it returns `28`, for March `30`, for February `31` or, in a leap year, `32`, and for
December it reads outside the table. -/
theorem DaysInMonth_off_by_one (IsLeapYear : Nat → Bool) (year : Nat) :
    DaysInMonth IsLeapYear year 1 = .ok 28 ∧ calendarLength 1 = 31 ∧
      DaysInMonth IsLeapYear year 3 = .ok 30 ∧ calendarLength 3 = 31 ∧
      DaysInMonth IsLeapYear year 2 = .ok (if IsLeapYear year then 32 else 31) ∧
      DaysInMonth IsLeapYear year 12 = .error .outOfBounds := by
  refine ⟨rfl, rfl, rfl, rfl, ?_, rfl⟩
  unfold DaysInMonth
  cases h : IsLeapYear year <;> simp [MonthLengths, h]

/-- One doubling step of the bit smearing of `NextPow2`: if bit `i` of `r` says whether `m` has
a bit set among the `w` bits from `i` on, bit `i` of `r | r >> w` says so for `2 w` bits. -/
theorem smear_step {m r w : Nat}
    (h : ∀ i, r.testBit i = true ↔ ∃ j, j < w ∧ m.testBit (i + j) = true) :
    ∀ i, (r ||| (r >>> w)).testBit i = true ↔ ∃ j, j < 2 * w ∧ m.testBit (i + j) = true := by
  intro i
  rw [Nat.testBit_or, Nat.testBit_shiftRight, Bool.or_eq_true, h, h]
  constructor
  · rintro (⟨j, hj, hb⟩ | ⟨j, hj, hb⟩)
    · exact ⟨j, by omega, hb⟩
    · exact ⟨w + j, by omega, by rw [← hb]; congr 1; omega⟩
  · rintro ⟨j, hj, hb⟩
    by_cases hjw : j < w
    · exact Or.inl ⟨j, hjw, hb⟩
    · exact Or.inr ⟨j - w, by omega, by rw [← hb]; congr 1; omega⟩

theorem testBit_log2 {m : Nat} (hm : m ≠ 0) : m.testBit m.log2 = true := by
  rw [Nat.testBit_to_div_mod]
  have h1 := Nat.log2_self_le hm
  have h2 := @Nat.lt_log2_self m
  have hdiv : m / 2 ^ m.log2 = 1 := by
    apply Nat.div_eq_of_lt_le
    · simpa using h1
    · rw [Nat.pow_succ] at h2
      omega
  simp [hdiv]

/-- The bit smearing of `NextPow2` on a non-zero `m` below `2 ^ 32` sets every bit up to the
highest set bit of `m`. -/
theorem smear_eq {m : Nat} (hm : m ≠ 0) (h32 : m < 2 ^ 32) :
    (let n1 := m ||| (m >>> 1)
     let n2 := n1 ||| (n1 >>> 2)
     let n3 := n2 ||| (n2 >>> 4)
     let n4 := n3 ||| (n3 >>> 8)
     n4 ||| (n4 >>> 16)) = 2 ^ (m.log2 + 1) - 1 := by
  have h0 : ∀ i, m.testBit i = true ↔ ∃ j, j < 1 ∧ m.testBit (i + j) = true := by
    intro i
    constructor
    · intro h
      exact ⟨0, by omega, h⟩
    · rintro ⟨j, hj, hb⟩
      have : j = 0 := by omega
      subst this
      exact hb
  have h5 := smear_step (smear_step (smear_step (smear_step (smear_step h0))))
  simp only [Nat.mul_one, Nat.reduceMul] at h5
  simp only
  apply Nat.eq_of_testBit_eq
  intro i
  rw [Nat.testBit_two_pow_sub_one]
  have hk : m.log2 < 32 := (Nat.log2_lt hm).2 h32
  by_cases hi : i < m.log2 + 1
  · rw [decide_eq_true hi]
    exact (h5 i).2 ⟨m.log2 - i, by omega, by
      rw [show i + (m.log2 - i) = m.log2 by omega]
      exact testBit_log2 hm⟩
  · rw [decide_eq_false hi, Bool.eq_false_iff]
    intro hb
    obtain ⟨j, -, hj⟩ := (h5 i).1 hb
    have hlt : m < 2 ^ (i + j) :=
      Nat.lt_of_lt_of_le Nat.lt_log2_self (Nat.pow_le_pow_right (by norm_num) (by omega))
    rw [Nat.testBit_lt_two_pow hlt] at hj
    cases hj

/-- The value of `NextPow2` for `1 <= n <= 2 ^ 31`. -/
theorem NextPow2_eq {n : Nat} (h1 : 1 ≤ n) (h2 : n ≤ 2 ^ 31) :
    NextPow2 n = if n = 1 then 1 else 2 ^ ((n - 1).log2 + 1) := by
  have hdec : (n + (2 ^ 32 - 1)) % 2 ^ 32 = n - 1 := by omega
  unfold NextPow2
  simp only [hdec]
  by_cases hn : n = 1
  · subst hn
    rfl
  · rw [if_neg hn]
    have hm : n - 1 ≠ 0 := by omega
    have h32 : n - 1 < 2 ^ 32 := by omega
    have hs := smear_eq hm h32
    simp only at hs
    rw [hs]
    have hk : (n - 1).log2 < 31 := (Nat.log2_lt hm).2 (by omega)
    have hpos : 0 < 2 ^ ((n - 1).log2 + 1) := Nat.pow_pos (by norm_num)
    have hle : 2 ^ ((n - 1).log2 + 1) ≤ 2 ^ 31 := Nat.pow_le_pow_right (by norm_num) (by omega)
    rw [Nat.sub_add_cancel hpos, Nat.mod_eq_of_lt (by omega)]

/-- C26. For every `Uint32` value `n` with `1 <= n <= 2 ^ 31`, `NextPow2(n)` is a power of two,
is not below `n`, is below `2 n`, is the least power of two not below `n`, and is `n` itself
when `n` is a power of two. -/
theorem NextPow2_spec (n : Nat) (h1 : 1 ≤ n) (h2 : n ≤ 2 ^ 31) :
    (∃ k, NextPow2 n = 2 ^ k) ∧ n ≤ NextPow2 n ∧ NextPow2 n < 2 * n ∧
      (∀ k, n ≤ 2 ^ k → NextPow2 n ≤ 2 ^ k) ∧ ((∃ k, n = 2 ^ k) → NextPow2 n = n) := by
  have hmain : (∃ k, NextPow2 n = 2 ^ k) ∧ n ≤ NextPow2 n ∧ NextPow2 n < 2 * n := by
    rw [NextPow2_eq h1 h2]
    by_cases hn : n = 1
    · subst hn
      exact ⟨⟨0, rfl⟩, by norm_num, by norm_num⟩
    · rw [if_neg hn]
      have hm : n - 1 ≠ 0 := by omega
      have hlo := Nat.log2_self_le hm
      have hhi := @Nat.lt_log2_self (n - 1)
      refine ⟨⟨_, rfl⟩, by omega, ?_⟩
      rw [Nat.pow_succ]
      omega
  obtain ⟨⟨k0, hk0⟩, hge, hlt⟩ := hmain
  have hleast : ∀ k, n ≤ 2 ^ k → NextPow2 n ≤ 2 ^ k := by
    intro k hk
    rw [hk0]
    by_contra hcon
    have hkk : k < k0 := by
      by_contra hge0
      exact hcon (Nat.pow_le_pow_right (by norm_num) (by omega))
    have h2k : 2 * 2 ^ k ≤ 2 ^ k0 := by
      have := Nat.pow_le_pow_right (show 0 < 2 by norm_num) (show k + 1 ≤ k0 by omega)
      rw [Nat.pow_succ] at this
      omega
    omega
  refine ⟨⟨k0, hk0⟩, hge, hlt, hleast, ?_⟩
  rintro ⟨k, hk⟩
  have := hleast k (by omega)
  omega

theorem NextPow2_spec_witness :
    (∃ k, NextPow2 5 = 2 ^ k) ∧ 5 ≤ NextPow2 5 ∧ NextPow2 5 < 2 * 5 ∧
      (∀ k, 5 ≤ 2 ^ k → NextPow2 5 ≤ 2 ^ k) ∧ ((∃ k, 5 = 2 ^ k) → NextPow2 5 = 5) :=
  NextPow2_spec 5 (by decide) (by norm_num)

/-! ## References and filters on deactivated slots -/

/-- C25. A reference bound to slot `0` keeps the id `0` when the slot is deactivated, and its
`IsActive()` is still `true` although `Verify(0)` is `false`. -/
theorem isActiveScenario_eval : isActiveScenario = .ok (true, 0, false) := by
  decide

/-- C21. A reference bound to slot `0` keeps the id `0` when the slot is deactivated;
`Include` of that reference returns `true` and sets bit `0` of the filter although `Verify(0)`
is `false`. -/
theorem includeInactiveScenario_eval :
    includeInactiveScenario = .ok (true, [true, false], false) := by
  decide

/-- C28. After `danglingNodeOps`, run from the initial state of a kind with two slots, the
chain of slot `0` runs from its root, the reference at address `2`, to the address `1` of the
reference that was destroyed: a node of the chain is not an existing reference. -/
theorem runOps_danglingNode :
    ∃ w x b, runOps 4 danglingNodeOps (World.init 2) = .ok w ∧ w.existing = [2] ∧
      w.inst 0 = .ok x ∧ x.Root = 2 ∧ w.deref 2 = .ok b ∧ b.m_Next = 1 ∧
      w.deref 1 = .error .dangling := by
  refine ⟨_, _, _, rfl, ?_, rfl, rfl, rfl, rfl, ?_⟩ <;> decide

/-! ## Filters: `Clear`, the listener `Destroyed`, and incompatible kinds -/

theorem count_true_eq_zero {bits : List Bool} (h : bits.any id = false) :
    bits.count true = 0 := by
  rw [List.count_eq_zero]
  intro hmem
  have : bits.any id = true := List.any_eq_true.2 ⟨true, hmem, rfl⟩
  rw [h] at this
  cases this

theorem count_map_false (bits : List Bool) : (bits.map (fun _ => false)).count true = 0 := by
  rw [List.count_eq_zero]
  simp

theorem any_map_false (bits : List Bool) : (bits.map (fun _ => false)).any id = false := by
  induction bits with
  | nil => rfl
  | cons a bits ih => simp

/-- `Unhook` of a filter with one bit per slot completes and changes neither the parent event
nor the record of the script functions called. -/
theorem Unhook_ok (T : EntType) (self : Nat) (f : GlobalFilter) (w : World)
    (hlen : f.m_Filter.length = w.s_Instances.length) :
    ∃ f1 w1, f.Unhook T self w = .ok (f1, w1) ∧ f1.m_Event = f.m_Event ∧
      f1.invoked = f.invoked ∧ f1.m_Filter.length = f.m_Filter.length := by
  unfold GlobalFilter.Unhook
  by_cases hd : T.DestroyEvID = f.m_Event.m_Type
  · rw [if_pos hd]
    exact ⟨f, w, rfl, rfl, rfl, rfl⟩
  · rw [if_neg hd]
    obtain ⟨bits1, w1, hl1, -, -, hj1⟩ :=
      hookLoop_all Disconnect self f.m_Filter w (by rw [ids_length]; exact hlen)
    rw [hl1]
    exact ⟨_, _, rfl, rfl, rfl, length_of_getElem? hj1⟩

/-- C22. For a filter compatible with its parent event, with one bit per slot: `Clear(header)`
completes, and afterwards `Count()` is `0` and `None()` is `true`; the `OnCleared` function is
called once, with `header`, if it is set and a bit was set before the call, and no script
function is called otherwise. -/
theorem Clear_spec (T : EntType) (self : Nat) (header : Int) (f : GlobalFilter) (w : World)
    (hc : T.InEvent f.m_Event.m_Type = true)
    (hlen : f.m_Filter.length = w.s_Instances.length) :
    ∃ f1 w1, f.Clear T self header w = .ok (f1, w1) ∧ f1.Count = 0 ∧ f1.None = true ∧
      f1.invoked = f.invoked ++
        (if f.m_Event.m_OnCleared.isSome = true ∧ f.Any = true then [.OnCleared header]
         else []) := by
  unfold GlobalFilter.Clear
  simp only [hc, Bool.not_true, Bool.false_eq_true, if_false]
  by_cases hany : f.m_Filter.any id = true
  · rw [if_pos hany]
    cases hh : f.m_Event.m_OnCleared with
    | none =>
      obtain ⟨f1, w1, hu, -, hinv, -⟩ := Unhook_ok T self f w hlen
      simp only [hu]
      refine ⟨_, _, rfl, ?_, ?_, ?_⟩
      · simp only [GlobalFilter.Count, count_map_false]
        rfl
      · simp only [GlobalFilter.None, any_map_false]
        rfl
      · simp [hinv]
    | some g =>
      obtain ⟨f1, w1, hu, -, hinv, -⟩ :=
        Unhook_ok T self { f with invoked := f.invoked ++ [.OnCleared header] } w hlen
      simp only [hu]
      refine ⟨_, _, rfl, ?_, ?_, ?_⟩
      · simp only [GlobalFilter.Count, count_map_false]
        rfl
      · simp only [GlobalFilter.None, any_map_false]
        rfl
      · simp [hinv, GlobalFilter.Any, hany]
  · rw [Bool.not_eq_true] at hany
    rw [if_neg (by rw [hany]; exact Bool.false_ne_true)]
    refine ⟨f, w, rfl, ?_, ?_, ?_⟩
    · simp only [GlobalFilter.Count, count_true_eq_zero hany]
      rfl
    · simp only [GlobalFilter.None, hany]
      rfl
    · simp [GlobalFilter.Any, hany]

theorem Clear_spec_witness :
    ∃ f1 w1, fullFilter.Clear .CPlayer 7 5 worldOneBound = .ok (f1, w1) ∧ f1.Count = 0 ∧
      f1.None = true ∧
      f1.invoked = fullFilter.invoked ++
        (if fullFilter.m_Event.m_OnCleared.isSome = true ∧ fullFilter.Any = true
         then [.OnCleared 5] else []) :=
  Clear_spec .CPlayer 7 5 fullFilter worldOneBound (by decide) (by decide)

/-- C23. For every id of the bit set: the listener `Destroyed(id, header, payload)` completes,
calls the `OnRelease` function once, with `id`, if it is set and no script function otherwise,
leaves bit `id` clear and every other bit as it was; `Count()` drops by one if bit `id` was set
and stays otherwise. -/
theorem Destroyed_spec (id header : Int) (f : GlobalFilter)
    (h0 : 0 ≤ id) (hlt : id.toNat < f.m_Filter.length) :
    ∃ f1, f.Destroyed id header = .ok f1 ∧
      f1.invoked = f.invoked ++
        (if f.m_Event.m_OnRelease.isSome = true then [.OnRelease id] else []) ∧
      testBit f1.m_Filter id = .ok false ∧
      (∀ j : Nat, j ≠ id.toNat → f1.m_Filter[j]? = f.m_Filter[j]?) ∧
      f1.Count = f.Count - (if testBit f.m_Filter id = .ok true then 1 else 0) := by
  have hb : testBit f.m_Filter id = .ok f.m_Filter[id.toNat] :=
    testBit_ok_iff.2 ⟨h0, List.getElem?_eq_getElem hlt⟩
  have hset : ∀ f0 : GlobalFilter, f0.m_Filter = f.m_Filter →
      setBit f0.m_Filter id false = .ok (f.m_Filter.set id.toNat false) := by
    intro f0 hf0
    rw [hf0]
    exact setBit_eq hb false
  have hcount : ((f.m_Filter.set id.toNat false).count true : Int)
      = (f.m_Filter.count true : Int)
        - (if testBit f.m_Filter id = .ok true then 1 else 0) := by
    cases hbit : f.m_Filter[id.toNat] with
    | false =>
      rw [hbit] at hb
      rw [hb]
      have : f.m_Filter.set id.toNat false = f.m_Filter := by
        have := set_set_of_testBit hb false
        rw [List.set_set] at this
        exact this
      rw [this]
      simp
    | true =>
      rw [hbit] at hb
      rw [hb]
      have := count_set_false (testBit_ok_iff.1 hb).2
      simp only [if_true]
      omega
  have hother : ∀ j : Nat, j ≠ id.toNat →
      (f.m_Filter.set id.toNat false)[j]? = f.m_Filter[j]? := fun j hj =>
    List.getElem?_set_ne (Ne.symm hj)
  unfold GlobalFilter.Destroyed GlobalFilter.Release
  cases hh : f.m_Event.m_OnRelease with
  | none =>
    simp only [hset f rfl]
    exact ⟨_, rfl, by simp, testBit_set hb false, hother, hcount⟩
  | some g =>
    simp only [hset { f with invoked := f.invoked ++ [.OnRelease id] } rfl]
    exact ⟨_, rfl, by simp, testBit_set hb false, hother, hcount⟩

theorem Destroyed_spec_witness :
    ∃ f1, fullFilter.Destroyed 1 0 = .ok f1 ∧
      f1.invoked = fullFilter.invoked ++
        (if fullFilter.m_Event.m_OnRelease.isSome = true then [.OnRelease 1] else []) ∧
      testBit f1.m_Filter 1 = .ok false ∧
      (∀ j : Nat, j ≠ (1 : Int).toNat → f1.m_Filter[j]? = fullFilter.m_Filter[j]?) ∧
      f1.Count = fullFilter.Count - (if testBit fullFilter.m_Filter 1 = .ok true then 1 else 0) :=
  Destroyed_spec 1 0 fullFilter (by decide) (by decide)

theorem set_replicate_same (n i : Nat) (a : Bool) :
    (List.replicate n a).set i a = List.replicate n a := by
  apply List.ext_getElem?
  intro j
  by_cases hij : i = j
  · subst hij
    by_cases hlt : i < n
    · rw [List.getElem?_set_self (by simpa using hlt)]
      simp [List.getElem?_replicate, hlt]
    · rw [List.getElem?_eq_none (by simpa using hlt), List.getElem?_eq_none (by simpa using hlt)]
  · rw [List.getElem?_set_ne hij]

/-- The listener `Destroyed` in one equation. -/
theorem Destroyed_eq (id header : Int) (f : GlobalFilter) :
    f.Destroyed id header = (setBit f.m_Filter id false).map fun bits =>
      { m_Filter := bits, m_Event := f.m_Event,
        invoked := f.invoked ++
          (if f.m_Event.m_OnRelease.isSome = true then [.OnRelease id] else []) } := by
  unfold GlobalFilter.Destroyed GlobalFilter.Release
  cases hh : f.m_Event.m_OnRelease with
  | none =>
    simp only [Option.isSome_none, Bool.false_eq_true, if_false, List.append_nil]
    cases setBit f.m_Filter id false <;> rfl
  | some g =>
    simp only [Option.isSome_some, if_true]
    cases setBit f.m_Filter id false <;> rfl

/-- One call on an empty filter of a kind that is not raised for the type of the parent event:
the call completes and leaves the bits, the parent event and the slots as they are. -/
theorem runFilterOp_incompatible {T : EntType} {self n : Nat} {f : GlobalFilter} {w : World}
    {op : FilterOp} (hT : T.InEvent f.m_Event.m_Type = false)
    (hempty : f.m_Filter = List.replicate n false) (hop : op.valid w n = true) :
    ∃ f1, runFilterOp T self op f w = .ok (f1, w) ∧ f1.m_Filter = f.m_Filter ∧
      f1.m_Event = f.m_Event := by
  cases op with
  | Include ent header =>
    unfold FilterOp.valid at hop
    cases he : w.deref ent with
    | error err => simp [he] at hop
    | ok e =>
      refine ⟨f, ?_, rfl, rfl⟩
      unfold runFilterOp GlobalFilter.Include
      simp only [he, hT, Bool.not_false, if_true]
      split <;> rfl
  | Exclude ent header =>
    unfold FilterOp.valid at hop
    cases he : w.deref ent with
    | error err => simp [he] at hop
    | ok e =>
      refine ⟨f, ?_, rfl, rfl⟩
      unfold runFilterOp GlobalFilter.Exclude
      simp only [he, hT, Bool.not_false, if_true]
      split <;> rfl
  | Clear header =>
    exact ⟨f, by simp [runFilterOp, GlobalFilter.Clear, hT], rfl, rfl⟩
  | Flip header =>
    exact ⟨f, by simp [runFilterOp, GlobalFilter.Flip, hT], rfl, rfl⟩
  | Assign other o =>
    exact ⟨f, by simp [runFilterOp, GlobalFilter.Assign, hT], rfl, rfl⟩
  | Destroyed id header =>
    unfold FilterOp.valid at hop
    simp only [Bool.and_eq_true, decide_eq_true_eq] at hop
    have hset : setBit f.m_Filter id false = .ok f.m_Filter := by
      unfold setBit
      rw [hempty, List.length_replicate, if_pos hop, set_replicate_same]
    refine ⟨{ f with invoked := f.invoked ++
      (if f.m_Event.m_OnRelease.isSome = true then [.OnRelease id] else []) }, ?_, rfl, rfl⟩
    simp only [runFilterOp]
    rw [Destroyed_eq, hset]
    rfl

/-- C29. For a filter of a kind `T` with `T.InEvent(type) = false` for the type of its parent
event, empty as constructed: every sequence of `Include`, `Exclude`, `Clear`, `Flip`, copy
assignment and `Destroyed` calls, with references that exist and ids of the bit set, completes
and leaves the filter empty: `Count()` is `0`, `Any()` is `false`, and the slots are as they
were. -/
theorem runFilterOps_incompatible (T : EntType) (self n : Nat) (f : GlobalFilter) (w : World)
    (ops : List FilterOp) (hT : T.InEvent f.m_Event.m_Type = false)
    (hempty : f.m_Filter = List.replicate n false)
    (hops : ∀ op ∈ ops, op.valid w n = true) :
    ∃ f1, runFilterOps T self ops f w = .ok (f1, w) ∧ f1.m_Filter = List.replicate n false ∧
      f1.Count = 0 ∧ f1.Any = false := by
  have hmain : ∃ f1, runFilterOps T self ops f w = .ok (f1, w) ∧
      f1.m_Filter = List.replicate n false := by
    induction ops generalizing f with
    | nil => exact ⟨f, rfl, hempty⟩
    | cons op ops ih =>
      obtain ⟨f1, h1, hf1, he1⟩ :=
        @runFilterOp_incompatible T self n f w op hT hempty (hops op (List.mem_cons_self _ _))
      obtain ⟨f2, h2, hf2⟩ := ih f1 (by rw [he1]; exact hT) (by rw [hf1]; exact hempty)
        (fun o ho => hops o (List.mem_cons_of_mem _ ho))
      refine ⟨f2, ?_, hf2⟩
      unfold runFilterOps
      simp only [h1]
      exact h2
  obtain ⟨f1, h1, hf1⟩ := hmain
  refine ⟨f1, h1, hf1, ?_, ?_⟩
  · simp only [GlobalFilter.Count, hf1]
    rw [List.count_replicate]
    simp
  · simp only [GlobalFilter.Any, hf1]
    rw [Bool.eq_false_iff]
    intro h
    obtain ⟨b, hb, hid⟩ := List.any_eq_true.1 h
    rw [List.eq_of_mem_replicate hb] at hid
    cases hid

theorem runFilterOps_incompatible_witness :
    ∃ f1, runFilterOps .CBlip 7
        [.Include 1 0, .Flip 0, .Assign 8 fullFilter, .Destroyed 1 0, .Exclude 1 0, .Clear 0]
        (emptyFilter .EVT_PLAYERSPAWN) worldOneBound = .ok (f1, worldOneBound) ∧
      f1.m_Filter = List.replicate 2 false ∧ f1.Count = 0 ∧ f1.Any = false :=
  runFilterOps_incompatible .CBlip 7 2 (emptyFilter .EVT_PLAYERSPAWN) worldOneBound
    [.Include 1 0, .Flip 0, .Assign 8 fullFilter, .Destroyed 1 0, .Exclude 1 0, .Clear 0]
    (by decide) rfl (by decide)

/-! ## Throttling -/

/-- One raise of an event with stride `3` and no idle timeout, in a state in which `c` raises
count toward the stride and `g` raises are to be ignored. -/
theorem Trigger_stride3 (now : Nat) (e : Throttle) (c g : Nat) (hs : e.m_Stride = 3)
    (ht : e.timeout = 0) (hr : e.raised = c) (hg : e.m_Ignore = g) :
    (Trigger now e).1 = (decide (g = 0) && decide ((c + 1) % 3 = 0)) ∧
      (Trigger now e).2.m_Stride = 3 ∧ (Trigger now e).2.timeout = 0 ∧
      (Trigger now e).2.raised = (((c + 1) % 3 : Nat) : Int) ∧
      (Trigger now e).2.m_Ignore = ((g - 1 : Nat) : Int) := by
  have h1 : (if (1 : Int) < 3 then ((c : Int) + 1) % 3 else 0) = (((c + 1) % 3 : Nat) : Int) := by
    rw [if_pos (by norm_num)]
    omega
  have h2 : (if (0 : Int) < g then (g : Int) - 1 else g) = ((g - 1 : Nat) : Int) := by
    split <;> omega
  have h3 : decide ((((c + 1) % 3 : Nat) : Int) = 0) = decide ((c + 1) % 3 = 0) :=
    decide_eq_decide.2 (by omega)
  have h4 : decide ((g : Int) ≤ 0) = decide (g = 0) := decide_eq_decide.2 (by omega)
  unfold Trigger
  simp only [hs, ht, hr, hg, h1, h2, h3, h4, decide_True, Bool.true_or, Bool.and_true]
  cases hb : (decide ((c + 1) % 3 = 0) && decide (g = 0))
  · simp only [Bool.false_eq_true, if_false]
    refine ⟨?_, trivial, trivial, trivial, trivial⟩
    rw [Bool.and_comm, hb]
  · simp only [if_true]
    refine ⟨?_, trivial, trivial, trivial, trivial⟩
    rw [Bool.and_comm, hb]

/-- The raises of an event with stride `3` and no idle timeout, from a state in which `c`
raises count toward the stride and `g` raises are to be ignored: the raise number `i + 1` is
forwarded when `g` raises have gone by and `c + i + 1` is a multiple of `3`. -/
theorem raises_stride3 (times : List Nat) :
    ∀ (e : Throttle) (c g : Nat), e.m_Stride = 3 → e.timeout = 0 → e.raised = c → c < 3 →
      e.m_Ignore = g →
      (raises times e).1 = (List.range times.length).map (fun i =>
        decide (g ≤ i) && decide ((c + i + 1) % 3 = 0)) ∧
      (raises times e).2.m_Stride = 3 ∧ (raises times e).2.timeout = 0 ∧
      (raises times e).2.raised = (((c + times.length) % 3 : Nat) : Int) ∧
      (raises times e).2.m_Ignore = ((g - times.length : Nat) : Int) := by
  induction times with
  | nil =>
    intro e c g hs ht hr hc hg
    refine ⟨rfl, hs, ht, ?_, ?_⟩
    · simp only [raises, hr, List.length_nil, Nat.add_zero, Nat.mod_eq_of_lt hc]
    · simp only [raises, hg, List.length_nil, Nat.sub_zero]
  | cons now times ih =>
    intro e c g hs ht hr hc hg
    obtain ⟨h0, h1, h2, h3, h4⟩ := Trigger_stride3 now e c g hs ht hr hg
    obtain ⟨ih1, ih2, ih3, ih4, ih5⟩ :=
      ih (Trigger now e).2 ((c + 1) % 3) (g - 1) h1 h2 h3 (Nat.mod_lt _ (by norm_num)) h4
    have hraises : raises (now :: times) e =
        ((Trigger now e).1 :: (raises times (Trigger now e).2).1,
         (raises times (Trigger now e).2).2) := rfl
    rw [hraises]
    refine ⟨?_, ih2, ih3, ?_, ?_⟩
    · simp only [List.length_cons, List.range_succ_eq_map, List.map_cons, List.map_map]
      rw [h0, ih1]
      congr 1
      · congr 1
        apply decide_eq_decide.2
        omega
      · apply List.map_congr_left
        intro i _
        simp only [Function.comp]
        congr 1
        · apply decide_eq_decide.2
          omega
        · apply decide_eq_decide.2
          omega
    · rw [ih4]
      simp only [List.length_cons]
      congr 1
      omega
    · rw [ih5]
      simp only [List.length_cons]
      congr 1
      omega

/-- C24. For an event with stride `3`, ignore `0` and no idle timeout, on which no raise has
been counted: the raise number `n` is forwarded exactly when `n` is a multiple of `3`; and if,
after any number of raises, the ignore count is set to `2`, the next two raises are not
forwarded, whatever their number, and from the third on a raise is forwarded exactly when its
number, counted from the first raise of all, is a multiple of `3`. -/
theorem Trigger_throttle (e : Throttle) (ts1 ts2 : List Nat) (hs : e.m_Stride = 3)
    (hi : e.m_Ignore = 0) (ht : e.timeout = 0) (hr : e.raised = 0) :
    (raises ts1 e).1 = (List.range ts1.length).map (fun i => decide ((i + 1) % 3 = 0)) ∧
      (raises ts2 (SetIgnore 2 (raises ts1 e).2)).1 = (List.range ts2.length).map (fun i =>
        decide (2 ≤ i) && decide ((ts1.length + i + 1) % 3 = 0)) := by
  obtain ⟨h1, h2, h3, h4, -⟩ :=
    raises_stride3 ts1 e 0 0 hs ht (by rw [hr]; rfl) (by norm_num) (by rw [hi]; rfl)
  constructor
  · rw [h1]
    apply List.map_congr_left
    intro i _
    simp
  · obtain ⟨h5, -⟩ := raises_stride3 ts2 (SetIgnore 2 (raises ts1 e).2)
      ((0 + ts1.length) % 3) 2 h2 h3 h4 (Nat.mod_lt _ (by norm_num)) rfl
    rw [h5]
    apply List.map_congr_left
    intro i _
    congr 1
    apply decide_eq_decide.2
    omega

theorem Trigger_throttle_witness :
    (raises [10, 20, 30, 40] { m_Stride := 3 }).1
        = (List.range [10, 20, 30, 40].length).map (fun i => decide ((i + 1) % 3 = 0)) ∧
      (raises [50, 60, 70, 80, 90]
          (SetIgnore 2 (raises [10, 20, 30, 40] { m_Stride := 3 }).2)).1
        = (List.range [50, 60, 70, 80, 90].length).map (fun i =>
            decide (2 ≤ i) && decide (([10, 20, 30, 40].length + i + 1) % 3 = 0)) :=
  Trigger_throttle { m_Stride := 3 } [10, 20, 30, 40] [50, 60, 70, 80, 90] rfl rfl rfl rfl

/-! ## `Activate` on a slot whose root outlived its references -/

/-- C5. After `danglingRootOps`, run from the initial state of a kind with two slots, the id
`0` is in range and slot `0` is not active, so that `Activate(0, owned, args)` is to return
`true`; but the `Root` of the slot still holds the address of a reference that was destroyed,
and `Activate` reads `Root->m_Prev` through it, whatever the fuel of the walks. -/
theorem Activate_dangling_root_faults :
    ∃ w, runOps 4 danglingRootOps (World.init 2) = .ok w ∧
      (decide ((0 : Int) ≤ 0 ∧ (0 : Int) < w.Max) && !Verify w 0) = true ∧
      ∀ fuel, Activate fuel 0 true [7] w = .error .dangling := by
  refine ⟨_, rfl, by decide, fun fuel => ?_⟩
  rfl

end SqMod
